import Mathlib

/-!
# GeneticTriangles: the evolutionary loop of `APathManager`

A shallow embedding of `Source/GeneticTriangles/PathManager.cpp`.

Conventions of the embedding.

* A `float` value is a rational (`ℚ`).  Every float operation written in
  `PathManager.cpp` (the blends, the fitness, the totals and averages, the selection shares,
  the crossover threshold) is the exact operation followed by the rounding `f32` to the
  nearest 32-bit float, ties to even; a float literal such as `0.1f` is the rounding of its
  decimal, and an `int32` converted to `float` is rounded as well.  Infinities and NaN are
  not modelled: no value overflows, and a division by zero yields 0.  The operators of
  `FVector` belong to the engine; vector sums and differences are taken exact.
* `int32` values are integers (`Int`); every integer that occurs is a container size or a
  difference of two container sizes, so no wrap-around can occur.
* `TArray` is `List`; an `APath*` is the path record itself, and every entry of
  `mPaths` is a live actor (the `IsValidLowLevelFast` checks succeed).
* The engine (line traces, vector norm, trigonometry, terrain snapping, the random
  number generator) is not part of the repository: it is the parameter `Engine`.
  Random calls are numbered; the call counter is threaded through the steps.
* A step that can fail or loop returns an `Option`: `SelectionStep` and `RunGeneration` take
  a bound `fuel` on the iterations of the selection loop and return `none` when it is
  exhausted; `CrossoverStep` returns `none` on a read past the end of the mating pool.
-/

namespace GeneticTriangles

/-! ## 32-bit floats -/

/-- The power of two `2 ^ e` for an integer exponent. -/
def pow2 (e : Int) : ℚ :=
  if 0 ≤ e then ((2 ^ e.toNat : Nat) : ℚ) else 1 / ((2 ^ (-e).toNat : Nat) : ℚ)

/-- The position of the leading bit of `n` (0 when `n < 2`), found by halving at most
`fuel` times. -/
def leadingBit : Nat → Nat → Nat
  | 0, _ => 0
  | fuel + 1, n => if n < 2 then 0 else leadingBit fuel (n / 2) + 1

/-- Rounding to the nearest integer, a tie going to the even neighbour. -/
def roundHalfEven (y : ℚ) : Int :=
  if y - ⌊y⌋ < 1 / 2 then ⌊y⌋
  else if 1 / 2 < y - ⌊y⌋ then ⌊y⌋ + 1
  else if ⌊y⌋ % 2 = 0 then ⌊y⌋ else ⌊y⌋ + 1

/-- The binary exponent `e` of a positive rational `x`, the one with
`2 ^ e ≤ x < 2 ^ (e + 1)`, but not below -126, the exponent of the least normal float (the
values below `2 ^ (-126)` are in the subnormal range, which has the same spacing). -/
def binade (x : ℚ) : Int :=
  let e0 : Int := (leadingBit x.num.natAbs x.num.natAbs : Int) - (leadingBit x.den x.den : Int)
  max (if x < pow2 e0 then e0 - 1 else e0) (-126)

/-- A non-negative rational rounded to the nearest multiple of `2 ^ (e - 23)`, the spacing
of the floats of its binade `e`: 24 significant bits, ties to even. -/
def roundMagnitude (x : ℚ) : ℚ :=
  (roundHalfEven (x / pow2 (binade x - 23)) : ℚ) * pow2 (binade x - 23)

/-- The nearest 32-bit float (IEEE 754 binary32, round to nearest, ties to even) of a
rational.  Overflow is not modelled: no value is rounded to an infinity. -/
def f32 (x : ℚ) : ℚ :=
  if x < 0 then -roundMagnitude (-x) else roundMagnitude x

/-- Float addition: the exact sum, rounded. -/
def fadd (a b : ℚ) : ℚ := f32 (a + b)

/-- Float subtraction: the exact difference, rounded. -/
def fsub (a b : ℚ) : ℚ := f32 (a - b)

/-- Float multiplication: the exact product, rounded. -/
def fmul (a b : ℚ) : ℚ := f32 (a * b)

/-- Float division: the exact quotient, rounded (0 for a zero divisor). -/
def fdiv (a b : ℚ) : ℚ := f32 (a / b)

/-! ## Data model -/

/-- Engine vector of three floats. -/
structure FVector where
  X : ℚ
  Y : ℚ
  Z : ℚ
deriving DecidableEq

/-- The constant `FVector::ZeroVector`. -/
def FVector.ZeroVector : FVector := ⟨0, 0, 0⟩

/-- Component-wise difference, `operator-` of `FVector`. -/
def FVector.sub (a b : FVector) : FVector := ⟨a.X - b.X, a.Y - b.Y, a.Z - b.Z⟩

/-- The dot product `FVector::DotProduct`. -/
def FVector.DotProduct (a b : FVector) : ℚ := a.X * b.X + a.Y * b.Y + a.Z * b.Z

/-- Trace channels used by the line traces of `EvaluateFitness`. -/
inductive ECollisionChannel where
  | ECC_GameTraceChannel1
  | ECC_GameTraceChannel2
  | ECC_GameTraceChannel4
deriving DecidableEq

/-- The two crossover operators tested by `CrossoverStep`. -/
inductive ECrossoverOperator where
  | SinglePoint
  | Uniform
deriving DecidableEq

/-- The engine services the manager calls.  The random functions are indexed by the
number of the random call that is being made. -/
structure Engine where
  /-- The call `GetWorld()->LineTraceSingleByChannel(hit, from, to, channel)`. -/
  LineTraceSingleByChannel : FVector → FVector → ECollisionChannel → Bool
  /-- The norm `FVector::Size`. -/
  Size : FVector → ℚ
  /-- The value of a vector after `FVector::Normalize`. -/
  Normalize : FVector → FVector
  /-- The function `FMath::Acos`. -/
  Acos : ℚ → ℚ
  /-- The function `FMath::RadiansToDegrees`. -/
  RadiansToDegrees : ℚ → ℚ
  /-- The waypoints of a path after `APath::SnapToTerrain`. -/
  SnapToTerrain : List FVector → List FVector
  /-- The call `FMath::FRand()`. -/
  FRand : Nat → ℚ
  /-- The call `FMath::FRandRange(min, max)`. -/
  FRandRange : Nat → ℚ → ℚ → ℚ
  /-- The call `FMath::RandRange(min, max)` on integers. -/
  RandRange : Nat → Int → Int → Int
  /-- The call `FMath::RandRange(min, max)` on floats. -/
  RandRangeFloat : Nat → ℚ → ℚ → ℚ

/-- Modelled from the spec: the class `APath` (Path.h and Path.cpp are not among the
sources).  A path individual is its genome, an ordered sequence of waypoints, its fitness
and its five evaluation flags. -/
structure APath where
  mGeneticRepresentation : List FVector
  mFitness : ℚ := 0
  mIsInObstacle : Bool := false
  mTravelingThroughTerrain : Bool := false
  mSlopeTooIntense : Bool := false
  mCanSeeTarget : Bool := false
  mHasReachedTarget : Bool := false
deriving DecidableEq

namespace APath

/-- Modelled from the spec: `APath::GetAmountOfNodes`, the node count is the genome
length. -/
def GetAmountOfNodes (p : APath) : Int := p.mGeneticRepresentation.length

/-- Modelled from the spec: `APath::GetGeneticRepresentation`. -/
def GetGeneticRepresentation (p : APath) : List FVector := p.mGeneticRepresentation

/-- Modelled from the spec: `APath::GetLocationOfFinalNode`, the final waypoint. -/
def GetLocationOfFinalNode (p : APath) : FVector :=
  p.mGeneticRepresentation.getLastD FVector.ZeroVector

/-- Sum of the lengths of the consecutive segments of a waypoint sequence. -/
def segmentSum (size : FVector → ℚ) : List FVector → ℚ
  | a :: b :: rest => size (b.sub a) + segmentSum size (b :: rest)
  | _ => 0

/-- Modelled from the spec: `APath::GetLength`, the total path length (sum of consecutive
segment lengths). -/
def GetLength (E : Engine) (p : APath) : ℚ := segmentSum E.Size p.mGeneticRepresentation

/-- Modelled from the spec: `APath::GetChromosome`, the waypoint at an index. -/
def GetChromosome (p : APath) (index : Nat) : FVector :=
  p.mGeneticRepresentation.getD index FVector.ZeroVector

/-- Modelled from the spec: `APath::AddChromosome` appends a waypoint to the genome. -/
def AddChromosome (p : APath) (v : FVector) : APath :=
  { p with mGeneticRepresentation := p.mGeneticRepresentation ++ [v] }

/-- Modelled from the spec: `APath::SetGeneticRepresentation` copies a genome. -/
def SetGeneticRepresentation (p : APath) (g : List FVector) : APath :=
  { p with mGeneticRepresentation := g }

/-- Modelled from the spec: `APath::DetermineGeneticRepresentation` finishes a freshly
built individual; its genome is the sequence of waypoints it was given. -/
def DetermineGeneticRepresentation (p : APath) : APath := p

/-- Modelled from the spec: `APath::SnapToTerrain` moves the waypoints onto the terrain.
The spec has the five flags reset at the start of each evaluation pass, and this call is
the first one `EvaluateFitness` makes on a path: the reset is placed here. -/
def SnapToTerrain (E : Engine) (p : APath) : APath :=
  { p with
    mGeneticRepresentation := E.SnapToTerrain p.mGeneticRepresentation
    mIsInObstacle := false
    mTravelingThroughTerrain := false
    mSlopeTooIntense := false
    mCanSeeTarget := false
    mHasReachedTarget := false }

/-- Modelled from the spec: `APath::SetFitness`. -/
def SetFitness (p : APath) (f : ℚ) : APath := { p with mFitness := f }

/-- Modelled from the spec: `APath::GetFitness`. -/
def GetFitness (p : APath) : ℚ := p.mFitness

/-- Modelled from the spec: `APath::MarkIsInObstacle`. -/
def MarkIsInObstacle (p : APath) : APath := { p with mIsInObstacle := true }

/-- Modelled from the spec: `APath::MarkTravelingThroughTerrain`. -/
def MarkTravelingThroughTerrain (p : APath) : APath := { p with mTravelingThroughTerrain := true }

/-- Modelled from the spec: `APath::MarkSlopeTooIntense`. -/
def MarkSlopeTooIntense (p : APath) : APath := { p with mSlopeTooIntense := true }

/-- Modelled from the spec: `APath::MarkCanSeeTarget`. -/
def MarkCanSeeTarget (p : APath) : APath := { p with mCanSeeTarget := true }

/-- Modelled from the spec: `APath::MarkHasReachedTarget`. -/
def MarkHasReachedTarget (p : APath) : APath := { p with mHasReachedTarget := true }

end APath

/-- The record `mGenerationInfo`. -/
structure FGenerationInfo where
  mGenerationNumber : Int := 0
  mAverageFitness : ℚ := 0
  mMaximumFitness : ℚ := 0
  mFitnessFactor : ℚ := 0
  mAverageAmountOfNodes : ℚ := 0
  mCrossoverAmount : Int := 0
  mAmountOfTranslationMutations : Int := 0
  mAmountOfInsertionMutations : Int := 0
  mAmountOfDeletionMutations : Int := 0
deriving DecidableEq

/-- The manager: its configuration properties and its run-time state.  The defaults are
those of the constructor where it sets one.  An entry of `Nodes` is the location of the
anchor actor, or `none` for an invalid actor pointer. -/
structure APathManager where
  PopulationCount : Int := 0
  MaxInitialVariation : ℚ := 40
  MinAmountOfPointsPerPathAtStartup : Int := 5
  MaxAmountOfPointsPerPathAtStartup : Int := 5
  TimeBetweenGenerations : ℚ := 1
  CrossoverProbability : ℚ := 70
  CrossoverOperator : ECrossoverOperator := ECrossoverOperator.SinglePoint
  JunkDNACrossoverProbability : ℚ := 0
  AmountOfNodesWeight : ℚ := 100
  ProximityToTargetedNodeWeight : ℚ := 100
  LengthWeight : ℚ := 100
  CanSeeTargetWeight : ℚ := 100
  TargetReachedWeight : ℚ := 0
  SlopeWeight : ℚ := 0
  ObstacleHitMultiplier : ℚ := 1
  SlopeTooIntenseMultiplier : ℚ := 1
  PiercesTerrainMultiplier : ℚ := 1
  MaxSlopeToleranceAngle : ℚ := 0
  AggregateSelectOne : Bool := false
  MutationProbability : ℚ := 5
  TranslatePointProbability : ℚ := 33333 / 1000
  InsertionProbability : ℚ := 33333 / 1000
  DeletionProbability : ℚ := 33333 / 1000
  TranslationMutationType : Nat := 0
  MaxTranslationOffset : ℚ := 0
  Nodes : List (Option FVector) := []
  mPaths : List APath := []
  mMatingPaths : List APath := []
  mTotalFitness : ℚ := 0
  AverageFitness : ℚ := 0
  mGenerationInfo : FGenerationInfo := {}
  GenerationCount : Int := 0

/-! ## EvaluateFitness -/

/-- The constant `INT32_MAX`. -/
def INT32_MAX : Int := 2147483647

/-- The constant `TNumericLimits<float>::Max()`. -/
def FLT_MAX : ℚ := 340282346638528859811704183484516925440

/-- The location `Nodes[1]->GetActorLocation()` of the target anchor (the zero vector
when the entry is missing, as in the guarded read of the line-of-sight trace). -/
def targetting_location (m : APathManager) : FVector :=
  match m.Nodes.getD 1 none with
  | some v => v
  | none => FVector.ZeroVector

/-- The six population bounds cached by the first loop of `EvaluateFitness`. -/
structure FitnessBounds where
  least_amount_of_nodes : Int
  most_amount_of_nodes : Int
  closest_distance : ℚ
  furthest_distance : ℚ
  shortest_path_length : ℚ
  longest_path_length : ℚ

/-- The initial values of the six bounds. -/
def FitnessBounds.init : FitnessBounds :=
  { least_amount_of_nodes := INT32_MAX, most_amount_of_nodes := 0,
    closest_distance := FLT_MAX, furthest_distance := 0,
    shortest_path_length := FLT_MAX, longest_path_length := 0 }

/-- Distance of the final waypoint of a path to the target,
`(targetting_location - path->GetLocationOfFinalNode()).Size()`. -/
def distance_to_targetting_node (E : Engine) (m : APathManager) (path : APath) : ℚ :=
  E.Size ((targetting_location m).sub path.GetLocationOfFinalNode)

/-- The updates of the six bounds by one path (node amount, distance, length): each bound
is replaced when the path's measurement is strictly beyond it. -/
def updateBounds (E : Engine) (m : APathManager) (c : FitnessBounds) (path : APath) :
    FitnessBounds :=
  let node_amount := path.GetAmountOfNodes
  let distance := distance_to_targetting_node E m path
  let path_length := path.GetLength E
  { least_amount_of_nodes :=
      if node_amount < c.least_amount_of_nodes then node_amount else c.least_amount_of_nodes
    most_amount_of_nodes :=
      if node_amount > c.most_amount_of_nodes then node_amount else c.most_amount_of_nodes
    closest_distance :=
      if distance < c.closest_distance then distance else c.closest_distance
    furthest_distance :=
      if distance > c.furthest_distance then distance else c.furthest_distance
    shortest_path_length :=
      if path_length < c.shortest_path_length then path_length else c.shortest_path_length
    longest_path_length :=
      if path_length > c.longest_path_length then path_length else c.longest_path_length }

/-- The slope angle in degrees between a segment direction and its horizontal
projection: both vectors normalised, dot product, arccosine, conversion to degrees. -/
def slopeDegrees (E : Engine) (a b : FVector) : ℚ :=
  let direction := b.sub a
  let collapsed_vector : FVector := { direction with Z := 0 }
  let direction := E.Normalize direction
  let collapsed_vector := E.Normalize collapsed_vector
  let dot_product := FVector.DotProduct direction collapsed_vector
  let radians := E.Acos dot_product
  E.RadiansToDegrees radians

/-- One iteration, at waypoint `index`, of the trace and slope loop run for the path at
position `i` of the population (`GetWorld()` is non-null).  The slope test reads the
waypoints at `i` and `i - 1`. -/
def traceStep (E : Engine) (m : APathManager) (i : Nat) (genetic_representation : List FVector)
    (path : APath) (index : Nat) : APath :=
  let g := genetic_representation
  let path :=
    if index < g.length ∧ 1 ≤ index then
      let path := if E.LineTraceSingleByChannel (g.getD (index - 1) FVector.ZeroVector)
          (g.getD index FVector.ZeroVector) ECollisionChannel.ECC_GameTraceChannel1
        then path.MarkIsInObstacle else path
      if E.LineTraceSingleByChannel (g.getD (index - 1) FVector.ZeroVector)
          (g.getD index FVector.ZeroVector) ECollisionChannel.ECC_GameTraceChannel4
        then path.MarkTravelingThroughTerrain else path
    else path
  let path :=
    if index < g.length ∧ index + 1 = g.length then
      if E.LineTraceSingleByChannel (g.getD index FVector.ZeroVector) (targetting_location m)
          ECollisionChannel.ECC_GameTraceChannel2 = false
        then path.MarkCanSeeTarget else path
    else path
  if i < g.length ∧ 1 ≤ i then
    if slopeDegrees E (g.getD (i - 1) FVector.ZeroVector) (g.getD i FVector.ZeroVector)
        > m.MaxSlopeToleranceAngle
      then path.MarkSlopeTooIntense else path
  else path

/-- The body of the first loop for the path at position `i`: snap, then the trace and
slope loop over `index = 1 .. Num-1`, then the capture-radius test. -/
def cachePath (E : Engine) (m : APathManager) (i : Nat) (p : APath) : APath :=
  let path := p.SnapToTerrain E
  let genetic_representation := path.GetGeneticRepresentation
  let path := (List.range (genetic_representation.length - 1)).foldl
    (fun q k => traceStep E m i genetic_representation q (k + 1)) path
  if E.Size ((targetting_location m).sub (genetic_representation.getLastD FVector.ZeroVector))
      < 100
    then path.MarkHasReachedTarget else path

/-- The first loop of `EvaluateFitness` from position `i` on: the bounds are updated from
the snapped path, then its flags are set. -/
def cacheLoop (E : Engine) (m : APathManager) :
    Nat → List APath → FitnessBounds → FitnessBounds × List APath
  | _, [], c => (c, [])
  | i, p :: ps, c =>
    let c1 := updateBounds E m c (p.SnapToTerrain E)
    let r := cacheLoop E m (i + 1) ps c1
    (r.1, cachePath E m i p :: r.2)

/-- The node-amount blend: an `int32` division (truncating), converted to a float. -/
def node_amount_blend_value (c : FitnessBounds) (path : APath) : ℚ :=
  if c.least_amount_of_nodes - c.most_amount_of_nodes ≠ 0 then
    f32 ((Int.tdiv (path.GetAmountOfNodes - c.most_amount_of_nodes)
      (c.least_amount_of_nodes - c.most_amount_of_nodes) : Int) : ℚ)
  else 0

/-- The proximity blend; the guard compares with the float literal `0.1f`. -/
def proximity_blend_value (E : Engine) (m : APathManager) (c : FitnessBounds) (path : APath) : ℚ :=
  if |fsub c.closest_distance c.furthest_distance| > f32 (1 / 10) then
    fdiv (fsub (distance_to_targetting_node E m path) c.furthest_distance)
      (fsub c.closest_distance c.furthest_distance)
  else 0

/-- The length blend; the guard compares with the float literal `0.1f`. -/
def length_blend_value (E : Engine) (c : FitnessBounds) (path : APath) : ℚ :=
  if |fsub c.shortest_path_length c.longest_path_length| > f32 (1 / 10) then
    fdiv (fsub (path.GetLength E) c.longest_path_length)
      (fsub c.shortest_path_length c.longest_path_length)
  else 0

/-- A float division that records a zero divisor: `none` when the divisor is zero. -/
def checkedDiv (a b : ℚ) : Option ℚ := if b = 0 then none else some (fdiv a b)

/-- An `int32` division that records a zero divisor: `none` when the divisor is zero. -/
def checkedTDiv (a b : Int) : Option Int := if b = 0 then none else some (Int.tdiv a b)

/-- The node-amount blend with its division checked. -/
def node_amount_blend_checked (c : FitnessBounds) (path : APath) : Option ℚ :=
  if c.least_amount_of_nodes - c.most_amount_of_nodes ≠ 0 then
    (checkedTDiv (path.GetAmountOfNodes - c.most_amount_of_nodes)
      (c.least_amount_of_nodes - c.most_amount_of_nodes)).map (fun z => f32 (z : ℚ))
  else some 0

/-- The proximity blend with its division checked. -/
def proximity_blend_checked (E : Engine) (m : APathManager) (c : FitnessBounds) (path : APath) :
    Option ℚ :=
  if |fsub c.closest_distance c.furthest_distance| > f32 (1 / 10) then
    checkedDiv (fsub (distance_to_targetting_node E m path) c.furthest_distance)
      (fsub c.closest_distance c.furthest_distance)
  else some 0

/-- The length blend with its division checked. -/
def length_blend_checked (E : Engine) (c : FitnessBounds) (path : APath) : Option ℚ :=
  if |fsub c.shortest_path_length c.longest_path_length| > f32 (1 / 10) then
    checkedDiv (fsub (path.GetLength E) c.longest_path_length)
      (fsub c.shortest_path_length c.longest_path_length)
  else some 0

/-- The bonus `can_see_target_fitness`. -/
def can_see_target_fitness (m : APathManager) (path : APath) : ℚ :=
  if path.mCanSeeTarget then m.CanSeeTargetWeight else 0

/-- The bonus `target_reached_fitness`. -/
def target_reached_fitness (m : APathManager) (path : APath) : ℚ :=
  if path.mHasReachedTarget then m.TargetReachedWeight else 0

/-- The factor `obstacle_multiplier`. -/
def obstacle_multiplier (m : APathManager) (path : APath) : ℚ :=
  if path.mIsInObstacle then m.ObstacleHitMultiplier else 1

/-- The factor `slope_too_intense_multiplier`. -/
def slope_too_intense_multiplier (m : APathManager) (path : APath) : ℚ :=
  if path.mSlopeTooIntense then m.SlopeTooIntenseMultiplier else 1

/-- The factor `traveling_through_terrain_multiplier`. -/
def traveling_through_terrain_multiplier (m : APathManager) (path : APath) : ℚ :=
  if path.mTravelingThroughTerrain then m.PiercesTerrainMultiplier else 1

/-- The value `final_fitness` of the second loop: three products, five sums from left to
right, then three products from left to right, each one a float operation. -/
def final_fitness (E : Engine) (m : APathManager) (c : FitnessBounds) (path : APath) : ℚ :=
  fmul (fmul (fmul
    (fadd (fadd (fadd (fadd (fadd
      (fmul m.AmountOfNodesWeight (node_amount_blend_value c path))
      (fmul m.ProximityToTargetedNodeWeight (proximity_blend_value E m c path)))
      (fmul m.LengthWeight (length_blend_value E c path)))
      (can_see_target_fitness m path))
      (target_reached_fitness m path))
      m.SlopeWeight)
    (obstacle_multiplier m path))
    (slope_too_intense_multiplier m path))
    (traveling_through_terrain_multiplier m path)

/-- The constant `max_fitness`: the six weights, summed from left to right in floats. -/
def max_fitness (m : APathManager) : ℚ :=
  fadd (fadd (fadd (fadd (fadd m.AmountOfNodesWeight m.ProximityToTargetedNodeWeight)
    m.LengthWeight) m.CanSeeTargetWeight) m.TargetReachedWeight) m.SlopeWeight

/-- The paths after the second loop: each one has its fitness set. -/
def assignFitness (E : Engine) (m : APathManager) (c : FitnessBounds) (paths : List APath) :
    List APath :=
  paths.map (fun path => path.SetFitness (final_fitness E m c path))

/-- The engine's `TArray::Sort(predicate)`, as an insertion sort by the predicate. -/
def TArraySort (pred : APath → APath → Bool) (paths : List APath) : List APath :=
  List.insertionSort (fun lhs rhs => pred lhs rhs = true) paths

/-- The method `APathManager::EvaluateFitness`. -/
def EvaluateFitness (E : Engine) (m : APathManager) : APathManager :=
  let cached := cacheLoop E m 0 m.mPaths FitnessBounds.init
  let scored := assignFitness E m cached.1 cached.2
  let mTotalFitness := scored.foldl (fun acc path => fadd acc path.mFitness) 0
  let amount_of_nodes : Int :=
    scored.foldl (fun acc path => acc + (path.GetGeneticRepresentation.length : Int)) 0
  let AverageFitness := fdiv mTotalFitness (f32 (scored.length : ℚ))
  let max_fitness := max_fitness m
  { m with
    mPaths := TArraySort (fun lhs rhs => decide (lhs.GetFitness > rhs.GetFitness)) scored
    mTotalFitness := mTotalFitness
    AverageFitness := AverageFitness
    mGenerationInfo := { m.mGenerationInfo with
      mAverageFitness := AverageFitness
      mAverageAmountOfNodes := fdiv (f32 (amount_of_nodes : ℚ)) (f32 (scored.length : ℚ))
      mMaximumFitness := max_fitness
      mFitnessFactor := fdiv AverageFitness max_fitness } }

/-- The population before the final sort of `EvaluateFitness`: flags set by the first loop,
fitness assigned by the second. -/
def scoredPaths (E : Engine) (m : APathManager) : List APath :=
  assignFitness E m (cacheLoop E m 0 m.mPaths FitnessBounds.init).1
    (cacheLoop E m 0 m.mPaths FitnessBounds.init).2

/-! ## SelectionStep -/

/-- One walk of the roulette wheel, the `for` loop of `SelectionStep` from position `i`
with the given accumulated share: the position and the path at which it breaks, `none` when
the loop runs to its end without a selection.  The share is a float quotient and it is
added by a float addition. -/
def rouletteWalk (R mTotalFitness : ℚ) : List APath → Nat → ℚ → Option (Nat × APath)
  | [], _, _ => none
  | path :: rest, i, accumulated_fitness =>
    let accumulated_fitness := fadd accumulated_fitness (fdiv path.GetFitness mTotalFitness)
    if accumulated_fitness ≥ R then some (i, path)
    else rouletteWalk R mTotalFitness rest (i + 1) accumulated_fitness

/-- The `while` loop of `SelectionStep`, bounded by `fuel` iterations; `k` numbers the next
random call.  The result is the mating pool and the number of the next random call, `none`
when the fuel runs out before the pool is full. -/
def selectionLoop (E : Engine) (m : APathManager) : Nat → Nat → List APath →
    Option (List APath × Nat)
  | 0, k, mMatingPaths =>
    if (mMatingPaths.length : Int) < m.PopulationCount then none else some (mMatingPaths, k)
  | fuel + 1, k, mMatingPaths =>
    if (mMatingPaths.length : Int) < m.PopulationCount then
      let R := E.FRand k
      match rouletteWalk R m.mTotalFitness m.mPaths 0 0 with
      | some (_, path) => selectionLoop E m fuel (k + 1) (mMatingPaths ++ [path])
      | none => selectionLoop E m fuel (k + 1) mMatingPaths
    else some (mMatingPaths, k)

/-- The method `APathManager::SelectionStep`. -/
def SelectionStep (E : Engine) (fuel k : Nat) (m : APathManager) : Option (APathManager × Nat) :=
  (selectionLoop E m fuel k []).map (fun r => ({ m with mMatingPaths := r.1 }, r.2))

/-! ## CrossoverStep -/

/-- Modelled from the spec: `SpawnActor<APath>` creates a new individual; its genome is
empty until waypoints are added. -/
def SpawnActor : APath := { mGeneticRepresentation := [] }

/-- The choice of `smallest_path` and `bigger_path` among the two parents. -/
def orderParents (current_path next_path : APath) : APath × APath :=
  if current_path.GetAmountOfNodes > next_path.GetAmountOfNodes then (next_path, current_path)
  else (current_path, next_path)

/-- The junk-data branch of both crossover loops at `index`: each offspring draws its own
chance of appending the waypoint of the bigger path. -/
def junkStep (m : APathManager) (chance chance_next : ℚ) (v : FVector)
    (offspring_0 offspring_1 : APath) : APath × APath :=
  (if chance < m.JunkDNACrossoverProbability then offspring_0.AddChromosome v else offspring_0,
   if chance_next < m.JunkDNACrossoverProbability then offspring_1.AddChromosome v
   else offspring_1)

/-- The loop of the single-point operator over the waypoints of the bigger path that remain
from `index` on. -/
def singlePointLoop (E : Engine) (m : APathManager) (smallest_path bigger_path : APath)
    (crossover_point : Int) : List FVector → Nat → Nat → APath → APath → APath × APath × Nat
  | [], _, k, offspring_0, offspring_1 => (offspring_0, offspring_1, k)
  | _ :: rest, index, k, offspring_0, offspring_1 =>
    if (index : Int) ≥ smallest_path.GetAmountOfNodes then
      let r := junkStep m (E.RandRangeFloat k 0 100) (E.RandRangeFloat (k + 1) 0 100)
        (bigger_path.GetChromosome index) offspring_0 offspring_1
      singlePointLoop E m smallest_path bigger_path crossover_point rest (index + 1) (k + 2)
        r.1 r.2
    else if (index : Int) < crossover_point then
      singlePointLoop E m smallest_path bigger_path crossover_point rest (index + 1) k
        (offspring_0.AddChromosome (smallest_path.GetChromosome index))
        (offspring_1.AddChromosome (bigger_path.GetChromosome index))
    else
      singlePointLoop E m smallest_path bigger_path crossover_point rest (index + 1) k
        (offspring_0.AddChromosome (bigger_path.GetChromosome index))
        (offspring_1.AddChromosome (smallest_path.GetChromosome index))

/-- The single-point operator for a given crossover point: two spawned offspring filled by
the loop, then finished. -/
def singlePointCrossover (E : Engine) (m : APathManager) (smallest_path bigger_path : APath)
    (crossover_point : Int) (k : Nat) : APath × APath × Nat :=
  let r := singlePointLoop E m smallest_path bigger_path crossover_point
    bigger_path.GetGeneticRepresentation 0 k SpawnActor SpawnActor
  (r.1.DetermineGeneticRepresentation, r.2.1.DetermineGeneticRepresentation, r.2.2)

/-- The loop of the uniform operator over the waypoints of the bigger path that remain from
`index` on; `ref` is the waypoint of the bigger path at `index`. -/
def uniformLoop (E : Engine) (m : APathManager) (smallest_path bigger_path : APath) :
    List FVector → Nat → Nat → APath → APath → APath × APath × Nat
  | [], _, k, offspring_0, offspring_1 => (offspring_0, offspring_1, k)
  | ref :: rest, index, k, offspring_0, offspring_1 =>
    if (index : Int) ≥ smallest_path.GetAmountOfNodes then
      let r := junkStep m (E.FRandRange k 0 100) (E.FRandRange (k + 1) 0 100) ref
        offspring_0 offspring_1
      uniformLoop E m smallest_path bigger_path rest (index + 1) (k + 2) r.1 r.2
    else if E.FRandRange k 0 100 < 50 then
      uniformLoop E m smallest_path bigger_path rest (index + 1) (k + 1)
        (offspring_0.AddChromosome (smallest_path.GetChromosome index))
        (offspring_1.AddChromosome (bigger_path.GetChromosome index))
    else
      uniformLoop E m smallest_path bigger_path rest (index + 1) (k + 1)
        (offspring_0.AddChromosome (bigger_path.GetChromosome index))
        (offspring_1.AddChromosome (smallest_path.GetChromosome index))

/-- The uniform operator. -/
def uniformCrossover (E : Engine) (m : APathManager) (smallest_path bigger_path : APath)
    (k : Nat) : APath × APath × Nat :=
  let r := uniformLoop E m smallest_path bigger_path bigger_path.GetGeneticRepresentation 0 k
    SpawnActor SpawnActor
  (r.1.DetermineGeneticRepresentation, r.2.1.DetermineGeneticRepresentation, r.2.2)

/-- The crossover branch for one pair: the parents are ordered by node amount, then the
configured operator builds the two offspring (the crossover point of the single-point
operator is drawn from `[0, smallest node amount]`). -/
def crossoverPair (E : Engine) (m : APathManager) (current_path next_path : APath) (k : Nat) :
    APath × APath × Nat :=
  let smallest_path := (orderParents current_path next_path).1
  let bigger_path := (orderParents current_path next_path).2
  match m.CrossoverOperator with
  | ECrossoverOperator.SinglePoint =>
    let crossover_point := E.RandRange k 0 smallest_path.GetAmountOfNodes
    singlePointCrossover E m smallest_path bigger_path crossover_point (k + 1)
  | ECrossoverOperator.Uniform => uniformCrossover E m smallest_path bigger_path k

/-- The carry-over branch for one parent: a spawned duplicate with the parent's genome. -/
def duplicatePath (parent : APath) : APath :=
  (SpawnActor.SetGeneticRepresentation parent.GetGeneticRepresentation).DetermineGeneticRepresentation

/-- The `for` loop of `CrossoverStep` over the mating paths that remain from position `i`
on, two at a time.  Reading `mMatingPaths[i + 1]` past the end of the array fails. -/
def crossoverLoop (E : Engine) (m : APathManager) :
    List APath → Nat → List APath → Int → Option (List APath × Int × Nat)
  | [], k, temp, successfull_crossover_amount => some (temp, successfull_crossover_amount, k)
  | [_], _, _, _ => none
  | current_path :: next_path :: rest, k, temp, successfull_crossover_amount =>
    let R := E.FRandRange k 0 100
    if R ≥ fsub 100 m.CrossoverProbability then
      let r := crossoverPair E m current_path next_path (k + 1)
      crossoverLoop E m rest r.2.2 (temp ++ [r.1, r.2.1]) (successfull_crossover_amount + 1)
    else
      crossoverLoop E m rest (k + 1)
        (temp ++ [duplicatePath current_path, duplicatePath next_path])
        successfull_crossover_amount

/-- The method `APathManager::CrossoverStep`: the new population replaces `mPaths`. -/
def CrossoverStep (E : Engine) (k : Nat) (m : APathManager) : Option (APathManager × Nat) :=
  (crossoverLoop E m m.mMatingPaths k [] 0).map (fun r =>
    ({ m with
        mPaths := r.1
        mGenerationInfo := { m.mGenerationInfo with mCrossoverAmount := r.2.1 } }, r.2.2))

/-! ## MutationStep -/

/-- Component-wise sum, `operator+` of `FVector`. -/
def FVector.add (a b : FVector) : FVector := ⟨a.X + b.X, a.Y + b.Y, a.Z + b.Z⟩

/-- Modelled from the spec: `APath::MutateThroughTranslation` picks one waypoint (at a
random index) and displaces it by a random offset of at most `MaxTranslationOffset` along
each axis.  The second component is the number of the next random call. -/
def APath.MutateThroughTranslation (E : Engine) (k : Nat) (_TranslationMutationType : Nat)
    (MaxTranslationOffset : ℚ) (p : APath) : APath × Nat :=
  if p.mGeneticRepresentation = [] then (p, k)
  else
    let index := (E.RandRange k 0 (p.GetAmountOfNodes - 1)).toNat
    let offset : FVector :=
      ⟨E.FRandRange (k + 1) (-MaxTranslationOffset) MaxTranslationOffset,
       E.FRandRange (k + 2) (-MaxTranslationOffset) MaxTranslationOffset,
       E.FRandRange (k + 3) (-MaxTranslationOffset) MaxTranslationOffset⟩
    ({ p with mGeneticRepresentation :=
        p.mGeneticRepresentation.set index ((p.GetChromosome index).add offset) }, k + 4)

/-- Modelled from the spec: `APath::MutateThroughInsertion` inserts one new waypoint into
the genome, at a random position, midway between its neighbours. -/
def APath.MutateThroughInsertion (E : Engine) (k : Nat) (p : APath) : APath × Nat :=
  let position := (E.RandRange k 0 p.GetAmountOfNodes).toNat
  let before := p.GetChromosome (position - 1)
  let after := p.mGeneticRepresentation.getD position before
  let waypoint : FVector :=
    ⟨(before.X + after.X) / 2, (before.Y + after.Y) / 2, (before.Z + after.Z) / 2⟩
  ({ p with mGeneticRepresentation :=
      p.mGeneticRepresentation.take position ++ waypoint :: p.mGeneticRepresentation.drop position },
    k + 1)

/-- Modelled from the spec: `APath::MutateThroughDeletion` removes one waypoint (at a random
index), never reducing the genome length below 1: a genome of one waypoint is left
unchanged. -/
def APath.MutateThroughDeletion (E : Engine) (k : Nat) (p : APath) : APath × Nat :=
  if p.mGeneticRepresentation.length ≤ 1 then (p, k)
  else
    ({ p with mGeneticRepresentation :=
        p.mGeneticRepresentation.eraseIdx (E.RandRange k 0 (p.GetAmountOfNodes - 1)).toNat },
      k + 1)

/-- The three operator decisions taken for a path that is considered for mutation, and the
number of the next random call. -/
structure MutationChoice where
  do_translation_mutation : Bool
  do_insertion_mutation : Bool
  do_deletion_mutation : Bool
  nextCall : Nat

/-- The decisions: none with `AggregateSelectOne` (the branch only computes the aggregated
probability), otherwise one draw per operator. -/
def chooseMutations (E : Engine) (m : APathManager) (k : Nat) : MutationChoice :=
  if m.AggregateSelectOne then
    { do_translation_mutation := false, do_insertion_mutation := false,
      do_deletion_mutation := false, nextCall := k }
  else
    { do_translation_mutation := decide (E.FRandRange k 0 100 < m.TranslatePointProbability)
      do_insertion_mutation := decide (E.FRandRange (k + 1) 0 100 < m.InsertionProbability)
      do_deletion_mutation := decide (E.FRandRange (k + 2) 0 100 < m.DeletionProbability)
      nextCall := k + 3 }

/-- The three counters of `MutationStep`. -/
structure MutationCounts where
  successful_translation_mutations : Int := 0
  successful_insertion_mutations : Int := 0
  successful_deletion_mutations : Int := 0
deriving DecidableEq

/-- The body of the loop of `MutationStep` for one path: the path after its mutations, the
number of the next random call and the counters. -/
def mutatePath (E : Engine) (m : APathManager) (path : APath) (k : Nat) (counts : MutationCounts) :
    APath × Nat × MutationCounts :=
  let rand := E.FRandRange k 0 100
  if rand < m.MutationProbability then
    let choice := chooseMutations E m (k + 1)
    let r1 :=
      if choice.do_translation_mutation then
        path.MutateThroughTranslation E choice.nextCall m.TranslationMutationType
          m.MaxTranslationOffset
      else (path, choice.nextCall)
    let counts :=
      if choice.do_translation_mutation then
        { counts with
          successful_translation_mutations := counts.successful_translation_mutations + 1 }
      else counts
    let r2 := if choice.do_insertion_mutation then r1.1.MutateThroughInsertion E r1.2 else r1
    let counts :=
      if choice.do_insertion_mutation then
        { counts with
          successful_insertion_mutations := counts.successful_insertion_mutations + 1 }
      else counts
    let r3 := if choice.do_deletion_mutation then r2.1.MutateThroughDeletion E r2.2 else r2
    let counts :=
      if choice.do_deletion_mutation then
        { counts with
          successful_deletion_mutations := counts.successful_deletion_mutations + 1 }
      else counts
    (r3.1, r3.2, counts)
  else (path, k + 1, counts)

/-- The loop of `MutationStep` over the paths. -/
def mutationLoop (E : Engine) (m : APathManager) :
    List APath → Nat → MutationCounts → List APath × Nat × MutationCounts
  | [], k, counts => ([], k, counts)
  | path :: rest, k, counts =>
    let r := mutatePath E m path k counts
    let rr := mutationLoop E m rest r.2.1 r.2.2
    (r.1 :: rr.1, rr.2.1, rr.2.2)

/-- The method `APathManager::MutationStep`. -/
def MutationStep (E : Engine) (k : Nat) (m : APathManager) : APathManager × Nat :=
  let r := mutationLoop E m m.mPaths k {}
  ({ m with
      mPaths := r.1
      mGenerationInfo := { m.mGenerationInfo with
        mAmountOfTranslationMutations := r.2.2.successful_translation_mutations
        mAmountOfInsertionMutations := r.2.2.successful_insertion_mutations
        mAmountOfDeletionMutations := r.2.2.successful_deletion_mutations } }, r.2.1)

/-! ## RunGeneration -/

/-- The test `Nodes.IsValidIndex(i) && Nodes[i]->IsValidLowLevelFast()`. -/
def nodeIsValid (m : APathManager) (i : Nat) : Bool := (m.Nodes.getD i none).isSome

/-- The method `APathManager::RunGeneration`, with `fuel` bounding the loop of the selection
step.  `ColorCodePathsByFitness` and `LogGenerationInfo` write the display colour and the
screen only; they are left out. -/
def RunGeneration (E : Engine) (fuel k : Nat) (m : APathManager) : Option (APathManager × Nat) :=
  if nodeIsValid m 0 = true ∧ nodeIsValid m 1 = true then
    (SelectionStep E fuel k (EvaluateFitness E m)).bind (fun r2 =>
      (CrossoverStep E r2.2 r2.1).map (fun r3 =>
        let r4 := MutationStep E r3.2 r3.1
        let m5 := EvaluateFitness E r4.1
        ({ m5 with
            mGenerationInfo := { m5.mGenerationInfo with mGenerationNumber := m5.GenerationCount }
            GenerationCount := m5.GenerationCount + 1 }, r4.2)))
  else some (m, k)

/-! ## Specification-side definitions -/

/-- The bounds `c` enclose the three measurements of `q`. -/
def Encloses (E : Engine) (m : APathManager) (c : FitnessBounds) (q : APath) : Prop :=
  c.least_amount_of_nodes ≤ q.GetAmountOfNodes ∧ q.GetAmountOfNodes ≤ c.most_amount_of_nodes ∧
  c.closest_distance ≤ distance_to_targetting_node E m q ∧
  distance_to_targetting_node E m q ≤ c.furthest_distance ∧
  c.shortest_path_length ≤ q.GetLength E ∧ q.GetLength E ≤ c.longest_path_length

/-- The bounds `c2` are at least as wide as the bounds `c1`. -/
def Widens (c2 c1 : FitnessBounds) : Prop :=
  c2.least_amount_of_nodes ≤ c1.least_amount_of_nodes ∧
  c1.most_amount_of_nodes ≤ c2.most_amount_of_nodes ∧
  c2.closest_distance ≤ c1.closest_distance ∧ c1.furthest_distance ≤ c2.furthest_distance ∧
  c2.shortest_path_length ≤ c1.shortest_path_length ∧
  c1.longest_path_length ≤ c2.longest_path_length

/-- The raw score of a path: the weighted blends, the two bonuses and the slope weight,
summed from left to right in floats. -/
def rawScore (E : Engine) (m : APathManager) (c : FitnessBounds) (path : APath) : ℚ :=
  fadd (fadd (fadd (fadd (fadd
    (fmul m.AmountOfNodesWeight (node_amount_blend_value c path))
    (fmul m.ProximityToTargetedNodeWeight (proximity_blend_value E m c path)))
    (fmul m.LengthWeight (length_blend_value E c path)))
    (can_see_target_fitness m path))
    (target_reached_fitness m path))
    m.SlopeWeight

/-- The penalty multipliers of exactly those flags that are set among `isInObstacle`,
`slopeTooIntense` and `travelingThroughTerrain`, in this order. -/
def setPenalties (m : APathManager) (path : APath) : List ℚ :=
  ([(path.mIsInObstacle, m.ObstacleHitMultiplier),
      (path.mSlopeTooIntense, m.SlopeTooIntenseMultiplier),
      (path.mTravelingThroughTerrain, m.PiercesTerrainMultiplier)].filter
        (fun fm => fm.1)).map (fun fm => fm.2)

/-- A score multiplied by the penalty multipliers of exactly the flags that are set, one
float multiplication for each. -/
def timesPenalties (m : APathManager) (path : APath) (raw : ℚ) : ℚ :=
  (setPenalties m path).foldl fmul raw

/-- The bounds cached by the first loop of `EvaluateFitness` over the whole population. -/
def populationBounds (E : Engine) (m : APathManager) : FitnessBounds :=
  (cacheLoop E m 0 m.mPaths FitnessBounds.init).1

/-- The population after the first loop of `EvaluateFitness`: snapped, flags set. -/
def cachedPaths (E : Engine) (m : APathManager) : List APath :=
  (cacheLoop E m 0 m.mPaths FitnessBounds.init).2

/-- Every bound of `c2` is the bound of `c1` or the measurement of a path of `l`. -/
def Attained (E : Engine) (m : APathManager) (c2 c1 : FitnessBounds) (l : List APath) : Prop :=
  (c2.least_amount_of_nodes = c1.least_amount_of_nodes ∨
    ∃ q ∈ l, q.GetAmountOfNodes = c2.least_amount_of_nodes) ∧
  (c2.most_amount_of_nodes = c1.most_amount_of_nodes ∨
    ∃ q ∈ l, q.GetAmountOfNodes = c2.most_amount_of_nodes) ∧
  (c2.closest_distance = c1.closest_distance ∨
    ∃ q ∈ l, distance_to_targetting_node E m q = c2.closest_distance) ∧
  (c2.furthest_distance = c1.furthest_distance ∨
    ∃ q ∈ l, distance_to_targetting_node E m q = c2.furthest_distance) ∧
  (c2.shortest_path_length = c1.shortest_path_length ∨
    ∃ q ∈ l, q.GetLength E = c2.shortest_path_length) ∧
  (c2.longest_path_length = c1.longest_path_length ∨
    ∃ q ∈ l, q.GetLength E = c2.longest_path_length)

/-- The float sum `x + x + ... + x` of `n` terms, added one after the other from 0. -/
def repeatedSum (x : ℚ) (n : Nat) : ℚ := (List.replicate n x).foldl fadd 0

/-- The sum of the fitness shares `fitness(i) / totalFitness` of the individuals of
`paths`, added one after the other to `acc` in floats. -/
def accumulatedShare (totalFitness : ℚ) (acc : ℚ) (paths : List APath) : ℚ :=
  paths.foldl (fun a p => fadd a (fdiv p.mFitness totalFitness)) acc

/-- The running sum of the fitness shares `fitness(i) / totalFitness` of the first `n`
individuals, in the order of the population, as a float sum of float quotients. -/
def runningShare (paths : List APath) (totalFitness : ℚ) (n : Nat) : ℚ :=
  accumulatedShare totalFitness 0 (paths.take n)

/-- The waypoints of `first` at the indices below `p` followed by the waypoints of `second`
at the indices `p .. s-1`. -/
def crossedStart (first second : List FVector) (p s : Nat) : List FVector :=
  first.take p ++ (second.take s).drop p

/-- The path `p` with the waypoints `l` appended to its genome. -/
def withTail (p : APath) (l : List FVector) : APath :=
  { p with mGeneticRepresentation := p.mGeneticRepresentation ++ l }

/-- The waypoints of a junk tail that an offspring carries: the waypoint at position `j`
of the tail is carried exactly when the offspring's own draw for it, `draw j`, is below the
junk probability; the order of the tail is kept. -/
def carriedTail (junkProbability : ℚ) (draw : Nat → ℚ) (tail : List FVector) : List FVector :=
  (tail.enum.filter (fun jv => decide (draw jv.1 < junkProbability))).map Prod.snd

/-- The draw a crossover operator makes for a junk waypoint at random call `n`: the
single-point operator calls `RandRange` on floats, the uniform operator `FRandRange`. -/
def junkDraw (E : Engine) (m : APathManager) (n : Nat) : ℚ :=
  match m.CrossoverOperator with
  | ECrossoverOperator.SinglePoint => E.RandRangeFloat n 0 100
  | ECrossoverOperator.Uniform => E.FRandRange n 0 100

/-- The number of the first junk draw of the crossover of a pair that starts at random call
`k`: the single-point operator has drawn its crossover point, the uniform operator one flip
for each index below the shorter length. -/
def junkStart (m : APathManager) (current_path next_path : APath) (k : Nat) : Nat :=
  match m.CrossoverOperator with
  | ECrossoverOperator.SinglePoint => k + 1
  | ECrossoverOperator.Uniform =>
    k + (orderParents current_path next_path).1.mGeneticRepresentation.length

/-! ## Concrete inputs -/

/-- An engine for the examples: no trace ever hits, the norm is the sum of the absolute
coordinates, the terrain snap leaves the waypoints in place, the random calls return the
lower end of their range. -/
def exampleEngine : Engine :=
  { LineTraceSingleByChannel := fun _ _ _ => false
    Size := fun v => |v.X| + |v.Y| + |v.Z|
    Normalize := fun v => v
    Acos := fun _ => 0
    RadiansToDegrees := fun x => x
    SnapToTerrain := fun g => g
    FRand := fun _ => 0
    FRandRange := fun _ a _ => a
    RandRange := fun _ a _ => a
    RandRangeFloat := fun _ a _ => a }

/-- A path along the X axis with waypoints at the given abscissas. -/
def pathAlongX (xs : List ℚ) : APath :=
  { mGeneticRepresentation := xs.map (fun x => ⟨x, 0, 0⟩) }

/-- A population of three paths with 3, 5 and 7 nodes; the anchors are at 0 and 10 on the
X axis. -/
def nodesThreeFiveSeven : APathManager :=
  { Nodes := [some ⟨0, 0, 0⟩, some ⟨10, 0, 0⟩]
    mPaths := [pathAlongX [0, 1, 2], pathAlongX [0, 1, 2, 3, 4],
      pathAlongX [0, 1, 2, 3, 4, 5, 6]] }

/-- An engine whose obstacle traces hit every segment that ends beyond X = 5. -/
def obstacleEngine : Engine :=
  { exampleEngine with
    LineTraceSingleByChannel := fun _ b ch =>
      decide (ch = ECollisionChannel.ECC_GameTraceChannel1 ∧ 5 < b.X) }

/-- A population of two paths, with the obstacle multiplier 1/2. -/
def twoPaths : APathManager :=
  { Nodes := [some ⟨0, 0, 0⟩, some ⟨10, 0, 0⟩]
    ObstacleHitMultiplier := 1 / 2
    mPaths := [pathAlongX [0, 4], pathAlongX [0, 1, 8]] }

/-- The second path of `twoPaths` as `EvaluateFitness` leaves it with `obstacleEngine`. -/
def twoPathsPenalised : APath :=
  { mGeneticRepresentation := [⟨0, 0, 0⟩, ⟨1, 0, 0⟩, ⟨8, 0, 0⟩]
    mFitness := 100
    mIsInObstacle := true
    mCanSeeTarget := true
    mHasReachedTarget := true }

/-- Two paths whose final waypoints are 0 and 0.1f = 13421773 / 134217728 units from the
target (both anchors at the origin) and whose lengths are 1 and 1 - 0.1f. -/
def tenthApart : APathManager :=
  { Nodes := [some ⟨0, 0, 0⟩, some ⟨0, 0, 0⟩]
    mPaths := [pathAlongX [1, 0], pathAlongX [1, 13421773 / 134217728]] }

/-- A population of a single path. -/
def onePath : APathManager :=
  { Nodes := [some ⟨0, 0, 0⟩, some ⟨10, 0, 0⟩]
    mPaths := [pathAlongX [0, 4]] }

/-- The path of `onePath` after the first loop of `EvaluateFitness`. -/
def onePathCached : APath :=
  { mGeneticRepresentation := [⟨0, 0, 0⟩, ⟨4, 0, 0⟩]
    mCanSeeTarget := true
    mHasReachedTarget := true }

/-- A path of one waypoint with a given fitness. -/
def pathWithFitness (f : ℚ) : APath :=
  { mGeneticRepresentation := [⟨0, 0, 0⟩], mFitness := f }

/-- A population with the fitness shares 0.5, 0.3 and 0.2, from which two individuals are
to be selected. -/
def threeShares : APathManager :=
  { PopulationCount := 2
    mPaths := [pathWithFitness 5, pathWithFitness 3, pathWithFitness 2]
    mTotalFitness := 10 }

/-- An engine whose first draw is 1/4 and whose later draws are 7/10. -/
def drawEngine : Engine :=
  { exampleEngine with FRand := fun n => if n = 0 then 1 / 4 else 7 / 10 }

/-- A manager whose mating pool holds two paths of different lengths. -/
def matingPair : APathManager :=
  { mMatingPaths := [pathAlongX [0, 1, 2], pathAlongX [10, 11]] }

/-- A population of one path with a single waypoint; every path is mutated, and the delete
operator is drawn for it (the other two operators never are). -/
def singleWaypoint : APathManager :=
  { MutationProbability := 100
    TranslatePointProbability := 0
    InsertionProbability := 0
    DeletionProbability := 100
    mPaths := [pathAlongX [0]] }

/-- An engine with a slope computation that is exact on axis-aligned segments: vectors are
normalised by the sum of their absolute coordinates, the arccosine is 11/7 (about pi/2) at
0 and 0 at 1, and a radian is 180 * 7 / 22 degrees. -/
def slopeEngine : Engine :=
  { exampleEngine with
    Normalize := fun v =>
      if |v.X| + |v.Y| + |v.Z| = 0 then v
      else ⟨v.X / (|v.X| + |v.Y| + |v.Z|), v.Y / (|v.X| + |v.Y| + |v.Z|),
        v.Z / (|v.X| + |v.Y| + |v.Z|)⟩
    Acos := fun d => if d ≤ 0 then 11 / 7 else if 1 ≤ d then 0 else 11 / 14
    RadiansToDegrees := fun r => r * 180 * 7 / 22 }

/-- A path of one vertical segment (slope 90 degrees). -/
def verticalPath : APath := { mGeneticRepresentation := [⟨0, 0, 0⟩, ⟨0, 0, 5⟩] }

/-- A path of one horizontal segment (slope 0 degrees). -/
def horizontalPath : APath := { mGeneticRepresentation := [⟨0, 0, 0⟩, ⟨5, 0, 0⟩] }

/-- The vertical path alone, with a slope tolerance of 45 degrees. -/
def steepAlone : APathManager :=
  { Nodes := [some ⟨0, 0, 0⟩, some ⟨10, 0, 0⟩]
    MaxSlopeToleranceAngle := 45
    SlopeTooIntenseMultiplier := 1 / 2
    mPaths := [verticalPath] }

/-- The vertical path at position 0 and the horizontal path at position 1. -/
def steepThenFlat : APathManager :=
  { steepAlone with mPaths := [verticalPath, horizontalPath] }

/-- The horizontal path at position 0 and the vertical path at position 1. -/
def flatThenSteep : APathManager :=
  { steepAlone with mPaths := [horizontalPath, verticalPath] }

/-- A path whose final waypoint is 150 units from the target and whose `hasReachedTarget`
flag is set before the pass. -/
def staleFlag : APathManager :=
  { Nodes := [some ⟨0, 0, 0⟩, some ⟨200, 0, 0⟩]
    mPaths := [{ mGeneticRepresentation := [⟨0, 0, 0⟩, ⟨50, 0, 0⟩], mHasReachedTarget := true }] }

/-- The individual of `staleFlag` as `EvaluateFitness` leaves it. -/
def staleFlagEvaluated : APath :=
  { mGeneticRepresentation := [⟨0, 0, 0⟩, ⟨50, 0, 0⟩], mFitness := 100, mCanSeeTarget := true }

/-- Two paths with clear flags whose final waypoints are 50 and 150 units from the target. -/
def nearAndFar : APathManager :=
  { Nodes := [some ⟨0, 0, 0⟩, some ⟨200, 0, 0⟩]
    mPaths := [pathAlongX [0, 150], pathAlongX [0, 50]] }

/-- Four paths with the node counts 3, 5, 3 and 7, the same length and the same final
waypoint. -/
def nodesThreeFiveThreeSeven : APathManager :=
  { Nodes := [some ⟨0, 0, 0⟩, some ⟨10, 0, 0⟩]
    mPaths := [pathAlongX [0, 3, 6], pathAlongX [0, 1, 2, 3, 6], pathAlongX [0, 2, 6],
      pathAlongX [0, 1, 2, 3, 4, 5, 6]] }

/-- A manager whose target anchor is missing. -/
def targetMissing : APathManager :=
  { Nodes := [some ⟨0, 0, 0⟩]
    PopulationCount := 2
    mPaths := [pathAlongX [0, 4], pathAlongX [0, 1, 8]] }

/-- An engine whose draws `FRand` are all 1/2. -/
def halfEngine : Engine :=
  { exampleEngine with FRand := fun _ => 1 / 2 }

/-- Both anchors present, two paths, and all six weights zero: every fitness is zero. -/
def zeroFitness : APathManager :=
  { Nodes := [some ⟨0, 0, 0⟩, some ⟨10, 0, 0⟩]
    PopulationCount := 2
    AmountOfNodesWeight := 0
    ProximityToTargetedNodeWeight := 0
    LengthWeight := 0
    CanSeeTargetWeight := 0
    mPaths := [pathAlongX [0, 4], pathAlongX [0, 1, 8]] }

/-- The population with the shares 0.5, 0.3 and 0.2 with an odd `PopulationCount` of 3. -/
def threeSharesOdd : APathManager :=
  { threeShares with PopulationCount := 3 }

/-- The individual of `nearAndFar` that is 50 units from the target, as `EvaluateFitness`
leaves it. -/
def nearIndividual : APath :=
  { mGeneticRepresentation := [⟨0, 0, 0⟩, ⟨150, 0, 0⟩], mFitness := 200, mCanSeeTarget := true,
    mHasReachedTarget := true }

/-- The individual of `nearAndFar` that is 150 units from the target, as `EvaluateFitness`
leaves it. -/
def farIndividual : APath :=
  { mGeneticRepresentation := [⟨0, 0, 0⟩, ⟨50, 0, 0⟩], mFitness := 200, mCanSeeTarget := true }

/-- The individual of `nodesThreeFiveThreeSeven` with the waypoints 0, 3, 6, as
`EvaluateFitness` leaves it. -/
def threeNodeIndividual : APath :=
  { mGeneticRepresentation := [⟨0, 0, 0⟩, ⟨3, 0, 0⟩, ⟨6, 0, 0⟩], mFitness := 200,
    mCanSeeTarget := true, mHasReachedTarget := true }

/-- A population with the fitness values 5, 12, 5 and 9 and the total 31, from which one
individual is to be selected. -/
def fourShares : APathManager :=
  { PopulationCount := 1
    mPaths := [pathWithFitness 5, pathWithFitness 12, pathWithFitness 5, pathWithFitness 9]
    mTotalFitness := 31 }

/-- An engine whose first draw is the largest float below 1, `1 - 2 ^ (-24)`, and whose later
draws are 0. -/
def lateDrawEngine : Engine :=
  { exampleEngine with FRand := fun n => if n = 0 then 16777215 / 16777216 else 0 }

/-- The population with the node counts 3, 5, 3 and 7 with the node-count weight
`2 ^ (-20)`, a float. -/
def tinyNodeWeight : APathManager :=
  { nodesThreeFiveThreeSeven with AmountOfNodesWeight := 1 / 1048576 }

/-- The individual of `tinyNodeWeight` with the waypoints 0, 3, 6, as `EvaluateFitness`
leaves it. -/
def tinyThreeNodeIndividual : APath :=
  { mGeneticRepresentation := [⟨0, 0, 0⟩, ⟨3, 0, 0⟩, ⟨6, 0, 0⟩], mFitness := 100,
    mCanSeeTarget := true, mHasReachedTarget := true }

/-- The individual of `tinyNodeWeight` with the waypoints 0, 1, 2, 3, 6, as
`EvaluateFitness` leaves it. -/
def tinyFiveNodeIndividual : APath :=
  { mGeneticRepresentation := [⟨0, 0, 0⟩, ⟨1, 0, 0⟩, ⟨2, 0, 0⟩, ⟨3, 0, 0⟩, ⟨6, 0, 0⟩],
    mFitness := 100, mCanSeeTarget := true, mHasReachedTarget := true }

/-- Three equal paths scored by the slope weight alone; the weight is the float `1.7f`. -/
def slopeWeightOnly : APathManager :=
  { Nodes := [some ⟨0, 0, 0⟩, some ⟨10, 0, 0⟩]
    AmountOfNodesWeight := 0
    ProximityToTargetedNodeWeight := 0
    LengthWeight := 0
    CanSeeTargetWeight := 0
    SlopeWeight := 7130317 / 4194304
    mPaths := [pathAlongX [0, 4], pathAlongX [0, 4], pathAlongX [0, 4]] }

/-- A manager with `AggregateSelectOne` enabled in which every path is considered for
mutation and every operator probability is 100. -/
def aggregateManager : APathManager :=
  { AggregateSelectOne := true
    MutationProbability := 100
    TranslatePointProbability := 100
    InsertionProbability := 100
    DeletionProbability := 100
    MaxTranslationOffset := 10
    mPaths := [pathAlongX [0, 4], pathAlongX [0, 1, 8]] }

/-! ## Lemmas on the rounding -/

theorem pow2_eq (e : Int) : pow2 e = (2 : ℚ) ^ e := by
  unfold pow2
  split_ifs with h
  · obtain ⟨n, rfl⟩ := Int.eq_ofNat_of_zero_le h
    simp
  · push_neg at h
    obtain ⟨n, hn⟩ := Int.eq_ofNat_of_zero_le (by omega : 0 ≤ -e)
    have he : e = -(n : Int) := by omega
    subst he
    simp [zpow_neg]

theorem pow2_pos (e : Int) : 0 < pow2 e := by
  rw [pow2_eq]; positivity

theorem pow2_le_pow2 {a b : Int} (h : a ≤ b) : pow2 a ≤ pow2 b := by
  rw [pow2_eq, pow2_eq]
  exact zpow_le_zpow_right₀ (by norm_num) h

theorem pow2_lt_pow2 {a b : Int} (h : a < b) : pow2 a < pow2 b := by
  rw [pow2_eq, pow2_eq]
  exact zpow_lt_zpow_right₀ (by norm_num) h

theorem pow2_add (a b : Int) : pow2 (a + b) = pow2 a * pow2 b := by
  rw [pow2_eq, pow2_eq, pow2_eq, zpow_add₀ (by norm_num)]

theorem leadingBit_eq (fuel n : Nat) (h : n ≤ fuel) : leadingBit fuel n = Nat.log 2 n := by
  induction fuel generalizing n with
  | zero =>
    have : n = 0 := by omega
    subst this; simp [leadingBit]
  | succ f ih =>
    unfold leadingBit
    split_ifs with h2
    · exact (Nat.log_of_lt h2).symm
    · rw [ih (n / 2) (by omega)]
      exact (Nat.log_of_one_lt_of_le (by norm_num) (by omega)).symm

theorem leadingBit_spec (n : Nat) (h : n ≠ 0) :
    2 ^ leadingBit n n ≤ n ∧ n < 2 ^ (leadingBit n n + 1) := by
  rw [leadingBit_eq n n le_rfl]
  exact ⟨Nat.pow_log_le_self 2 h, Nat.lt_pow_succ_log_self (by norm_num) n⟩

theorem pow2_natCast (n : Nat) : pow2 (n : Int) = ((2 ^ n : Nat) : ℚ) := by
  rw [pow2_eq]; simp

/-- A positive rational lies in the binade of its exponent, the lowest binade reaching
down to zero. -/
theorem binade_spec (x : ℚ) (hx : 0 < x) :
    -126 ≤ binade x ∧ x < pow2 (binade x + 1) ∧ (binade x = -126 ∨ pow2 (binade x) ≤ x) := by
  have hnum : 0 < x.num := Rat.num_pos.mpr hx
  have ha : x.num.natAbs ≠ 0 := by omega
  have hb : x.den ≠ 0 := x.den_nz
  obtain ⟨ha1, ha2⟩ := leadingBit_spec _ ha
  obtain ⟨hb1, hb2⟩ := leadingBit_spec _ hb
  set la := leadingBit x.num.natAbs x.num.natAbs with hla
  set lb := leadingBit x.den x.den with hlb
  have hxe : x = (x.num.natAbs : ℚ) / (x.den : ℚ) := by
    have h1 : ((x.num.natAbs : Int) : ℚ) = (x.num : ℚ) := by
      rw [Int.natAbs_of_nonneg hnum.le]
    have h2 : ((x.num.natAbs : Nat) : ℚ) = ((x.num.natAbs : Int) : ℚ) :=
      (Int.cast_natCast _).symm
    rw [h2, h1]
    exact (Rat.num_div_den x).symm
  have hbq : (0 : ℚ) < (x.den : ℚ) := by exact_mod_cast Nat.pos_of_ne_zero hb
  have ha1q : pow2 la ≤ (x.num.natAbs : ℚ) := by
    rw [pow2_natCast]; exact_mod_cast ha1
  have ha2q : (x.num.natAbs : ℚ) < pow2 (la + 1) := by
    have : ((la : Int) + 1) = ((la + 1 : Nat) : Int) := by simp
    rw [this, pow2_natCast]; exact_mod_cast ha2
  have hb1q : pow2 lb ≤ (x.den : ℚ) := by
    rw [pow2_natCast]; exact_mod_cast hb1
  have hb2q : (x.den : ℚ) < pow2 (lb + 1) := by
    have : ((lb : Int) + 1) = ((lb + 1 : Nat) : Int) := by simp
    rw [this, pow2_natCast]; exact_mod_cast hb2
  have hup : x < pow2 ((la : Int) - lb + 1) := by
    have : pow2 ((la : Int) - lb + 1) * pow2 lb = pow2 (la + 1) := by
      rw [← pow2_add]; congr 1; ring
    rw [hxe, div_lt_iff₀ hbq]
    calc (x.num.natAbs : ℚ) < pow2 (la + 1) := ha2q
      _ = pow2 ((la : Int) - lb + 1) * pow2 lb := this.symm
      _ ≤ pow2 ((la : Int) - lb + 1) * (x.den : ℚ) :=
        mul_le_mul_of_nonneg_left hb1q (pow2_pos _).le
  have hlow : pow2 ((la : Int) - lb - 1) ≤ x := by
    have : pow2 ((la : Int) - lb - 1) * pow2 (lb + 1) = pow2 la := by
      rw [← pow2_add]; congr 1; ring
    rw [hxe, le_div_iff₀ hbq]
    calc pow2 ((la : Int) - lb - 1) * (x.den : ℚ)
        ≤ pow2 ((la : Int) - lb - 1) * pow2 (lb + 1) :=
          mul_le_mul_of_nonneg_left hb2q.le (pow2_pos _).le
      _ = pow2 la := this
      _ ≤ (x.num.natAbs : ℚ) := ha1q
  unfold binade
  simp only [← hla, ← hlb]
  split_ifs with hlt
  · refine ⟨le_max_right _ _, ?_, ?_⟩
    · refine lt_of_lt_of_le hlt (pow2_le_pow2 ?_)
      have := le_max_left ((la : Int) - lb - 1) (-126)
      omega
    · rcases le_total ((la : Int) - lb - 1) (-126) with h | h
      · left; exact max_eq_right h
      · right; rw [max_eq_left h]; exact hlow
  · push_neg at hlt
    refine ⟨le_max_right _ _, ?_, ?_⟩
    · refine lt_of_lt_of_le hup (pow2_le_pow2 ?_)
      have := le_max_left ((la : Int) - lb) (-126)
      omega
    · rcases le_total ((la : Int) - lb) (-126) with h | h
      · left; exact max_eq_right h
      · right; rw [max_eq_left h]; exact hlt

/-- The exponent of a positive rational is the only one whose binade holds it. -/
theorem binade_unique (x : ℚ) (hx : 0 < x) (e : Int) (he : -126 ≤ e)
    (hup : x < pow2 (e + 1)) (hlow : e = -126 ∨ pow2 e ≤ x) : binade x = e := by
  obtain ⟨h1, h2, h3⟩ := binade_spec x hx
  rcases lt_trichotomy (binade x) e with h | h | h
  · exfalso
    rcases hlow with hl | hl
    · omega
    · have := pow2_le_pow2 (by omega : binade x + 1 ≤ e)
      linarith
  · exact h
  · exfalso
    rcases h3 with hl | hl
    · omega
    · have := pow2_le_pow2 (by omega : e + 1 ≤ binade x)
      linarith

theorem roundHalfEven_intCast (n : Int) : roundHalfEven (n : ℚ) = n := by
  unfold roundHalfEven
  rw [Int.floor_intCast]
  simp

theorem roundHalfEven_bounds (y : ℚ) : ⌊y⌋ ≤ roundHalfEven y ∧ roundHalfEven y ≤ ⌊y⌋ + 1 := by
  unfold roundHalfEven
  split_ifs <;> constructor <;> omega

theorem roundHalfEven_mono {y z : ℚ} (h : y ≤ z) : roundHalfEven y ≤ roundHalfEven z := by
  rcases (Int.floor_mono h).lt_or_eq with hlt | heq
  · have h1 := (roundHalfEven_bounds y).2
    have h2 := (roundHalfEven_bounds z).1
    omega
  · unfold roundHalfEven
    rw [← heq]
    have hf : y - ⌊y⌋ ≤ z - ⌊y⌋ := by linarith
    split_ifs <;> first | omega | (exfalso; linarith)

theorem roundMagnitude_zero : roundMagnitude 0 = 0 := by
  unfold roundMagnitude
  rw [zero_div]
  have : roundHalfEven 0 = 0 := by
    have := roundHalfEven_intCast 0
    simpa using this
  rw [this]; simp

/-- The rounded magnitude stays in the closed binade of its argument. -/
theorem roundMagnitude_bounds (x : ℚ) (hx : 0 < x) :
    roundMagnitude x ≤ pow2 (binade x + 1) ∧
      (binade x = -126 ∨ pow2 (binade x) ≤ roundMagnitude x) ∧ 0 ≤ roundMagnitude x := by
  obtain ⟨h1, h2, h3⟩ := binade_spec x hx
  have hq := pow2_pos (binade x - 23)
  have e24 : pow2 (binade x + 1) = ((2 ^ 24 : Int) : ℚ) * pow2 (binade x - 23) := by
    have : binade x + 1 = 24 + (binade x - 23) := by ring
    rw [this, pow2_add]
    congr 1
  have e23 : pow2 (binade x) = ((2 ^ 23 : Int) : ℚ) * pow2 (binade x - 23) := by
    have : binade x = 23 + (binade x - 23) := by ring
    nth_rewrite 1 [this]
    rw [pow2_add]
    congr 1
  unfold roundMagnitude
  refine ⟨?_, ?_, ?_⟩
  · rw [e24]
    refine mul_le_mul_of_nonneg_right ?_ hq.le
    have : x / pow2 (binade x - 23) ≤ ((2 ^ 24 : Int) : ℚ) := by
      rw [div_le_iff₀ hq, ← e24]; exact h2.le
    have := roundHalfEven_mono this
    rw [roundHalfEven_intCast] at this
    exact_mod_cast this
  · rcases h3 with h | h
    · left; exact h
    · right
      rw [e23]
      refine mul_le_mul_of_nonneg_right ?_ hq.le
      have : ((2 ^ 23 : Int) : ℚ) ≤ x / pow2 (binade x - 23) := by
        rw [le_div_iff₀ hq, ← e23]; exact h
      have := roundHalfEven_mono this
      rw [roundHalfEven_intCast] at this
      exact_mod_cast this
  · refine mul_nonneg ?_ hq.le
    have : ((0 : Int) : ℚ) ≤ x / pow2 (binade x - 23) := by
      rw [Int.cast_zero]; exact div_nonneg hx.le hq.le
    have := roundHalfEven_mono this
    rw [roundHalfEven_intCast] at this
    exact_mod_cast this

theorem roundMagnitude_nonneg (x : ℚ) (hx : 0 ≤ x) : 0 ≤ roundMagnitude x := by
  rcases hx.lt_or_eq with h | h
  · exact (roundMagnitude_bounds x h).2.2
  · rw [← h, roundMagnitude_zero]

theorem binade_mono {x y : ℚ} (hx : 0 < x) (h : x ≤ y) : binade x ≤ binade y := by
  obtain ⟨h1, h2, h3⟩ := binade_spec x hx
  obtain ⟨k1, k2, k3⟩ := binade_spec y (lt_of_lt_of_le hx h)
  by_contra hc
  push_neg at hc
  rcases h3 with hl | hl
  · omega
  · have := pow2_le_pow2 (by omega : binade y + 1 ≤ binade x)
    linarith

theorem roundMagnitude_mono {x y : ℚ} (hx : 0 ≤ x) (h : x ≤ y) :
    roundMagnitude x ≤ roundMagnitude y := by
  rcases hx.lt_or_eq with hx | hx
  · have hy : 0 < y := lt_of_lt_of_le hx h
    rcases (binade_mono hx h).lt_or_eq with hlt | heq
    · obtain ⟨a1, -, -⟩ := roundMagnitude_bounds x hx
      obtain ⟨-, b2, -⟩ := roundMagnitude_bounds y hy
      obtain ⟨c1, -, -⟩ := binade_spec x hx
      rcases b2 with hl | hl
      · omega
      · have := pow2_le_pow2 (by omega : binade x + 1 ≤ binade y)
        linarith
    · unfold roundMagnitude
      rw [← heq]
      have hq := pow2_pos (binade x - 23)
      refine mul_le_mul_of_nonneg_right ?_ hq.le
      have : x / pow2 (binade x - 23) ≤ y / pow2 (binade x - 23) :=
        div_le_div_of_nonneg_right h hq.le
      exact_mod_cast roundHalfEven_mono this
  · rw [← hx, roundMagnitude_zero]
    exact roundMagnitude_nonneg y (hx ▸ h)

/-- A multiple of the quantum of its own binade is left as it is. -/
theorem roundMagnitude_of_multiple (v : ℚ) (n : Int)
    (h : v = (n : ℚ) * pow2 (binade v - 23)) : roundMagnitude v = v := by
  have hq := pow2_pos (binade v - 23)
  unfold roundMagnitude
  have : v / pow2 (binade v - 23) = (n : ℚ) := by
    rw [div_eq_iff hq.ne']; exact h
  rw [this, roundHalfEven_intCast]
  exact h.symm

theorem roundMagnitude_idem (x : ℚ) (hx : 0 ≤ x) :
    roundMagnitude (roundMagnitude x) = roundMagnitude x := by
  rcases hx.lt_or_eq with hx | hx
  swap
  · rw [← hx, roundMagnitude_zero, roundMagnitude_zero]
  obtain ⟨a1, a2, a3⟩ := roundMagnitude_bounds x hx
  obtain ⟨c1, c2, c3⟩ := binade_spec x hx
  rcases a3.lt_or_eq with hv | hv
  swap
  · rw [← hv, roundMagnitude_zero]
  set v := roundMagnitude x with hvdef
  set e := binade x with hedef
  have hq := pow2_pos (e - 23)
  have hvn : v = (roundHalfEven (x / pow2 (e - 23)) : ℚ) * pow2 (e - 23) := rfl
  rcases a1.lt_or_eq with hlt | heq
  · have hb : binade v = e := binade_unique v hv e c1 hlt a2
    exact roundMagnitude_of_multiple v (roundHalfEven (x / pow2 (e - 23))) (by rw [hb]; exact hvn)
  · have hb : binade v = e + 1 :=
      binade_unique v hv (e + 1) (by omega) (by rw [heq]; exact pow2_lt_pow2 (by omega))
        (Or.inr heq.ge)
    refine roundMagnitude_of_multiple v (2 ^ 23) ?_
    rw [hb, heq]
    have : e + 1 = 23 + (e + 1 - 23) := by ring
    nth_rewrite 1 [this]
    rw [pow2_add]
    congr 1

theorem f32_zero : f32 0 = 0 := by
  unfold f32
  simp [roundMagnitude_zero]

theorem f32_nonneg {x : ℚ} (hx : 0 ≤ x) : 0 ≤ f32 x := by
  unfold f32
  rw [if_neg (not_lt.mpr hx)]
  exact roundMagnitude_nonneg x hx

theorem f32_mono {x y : ℚ} (h : x ≤ y) : f32 x ≤ f32 y := by
  unfold f32
  split_ifs with hx hy hy
  · exact neg_le_neg (roundMagnitude_mono (by linarith) (by linarith))
  · have h1 := roundMagnitude_nonneg (-x) (by linarith)
    have h2 := roundMagnitude_nonneg y (by linarith)
    linarith
  · exfalso; linarith
  · exact roundMagnitude_mono (by linarith) h

theorem f32_idem (x : ℚ) : f32 (f32 x) = f32 x := by
  unfold f32
  by_cases hx : x < 0
  · rw [if_pos hx]
    have h0 := roundMagnitude_nonneg (-x) (by linarith)
    rcases h0.lt_or_eq with h | h
    · rw [if_pos (by linarith), neg_neg, roundMagnitude_idem (-x) (by linarith)]
    · rw [← h]; simp [roundMagnitude_zero]
  · rw [if_neg hx]
    push_neg at hx
    have h0 := roundMagnitude_nonneg x hx
    rw [if_neg (not_lt.mpr h0), roundMagnitude_idem x hx]

theorem f32_one : f32 1 = 1 := by decide!

theorem f32_neg (x : ℚ) : f32 (-x) = -f32 x := by
  unfold f32
  rcases lt_trichotomy x 0 with h | h | h
  · rw [if_pos h, if_neg (by linarith : ¬ -x < 0), neg_neg]
  · subst h; simp [roundMagnitude_zero]
  · rw [if_pos (by linarith : -x < 0), if_neg (by linarith : ¬ x < 0), neg_neg]

theorem f32_nonpos {x : ℚ} (hx : x ≤ 0) : f32 x ≤ 0 := by
  have := f32_mono hx
  rwa [f32_zero] at this

theorem f32_le_one {x : ℚ} (hx : x ≤ 1) : f32 x ≤ 1 := by
  have := f32_mono hx
  rwa [f32_one] at this

theorem f32_tenth : f32 (1 / 10) = 13421773 / 134217728 := by decide!

theorem roundHalfEven_nearest (t : ℚ) (k : Int) :
    |((roundHalfEven t : Int) : ℚ) - t| ≤ |(k : ℚ) - t| := by
  have h1 : ((⌊t⌋ : Int) : ℚ) ≤ t := Int.floor_le t
  have h2 : t < ((⌊t⌋ : Int) : ℚ) + 1 := Int.lt_floor_add_one t
  have hk : (k : ℚ) ≤ ((⌊t⌋ : Int) : ℚ) ∨ ((⌊t⌋ : Int) : ℚ) + 1 ≤ (k : ℚ) := by
    rcases le_or_lt k ⌊t⌋ with h | h
    · left; exact_mod_cast h
    · right
      have : ⌊t⌋ + 1 ≤ k := h
      exact_mod_cast this
  unfold roundHalfEven
  split_ifs with c1 c2 c3
  · rw [abs_of_nonpos (by linarith)]
    rcases hk with hk | hk
    · rw [abs_of_nonpos (by linarith)]; linarith
    · rw [abs_of_nonneg (by linarith)]; linarith
  · push_cast
    rw [abs_of_nonneg (by linarith)]
    rcases hk with hk | hk
    · rw [abs_of_nonpos (by linarith)]; linarith
    · rw [abs_of_nonneg (by linarith)]; linarith
  · rw [abs_of_nonpos (by linarith)]
    rcases hk with hk | hk
    · rw [abs_of_nonpos (by linarith)]; linarith
    · rw [abs_of_nonneg (by linarith)]; linarith
  · push_cast
    rw [abs_of_nonneg (by linarith)]
    rcases hk with hk | hk
    · rw [abs_of_nonpos (by linarith)]; linarith
    · rw [abs_of_nonneg (by linarith)]; linarith

/-- The rounded magnitude is at least as close to `x` as any multiple of the spacing of the
binade of `x`. -/
theorem roundMagnitude_nearest_multiple (x : ℚ) (k : Int) :
    |roundMagnitude x - x| ≤ |(k : ℚ) * pow2 (binade x - 23) - x| := by
  have hq := pow2_pos (binade x - 23)
  have h := roundHalfEven_nearest (x / pow2 (binade x - 23)) k
  have e1 : roundMagnitude x - x
      = ((roundHalfEven (x / pow2 (binade x - 23)) : ℚ) - x / pow2 (binade x - 23))
        * pow2 (binade x - 23) := by
    unfold roundMagnitude
    field_simp
  have e2 : (k : ℚ) * pow2 (binade x - 23) - x
      = ((k : ℚ) - x / pow2 (binade x - 23)) * pow2 (binade x - 23) := by
    field_simp
  rw [e1, e2, abs_mul, abs_mul]
  exact mul_le_mul_of_nonneg_right h (abs_nonneg _)

theorem roundMagnitude_nearest (x y : ℚ) (hx : 0 < x) (hy : 0 < y)
    (hfloat : roundMagnitude y = y) : |roundMagnitude x - x| ≤ |y - x| := by
  obtain ⟨a1, a2, a3⟩ := binade_spec x hx
  obtain ⟨b1, b2, b3⟩ := binade_spec y hy
  have e24 : pow2 (binade x + 1) = ((2 ^ 24 : Int) : ℚ) * pow2 (binade x - 23) := by
    have : binade x + 1 = 24 + (binade x - 23) := by ring
    rw [this, pow2_add]
    congr 1
  have e23 : pow2 (binade x) = ((2 ^ 23 : Int) : ℚ) * pow2 (binade x - 23) := by
    have : binade x = 23 + (binade x - 23) := by ring
    nth_rewrite 1 [this]
    rw [pow2_add]
    congr 1
  rcases lt_trichotomy (binade y) (binade x) with h | h | h
  · have hlow : pow2 (binade x) ≤ x := by
      rcases a3 with h3 | h3
      · omega
      · exact h3
    have hyx : y < pow2 (binade x) :=
      lt_of_lt_of_le b2 (pow2_le_pow2 (by omega))
    have := roundMagnitude_nearest_multiple x (2 ^ 23)
    rw [← e23] at this
    rw [abs_of_nonpos (by linarith : pow2 (binade x) - x ≤ 0)] at this
    rw [abs_of_nonpos (by linarith : y - x ≤ 0)]
    linarith
  · have := roundMagnitude_nearest_multiple x (roundHalfEven (y / pow2 (binade y - 23)))
    have hy2 : (roundHalfEven (y / pow2 (binade y - 23)) : ℚ) * pow2 (binade x - 23) = y := by
      rw [← h]; exact hfloat
    rwa [hy2] at this
  · have hlow : pow2 (binade y) ≤ y := by
      rcases b3 with h3 | h3
      · omega
      · exact h3
    have hxy : pow2 (binade x + 1) ≤ y :=
      le_trans (pow2_le_pow2 (by omega)) hlow
    have := roundMagnitude_nearest_multiple x (2 ^ 24)
    rw [← e24] at this
    rw [abs_of_nonneg (by linarith : 0 ≤ pow2 (binade x + 1) - x)] at this
    rw [abs_of_nonneg (by linarith : 0 ≤ y - x)]
    linarith

/-- No 32-bit float is closer to `x` than `f32 x`. -/
theorem f32_nearest (x y : ℚ) (hy : f32 y = y) : |f32 x - x| ≤ |y - x| := by
  have key : ∀ x y : ℚ, 0 ≤ x → f32 y = y → |f32 x - x| ≤ |y - x| := by
    intro x y hx hy
    rcases hx.lt_or_eq with hx | hx
    · have hfx : f32 x = roundMagnitude x := by
        unfold f32; rw [if_neg (by linarith)]
      rcases le_or_lt y 0 with hy0 | hy0
      · have := roundMagnitude_nearest_multiple x 0
        rw [Int.cast_zero, zero_mul, zero_sub, abs_neg, abs_of_pos hx] at this
        rw [hfx, abs_of_nonpos (by linarith : y - x ≤ 0)]
        linarith
      · rw [hfx]
        refine roundMagnitude_nearest x y hx hy0 ?_
        have : f32 y = roundMagnitude y := by
          unfold f32; rw [if_neg (by linarith)]
        rw [← this]; exact hy
    · rw [← hx, f32_zero, sub_zero, sub_zero, abs_zero]
      exact abs_nonneg _
  rcases le_or_lt 0 x with hx | hx
  · exact key x y hx hy
  · have h := key (-x) (-y) (by linarith) (by rw [f32_neg, hy])
    rw [f32_neg] at h
    have e1 : -f32 x - -x = -(f32 x - x) := by ring
    have e2 : -y - -x = -(y - x) := by ring
    rwa [e1, e2, abs_neg, abs_neg] at h

theorem fadd_mono {a b c d : ℚ} (h1 : a ≤ c) (h2 : b ≤ d) : fadd a b ≤ fadd c d :=
  f32_mono (add_le_add h1 h2)

theorem fadd_nonneg {a b : ℚ} (h1 : 0 ≤ a) (h2 : 0 ≤ b) : 0 ≤ fadd a b :=
  f32_nonneg (add_nonneg h1 h2)

theorem fmul_nonneg {a b : ℚ} (h1 : 0 ≤ a) (h2 : 0 ≤ b) : 0 ≤ fmul a b :=
  f32_nonneg (mul_nonneg h1 h2)

/-! ## Lemmas on the first loop -/

theorem traceStep_genome (E : Engine) (m : APathManager) (i : Nat) (g : List FVector)
    (path : APath) (index : Nat) :
    (traceStep E m i g path index).mGeneticRepresentation = path.mGeneticRepresentation := by
  unfold traceStep
  simp only []
  split_ifs <;> rfl

theorem traceLoop_genome (E : Engine) (m : APathManager) (i : Nat) (g : List FVector)
    (ks : List Nat) (path : APath) :
    (ks.foldl (fun q k => traceStep E m i g q (k + 1)) path).mGeneticRepresentation
      = path.mGeneticRepresentation := by
  induction ks generalizing path with
  | nil => rfl
  | cons k ks ih => rw [List.foldl_cons, ih, traceStep_genome]

theorem cachePath_genome (E : Engine) (m : APathManager) (i : Nat) (p : APath) :
    (cachePath E m i p).mGeneticRepresentation = E.SnapToTerrain p.mGeneticRepresentation := by
  unfold cachePath
  simp only []
  split_ifs
  · simp only [APath.MarkHasReachedTarget]
    rw [traceLoop_genome]; rfl
  · rw [traceLoop_genome]; rfl

theorem cachePath_nodes (E : Engine) (m : APathManager) (i : Nat) (p : APath) :
    (cachePath E m i p).GetAmountOfNodes = (p.SnapToTerrain E).GetAmountOfNodes := by
  unfold APath.GetAmountOfNodes
  rw [cachePath_genome]; rfl

theorem cachePath_distance (E : Engine) (m : APathManager) (i : Nat) (p : APath) :
    distance_to_targetting_node E m (cachePath E m i p)
      = distance_to_targetting_node E m (p.SnapToTerrain E) := by
  unfold distance_to_targetting_node APath.GetLocationOfFinalNode
  rw [cachePath_genome]; rfl

theorem cachePath_length (E : Engine) (m : APathManager) (i : Nat) (p : APath) :
    (cachePath E m i p).GetLength E = (p.SnapToTerrain E).GetLength E := by
  unfold APath.GetLength
  rw [cachePath_genome]; rfl

theorem Widens.trans {c3 c2 c1 : FitnessBounds} (h : Widens c3 c2) (h2 : Widens c2 c1) :
    Widens c3 c1 := by
  obtain ⟨a1, a2, a3, a4, a5, a6⟩ := h
  obtain ⟨b1, b2, b3, b4, b5, b6⟩ := h2
  exact ⟨le_trans a1 b1, le_trans b2 a2, le_trans a3 b3, le_trans b4 a4, le_trans a5 b5,
    le_trans b6 a6⟩

theorem Encloses.widen {E : Engine} {m : APathManager} {c2 c1 : FitnessBounds} {q : APath}
    (h : Widens c2 c1) (hq : Encloses E m c1 q) : Encloses E m c2 q := by
  obtain ⟨a1, a2, a3, a4, a5, a6⟩ := h
  obtain ⟨b1, b2, b3, b4, b5, b6⟩ := hq
  exact ⟨le_trans a1 b1, le_trans b2 a2, le_trans a3 b3, le_trans b4 a4, le_trans a5 b5,
    le_trans b6 a6⟩

theorem updateBounds_widens (E : Engine) (m : APathManager) (c : FitnessBounds) (q : APath) :
    Widens (updateBounds E m c q) c := by
  unfold Widens updateBounds
  simp only []
  refine ⟨?_, ?_, ?_, ?_, ?_, ?_⟩ <;> split_ifs with h <;>
    first | exact le_refl _ | exact le_of_lt h

theorem updateBounds_encloses (E : Engine) (m : APathManager) (c : FitnessBounds) (q : APath) :
    Encloses E m (updateBounds E m c q) q := by
  unfold Encloses updateBounds
  simp only []
  refine ⟨?_, ?_, ?_, ?_, ?_, ?_⟩ <;> split_ifs with h <;>
    first | exact le_refl _ | exact not_lt.mp h

theorem Encloses.cachePath {E : Engine} {m : APathManager} {c : FitnessBounds} {p : APath}
    (i : Nat) (h : Encloses E m c (p.SnapToTerrain E)) : Encloses E m c (cachePath E m i p) := by
  unfold Encloses at h ⊢
  rw [cachePath_nodes, cachePath_distance, cachePath_length]
  exact h

theorem cacheLoop_length (E : Engine) (m : APathManager) (ps : List APath) :
    ∀ (i : Nat) (c : FitnessBounds), (cacheLoop E m i ps c).2.length = ps.length := by
  induction ps with
  | nil => intro i c; rfl
  | cons p ps ih => intro i c; simp [cacheLoop, ih]

theorem cacheLoop_widens (E : Engine) (m : APathManager) (ps : List APath) :
    ∀ (i : Nat) (c : FitnessBounds), Widens (cacheLoop E m i ps c).1 c := by
  induction ps with
  | nil =>
    intro i c
    exact ⟨le_refl _, le_refl _, le_refl _, le_refl _, le_refl _, le_refl _⟩
  | cons p ps ih =>
    intro i c
    exact (ih (i + 1) _).trans (updateBounds_widens E m c _)

theorem cacheLoop_encloses (E : Engine) (m : APathManager) (ps : List APath) :
    ∀ (i : Nat) (c : FitnessBounds), ∀ q ∈ (cacheLoop E m i ps c).2,
      Encloses E m (cacheLoop E m i ps c).1 q := by
  induction ps with
  | nil => intro i c q hq; simp [cacheLoop] at hq
  | cons p ps ih =>
    intro i c q hq
    simp only [cacheLoop, List.mem_cons] at hq ⊢
    rcases hq with rfl | hq
    · exact Encloses.cachePath i
        (Encloses.widen (cacheLoop_widens E m ps (i + 1) _) (updateBounds_encloses E m c _))
    · exact ih (i + 1) _ q hq

theorem cacheLoop_genomes (E : Engine) (m : APathManager) (ps : List APath) :
    ∀ (i : Nat) (c : FitnessBounds),
      (cacheLoop E m i ps c).2.map APath.mGeneticRepresentation
        = ps.map (fun p => E.SnapToTerrain p.mGeneticRepresentation) := by
  induction ps with
  | nil => intro i c; rfl
  | cons p ps ih => intro i c; simp [cacheLoop, ih, cachePath_genome]

theorem assignFitness_genomes (E : Engine) (m : APathManager) (c : FitnessBounds)
    (ps : List APath) :
    (assignFitness E m c ps).map APath.mGeneticRepresentation
      = ps.map APath.mGeneticRepresentation := by
  unfold assignFitness
  rw [List.map_map]
  rfl

/-! ## Lemmas on the sort -/

theorem orderedInsert_descending (a : APath) (l : List APath)
    (h : l.Pairwise (fun x y => x.mFitness ≥ y.mFitness)) :
    (List.orderedInsert
      (fun lhs rhs => decide (lhs.GetFitness > rhs.GetFitness) = true) a l).Pairwise
      (fun x y => x.mFitness ≥ y.mFitness) := by
  induction l with
  | nil => simp
  | cons b l ih =>
    rw [List.pairwise_cons] at h
    rw [List.orderedInsert]
    split_ifs with hab
    · have hab2 : a.mFitness > b.mFitness := by simpa [APath.GetFitness] using hab
      refine List.pairwise_cons.mpr ⟨?_, List.pairwise_cons.mpr h⟩
      intro x hx
      rcases List.mem_cons.mp hx with rfl | hx
      · exact le_of_lt hab2
      · exact le_trans (h.1 x hx) (le_of_lt hab2)
    · have hab2 : a.mFitness ≤ b.mFitness := by simpa [APath.GetFitness] using hab
      refine List.pairwise_cons.mpr ⟨?_, ih h.2⟩
      intro x hx
      rcases (List.mem_orderedInsert _).mp hx with rfl | hx
      · exact hab2
      · exact h.1 x hx

theorem TArraySort_descending (l : List APath) :
    (TArraySort (fun lhs rhs => decide (lhs.GetFitness > rhs.GetFitness)) l).Pairwise
      (fun x y => x.mFitness ≥ y.mFitness) := by
  unfold TArraySort
  induction l with
  | nil => simp
  | cons a l ih => exact orderedInsert_descending a _ ih

theorem TArraySort_perm (pred : APath → APath → Bool) (l : List APath) :
    List.Perm (TArraySort pred l) l :=
  List.perm_insertionSort _ l

theorem EvaluateFitness_mPaths (E : Engine) (m : APathManager) :
    (EvaluateFitness E m).mPaths
      = TArraySort (fun lhs rhs => decide (lhs.GetFitness > rhs.GetFitness)) (scoredPaths E m) :=
  rfl

theorem EvaluateFitness_perm (E : Engine) (m : APathManager) :
    List.Perm (EvaluateFitness E m).mPaths (scoredPaths E m) := by
  rw [EvaluateFitness_mPaths]
  exact TArraySort_perm _ _

theorem mem_EvaluateFitness (E : Engine) (m : APathManager) (q : APath) :
    q ∈ (EvaluateFitness E m).mPaths ↔ q ∈ scoredPaths E m :=
  (EvaluateFitness_perm E m).mem_iff

theorem cachedPaths_encloses (E : Engine) (m : APathManager) :
    ∀ q ∈ cachedPaths E m, Encloses E m (populationBounds E m) q :=
  cacheLoop_encloses E m m.mPaths 0 FitnessBounds.init

/-! ## The cached bounds are attained -/

theorem attained_step {α : Type} {f : APath → α} {v c1 c0 : α} {l : List APath} {x : APath}
    (h : v = c1 ∨ ∃ q ∈ l, f q = v) (h1 : c1 = c0 ∨ c1 = f x) :
    v = c0 ∨ ∃ q ∈ x :: l, f q = v := by
  rcases h with h | ⟨q, hq, hv⟩
  · rcases h1 with h1 | h1
    · exact Or.inl (h.trans h1)
    · exact Or.inr ⟨x, List.mem_cons_self _ _, (h.trans h1).symm⟩
  · exact Or.inr ⟨q, List.mem_cons_of_mem _ hq, hv⟩

theorem updateBounds_attained (E : Engine) (m : APathManager) (c : FitnessBounds) (p : APath)
    (i : Nat) :
    ((updateBounds E m c (p.SnapToTerrain E)).least_amount_of_nodes = c.least_amount_of_nodes ∨
      (updateBounds E m c (p.SnapToTerrain E)).least_amount_of_nodes
        = (cachePath E m i p).GetAmountOfNodes) ∧
    ((updateBounds E m c (p.SnapToTerrain E)).most_amount_of_nodes = c.most_amount_of_nodes ∨
      (updateBounds E m c (p.SnapToTerrain E)).most_amount_of_nodes
        = (cachePath E m i p).GetAmountOfNodes) ∧
    ((updateBounds E m c (p.SnapToTerrain E)).closest_distance = c.closest_distance ∨
      (updateBounds E m c (p.SnapToTerrain E)).closest_distance
        = distance_to_targetting_node E m (cachePath E m i p)) ∧
    ((updateBounds E m c (p.SnapToTerrain E)).furthest_distance = c.furthest_distance ∨
      (updateBounds E m c (p.SnapToTerrain E)).furthest_distance
        = distance_to_targetting_node E m (cachePath E m i p)) ∧
    ((updateBounds E m c (p.SnapToTerrain E)).shortest_path_length = c.shortest_path_length ∨
      (updateBounds E m c (p.SnapToTerrain E)).shortest_path_length
        = (cachePath E m i p).GetLength E) ∧
    ((updateBounds E m c (p.SnapToTerrain E)).longest_path_length = c.longest_path_length ∨
      (updateBounds E m c (p.SnapToTerrain E)).longest_path_length
        = (cachePath E m i p).GetLength E) := by
  rw [cachePath_nodes, cachePath_distance, cachePath_length]
  unfold updateBounds
  simp only []
  refine ⟨?_, ?_, ?_, ?_, ?_, ?_⟩ <;> split_ifs <;> first | exact Or.inl rfl | exact Or.inr rfl

theorem cacheLoop_attained (E : Engine) (m : APathManager) (ps : List APath) :
    ∀ (i : Nat) (c : FitnessBounds),
      Attained E m (cacheLoop E m i ps c).1 c (cacheLoop E m i ps c).2 := by
  induction ps with
  | nil =>
    intro i c
    exact ⟨Or.inl rfl, Or.inl rfl, Or.inl rfl, Or.inl rfl, Or.inl rfl, Or.inl rfl⟩
  | cons p ps ih =>
    intro i c
    obtain ⟨a1, a2, a3, a4, a5, a6⟩ := ih (i + 1) (updateBounds E m c (p.SnapToTerrain E))
    obtain ⟨b1, b2, b3, b4, b5, b6⟩ := updateBounds_attained E m c p i
    exact ⟨attained_step a1 b1, attained_step a2 b2, attained_step a3 b3, attained_step a4 b4,
      attained_step a5 b5, attained_step a6 b6⟩

theorem cachedPaths_attained (E : Engine) (m : APathManager) :
    Attained E m (populationBounds E m) FitnessBounds.init (cachedPaths E m) :=
  cacheLoop_attained E m m.mPaths 0 FitnessBounds.init

theorem segmentSum_nonneg (size : FVector → ℚ) (h : ∀ v, 0 ≤ size v) :
    ∀ g : List FVector, 0 ≤ APath.segmentSum size g
  | [] => le_refl _
  | [_] => le_refl _
  | a :: b :: rest => by
    rw [APath.segmentSum]
    exact add_nonneg (h _) (segmentSum_nonneg size h (b :: rest))

theorem GetLength_nonneg (E : Engine) (h : ∀ v, 0 ≤ E.Size v) (q : APath) :
    0 ≤ q.GetLength E :=
  segmentSum_nonneg E.Size h _

theorem cachedPaths_ne_nil (E : Engine) (m : APathManager) (hne : m.mPaths ≠ []) :
    ∃ q, q ∈ cachedPaths E m := by
  have hl : (cachedPaths E m).length = m.mPaths.length := cacheLoop_length E m _ _ _
  cases h : cachedPaths E m with
  | nil =>
    rw [h] at hl
    exact absurd (List.length_eq_zero.mp hl.symm) hne
  | cons q _ => exact ⟨q, List.mem_cons_self _ _⟩

/-- With non-negative norms, the upper bounds of the two float criteria are attained by an
individual of a non-empty population; so are the lower bounds when no measurement exceeds
the largest float. -/
theorem populationBounds_attained (E : Engine) (m : APathManager)
    (hsize : ∀ v, 0 ≤ E.Size v) (hne : m.mPaths ≠ []) :
    (∃ q ∈ cachedPaths E m,
      distance_to_targetting_node E m q = (populationBounds E m).furthest_distance) ∧
    (∃ q ∈ cachedPaths E m, q.GetLength E = (populationBounds E m).longest_path_length) ∧
    ((∀ q ∈ cachedPaths E m, distance_to_targetting_node E m q ≤ FLT_MAX) →
      ∃ q ∈ cachedPaths E m,
        distance_to_targetting_node E m q = (populationBounds E m).closest_distance) ∧
    ((∀ q ∈ cachedPaths E m, q.GetLength E ≤ FLT_MAX) →
      ∃ q ∈ cachedPaths E m, q.GetLength E = (populationBounds E m).shortest_path_length) := by
  obtain ⟨q0, h0⟩ := cachedPaths_ne_nil E m hne
  obtain ⟨_, _, e3, e4, e5, e6⟩ := cachedPaths_encloses E m q0 h0
  obtain ⟨_, _, a3, a4, a5, a6⟩ := cachedPaths_attained E m
  refine ⟨?_, ?_, ?_, ?_⟩
  · rcases a4 with h | h
    · refine ⟨q0, h0, le_antisymm e4 ?_⟩
      rw [h]; exact hsize _
    · exact h
  · rcases a6 with h | h
    · refine ⟨q0, h0, le_antisymm e6 ?_⟩
      rw [h]; exact GetLength_nonneg E hsize q0
    · exact h
  · intro hfin
    rcases a3 with h | h
    · refine ⟨q0, h0, le_antisymm ?_ e3⟩
      rw [h]; exact hfin q0 h0
    · exact h
  · intro hfin
    rcases a5 with h | h
    · refine ⟨q0, h0, le_antisymm ?_ e5⟩
      rw [h]; exact hfin q0 h0
    · exact h

/-! ## Lemmas on the blend values -/

theorem blend_mem_unit (lo x hi : ℚ) (h1 : lo ≤ x) (h2 : x ≤ hi) :
    0 ≤ fdiv (fsub x hi) (fsub lo hi) ∧ fdiv (fsub x hi) (fsub lo hi) ≤ 1 := by
  have hn : fsub x hi ≤ 0 := f32_nonpos (by linarith)
  have hdn : fsub lo hi ≤ fsub x hi := f32_mono (by linarith)
  have hd : fsub lo hi ≤ 0 := le_trans hdn hn
  refine ⟨f32_nonneg (div_nonneg_of_nonpos hn hd), f32_le_one ?_⟩
  rcases eq_or_lt_of_le hd with h0 | hneg
  · rw [h0, div_zero]; exact zero_le_one
  · rw [div_le_one_of_neg hneg]; exact hdn

theorem tdiv_nonneg_of_nonpos (a b : Int) (ha : a ≤ 0) (hb : b ≤ 0) : 0 ≤ Int.tdiv a b := by
  have h : Int.tdiv a b = Int.tdiv (-a) (-b) := by rw [Int.neg_tdiv_neg]
  rw [h]
  exact Int.tdiv_nonneg (by omega) (by omega)

theorem node_amount_blend_nonneg (E : Engine) (m : APathManager) (c : FitnessBounds) (q : APath)
    (h : Encloses E m c q) : 0 ≤ node_amount_blend_value c q := by
  unfold node_amount_blend_value
  obtain ⟨h1, h2, _⟩ := h
  split_ifs with hne
  · have : 0 ≤ Int.tdiv (q.GetAmountOfNodes - c.most_amount_of_nodes)
        (c.least_amount_of_nodes - c.most_amount_of_nodes) :=
      tdiv_nonneg_of_nonpos _ _ (by omega) (by omega)
    exact f32_nonneg (by exact_mod_cast this)
  · exact le_refl _

theorem proximity_blend_mem_unit (E : Engine) (m : APathManager) (c : FitnessBounds) (q : APath)
    (h : Encloses E m c q) :
    0 ≤ proximity_blend_value E m c q ∧ proximity_blend_value E m c q ≤ 1 := by
  unfold proximity_blend_value
  obtain ⟨_, _, h3, h4, _, _⟩ := h
  split_ifs
  · exact blend_mem_unit _ _ _ h3 h4
  · exact ⟨le_refl _, zero_le_one⟩

theorem length_blend_mem_unit (E : Engine) (m : APathManager) (c : FitnessBounds) (q : APath)
    (h : Encloses E m c q) :
    0 ≤ length_blend_value E c q ∧ length_blend_value E c q ≤ 1 := by
  unfold length_blend_value
  obtain ⟨_, _, _, _, h5, h6⟩ := h
  split_ifs
  · exact blend_mem_unit _ _ _ h5 h6
  · exact ⟨le_refl _, zero_le_one⟩

theorem bonus_and_multiplier_nonneg (m : APathManager) (q : APath)
    (w4 : 0 ≤ m.CanSeeTargetWeight) (w5 : 0 ≤ m.TargetReachedWeight)
    (m1 : 0 ≤ m.ObstacleHitMultiplier) (m2 : 0 ≤ m.SlopeTooIntenseMultiplier)
    (m3 : 0 ≤ m.PiercesTerrainMultiplier) :
    0 ≤ can_see_target_fitness m q ∧ 0 ≤ target_reached_fitness m q ∧
    0 ≤ obstacle_multiplier m q ∧ 0 ≤ slope_too_intense_multiplier m q ∧
    0 ≤ traveling_through_terrain_multiplier m q := by
  refine ⟨?_, ?_, ?_, ?_, ?_⟩
  · unfold can_see_target_fitness; split_ifs <;> simp [w4]
  · unfold target_reached_fitness; split_ifs <;> simp [w5]
  · unfold obstacle_multiplier; split_ifs <;> simp [m1]
  · unfold slope_too_intense_multiplier; split_ifs <;> simp [m2]
  · unfold traveling_through_terrain_multiplier; split_ifs <;> simp [m3]

theorem rawScore_nonneg (E : Engine) (m : APathManager) (c : FitnessBounds) (q : APath)
    (h : Encloses E m c q)
    (hw : 0 ≤ m.AmountOfNodesWeight ∧ 0 ≤ m.ProximityToTargetedNodeWeight ∧ 0 ≤ m.LengthWeight ∧
      0 ≤ m.CanSeeTargetWeight ∧ 0 ≤ m.TargetReachedWeight ∧ 0 ≤ m.SlopeWeight) :
    0 ≤ rawScore E m c q := by
  obtain ⟨w1, w2, w3, w4, w5, w6⟩ := hw
  have b1 := node_amount_blend_nonneg E m c q h
  have b2 := (proximity_blend_mem_unit E m c q h).1
  have b3 := (length_blend_mem_unit E m c q h).1
  have s1 : 0 ≤ can_see_target_fitness m q := by
    unfold can_see_target_fitness; split_ifs <;> simp [w4]
  have s2 : 0 ≤ target_reached_fitness m q := by
    unfold target_reached_fitness; split_ifs <;> simp [w5]
  unfold rawScore
  exact fadd_nonneg (fadd_nonneg (fadd_nonneg (fadd_nonneg (fadd_nonneg (fmul_nonneg w1 b1)
    (fmul_nonneg w2 b2)) (fmul_nonneg w3 b3)) s1) s2) w6

theorem final_fitness_eq_rawScore (E : Engine) (m : APathManager) (c : FitnessBounds)
    (q : APath) :
    final_fitness E m c q
      = fmul (fmul (fmul (rawScore E m c q) (obstacle_multiplier m q))
          (slope_too_intense_multiplier m q)) (traveling_through_terrain_multiplier m q) :=
  rfl

theorem final_fitness_nonneg (E : Engine) (m : APathManager) (c : FitnessBounds) (q : APath)
    (h : Encloses E m c q)
    (hw : 0 ≤ m.AmountOfNodesWeight ∧ 0 ≤ m.ProximityToTargetedNodeWeight ∧ 0 ≤ m.LengthWeight ∧
      0 ≤ m.CanSeeTargetWeight ∧ 0 ≤ m.TargetReachedWeight ∧ 0 ≤ m.SlopeWeight)
    (hm : 0 ≤ m.ObstacleHitMultiplier ∧ 0 ≤ m.SlopeTooIntenseMultiplier ∧
      0 ≤ m.PiercesTerrainMultiplier) :
    0 ≤ final_fitness E m c q := by
  obtain ⟨m1, m2, m3⟩ := hm
  obtain ⟨_, _, p1, p2, p3⟩ := bonus_and_multiplier_nonneg m q hw.2.2.2.1 hw.2.2.2.2.1 m1 m2 m3
  rw [final_fitness_eq_rawScore]
  exact fmul_nonneg (fmul_nonneg (fmul_nonneg (rawScore_nonneg E m c q h hw) p1) p2) p3

theorem EvaluateFitness_length (E : Engine) (m : APathManager) :
    (EvaluateFitness E m).mPaths.length = m.mPaths.length := by
  rw [(EvaluateFitness_perm E m).length_eq]
  unfold scoredPaths assignFitness
  rw [List.length_map, cacheLoop_length]

theorem fsub_self (x : ℚ) : fsub x x = 0 := by
  unfold fsub
  rw [sub_self, f32_zero]

theorem fdiv_zero_left (d : ℚ) : fdiv 0 d = 0 := by
  unfold fdiv
  rw [zero_div, f32_zero]

theorem fsub_swap (a b : ℚ) : fsub a b = -fsub b a := by
  unfold fsub
  rw [← f32_neg, neg_sub]

theorem blend_spread (lo x hi : ℚ) (x2 : ℚ) (hspread : fsub hi lo > f32 (1 / 10)) :
    |fsub lo hi| > f32 (1 / 10) ∧ (x = lo → fdiv (fsub x hi) (fsub lo hi) = 1) ∧
    (x = hi → fdiv (fsub x hi) (fsub lo hi) = 0) ∧
    (x ≤ x2 → fdiv (fsub x2 hi) (fsub lo hi) ≤ fdiv (fsub x hi) (fsub lo hi)) := by
  have htenth : (0 : ℚ) < f32 (1 / 10) := by rw [f32_tenth]; norm_num
  have hd : fsub lo hi < 0 := by rw [fsub_swap]; linarith
  refine ⟨?_, ?_, ?_, ?_⟩
  · rw [abs_of_neg hd, fsub_swap, neg_neg]; exact hspread
  · intro h; rw [h]; unfold fdiv; rw [div_self (ne_of_lt hd), f32_one]
  · intro h; rw [h]
    have : fsub hi hi = 0 := by unfold fsub; rw [sub_self, f32_zero]
    rw [this]; unfold fdiv; rw [zero_div, f32_zero]
  · intro h
    unfold fdiv
    refine f32_mono (div_le_div_of_nonpos_of_le (le_of_lt hd) ?_)
    exact f32_mono (by linarith)

theorem guard_iff_spread (lo hi : ℚ) (h : lo ≤ hi) :
    |fsub lo hi| > f32 (1 / 10) ↔ fsub hi lo > f32 (1 / 10) := by
  have h0 : 0 ≤ fsub hi lo := f32_nonneg (by linarith)
  rw [fsub_swap, abs_neg, abs_of_nonneg h0]

theorem checked_blends_total (E : Engine) (m : APathManager) (c : FitnessBounds) (q : APath) :
    node_amount_blend_checked c q = some (node_amount_blend_value c q) ∧
    proximity_blend_checked E m c q = some (proximity_blend_value E m c q) ∧
    length_blend_checked E c q = some (length_blend_value E c q) := by
  have htenth : ¬ ((0 : ℚ) > f32 (1 / 10)) := by rw [f32_tenth]; norm_num
  refine ⟨?_, ?_, ?_⟩
  · unfold node_amount_blend_checked node_amount_blend_value checkedTDiv
    by_cases h1 : c.least_amount_of_nodes - c.most_amount_of_nodes = 0
    · simp [h1]
    · simp [h1]
  · unfold proximity_blend_checked proximity_blend_value checkedDiv
    split_ifs with h1 h2
    · rw [h2, abs_zero] at h1; exact absurd h1 htenth
    · rfl
    · rfl
  · unfold length_blend_checked length_blend_value checkedDiv
    split_ifs with h1 h2
    · rw [h2, abs_zero] at h1; exact absurd h1 htenth
    · rfl
    · rfl

/-! ## Lemmas on the selection -/

theorem accumulatedShare_nil (T acc : ℚ) : accumulatedShare T acc [] = acc := rfl

theorem accumulatedShare_cons (T acc : ℚ) (a : APath) (ps : List APath) :
    accumulatedShare T acc (a :: ps)
      = accumulatedShare T (fadd acc (fdiv a.mFitness T)) ps := rfl

theorem accumulatedShare_append (T acc : ℚ) (ps qs : List APath) :
    accumulatedShare T acc (ps ++ qs) = accumulatedShare T (accumulatedShare T acc ps) qs := by
  unfold accumulatedShare
  rw [List.foldl_append]

theorem runningShare_zero (ps : List APath) (T : ℚ) : runningShare ps T 0 = 0 := by
  simp [runningShare, accumulatedShare]

theorem runningShare_succ (ps : List APath) (T : ℚ) (n : Nat) (p : APath)
    (h : ps[n]? = some p) :
    runningShare ps T (n + 1) = fadd (runningShare ps T n) (fdiv p.mFitness T) := by
  unfold runningShare
  have hn : n < ps.length := by
    by_contra hc
    rw [List.getElem?_eq_none_iff.mpr (by omega)] at h
    exact Option.noConfusion h
  have hp : ps[n] = p := by
    rw [List.getElem?_eq_getElem hn] at h
    exact Option.some.inj h
  rw [List.take_succ, List.getElem?_eq_getElem hn, accumulatedShare_append, hp]
  rfl

theorem runningShare_full (ps : List APath) (T : ℚ) :
    runningShare ps T ps.length = accumulatedShare T 0 ps := by
  unfold runningShare
  rw [List.take_length]

theorem runningShare_of_length_le (ps : List APath) (T : ℚ) (n : Nat) (h : ps.length ≤ n) :
    runningShare ps T n = runningShare ps T ps.length := by
  unfold runningShare
  rw [List.take_of_length_le h, List.take_length]

theorem rouletteWalk_eq_some_iff (R T : ℚ) (ps : List APath) :
    ∀ (i0 : Nat) (acc : ℚ) (i : Nat) (p : APath),
      rouletteWalk R T ps i0 acc = some (i, p) ↔
        ∃ j, i = i0 + j ∧ ps[j]? = some p ∧ R ≤ accumulatedShare T acc (ps.take (j + 1)) ∧
          ∀ j2 < j, accumulatedShare T acc (ps.take (j2 + 1)) < R := by
  induction ps with
  | nil =>
    intro i0 acc i p
    simp [rouletteWalk]
  | cons a ps ih =>
    intro i0 acc i p
    rw [rouletteWalk]
    simp only [APath.GetFitness]
    have htake : ∀ n, accumulatedShare T acc ((a :: ps).take (n + 1))
        = accumulatedShare T (fadd acc (fdiv a.mFitness T)) (ps.take n) := fun n => rfl
    by_cases hge : fadd acc (fdiv a.mFitness T) ≥ R
    · rw [if_pos hge]
      constructor
      · intro h
        have h1 : i0 = i ∧ a = p := by simpa using h
        refine ⟨0, by omega, by simp [h1.2], ?_, by simp⟩
        rw [htake, List.take_zero, accumulatedShare_nil]
        exact hge
      · rintro ⟨j, hi, hp, _, hlt⟩
        cases j with
        | zero =>
          have : a = p := by simpa using hp
          simp [hi, this]
        | succ j =>
          have := hlt 0 (Nat.succ_pos j)
          rw [htake, List.take_zero, accumulatedShare_nil] at this
          exact absurd hge (not_le.mpr this)
    · rw [if_neg hge, ih]
      have hlt0 : fadd acc (fdiv a.mFitness T) < R := not_le.mp hge
      constructor
      · rintro ⟨j, hi, hp, hR, hlt⟩
        refine ⟨j + 1, by omega, by simpa using hp, ?_, ?_⟩
        · rw [htake]; exact hR
        · intro j2 hj2
          cases j2 with
          | zero => rw [htake, List.take_zero, accumulatedShare_nil]; exact hlt0
          | succ j2 =>
            rw [htake]
            exact hlt j2 (by omega)
      · rintro ⟨j, hi, hp, hR, hlt⟩
        cases j with
        | zero =>
          rw [htake, List.take_zero, accumulatedShare_nil] at hR
          exact absurd hR hge
        | succ j =>
          refine ⟨j, by omega, by simpa using hp, ?_, ?_⟩
          · rw [htake] at hR; exact hR
          · intro j2 hj2
            have := hlt (j2 + 1) (by omega)
            rw [htake] at this; exact this

theorem rouletteWalk_isSome (R T : ℚ) (ps : List APath) :
    ∀ (i0 : Nat) (acc : ℚ), (acc < R ∨ ps ≠ []) → R ≤ accumulatedShare T acc ps →
      ∃ r, rouletteWalk R T ps i0 acc = some r := by
  induction ps with
  | nil =>
    intro i0 acc hne h
    rcases hne with hlt | hne
    · rw [accumulatedShare_nil] at h; exact absurd h (not_le.mpr hlt)
    · exact absurd rfl hne
  | cons a ps ih =>
    intro i0 acc _ h
    rw [rouletteWalk]
    simp only [APath.GetFitness]
    by_cases hge : fadd acc (fdiv a.mFitness T) ≥ R
    · rw [if_pos hge]; exact ⟨_, rfl⟩
    · rw [if_neg hge]
      exact ih _ _ (Or.inl (not_le.mp hge)) h

theorem rouletteWalk_none_iff (R T : ℚ) (ps : List APath) :
    ∀ (i0 : Nat) (acc : ℚ),
      rouletteWalk R T ps i0 acc = none ↔
        ∀ j < ps.length, accumulatedShare T acc (ps.take (j + 1)) < R := by
  induction ps with
  | nil => intro i0 acc; simp [rouletteWalk]
  | cons a ps ih =>
    intro i0 acc
    rw [rouletteWalk]
    simp only [APath.GetFitness]
    have htake : ∀ n, accumulatedShare T acc ((a :: ps).take (n + 1))
        = accumulatedShare T (fadd acc (fdiv a.mFitness T)) (ps.take n) := fun n => rfl
    by_cases hge : fadd acc (fdiv a.mFitness T) ≥ R
    · rw [if_pos hge]
      constructor
      · intro h; exact Option.noConfusion h
      · intro h
        have := h 0 (by simp)
        rw [htake, List.take_zero, accumulatedShare_nil] at this
        exact absurd hge (not_le.mpr this)
    · rw [if_neg hge, ih]
      constructor
      · intro h j hj
        cases j with
        | zero => rw [htake, List.take_zero, accumulatedShare_nil]; exact not_le.mp hge
        | succ j =>
          rw [htake]
          exact h j (by simpa using hj)
      · intro h j hj
        have := h (j + 1) (by simpa using hj)
        rw [htake] at this
        exact this

theorem selectionLoop_spec (E : Engine) (m : APathManager)
    (hwalk : ∀ n, ∃ r, rouletteWalk (E.FRand n) m.mTotalFitness m.mPaths 0 0 = some r) :
    ∀ (n fuel k : Nat) (pool : List APath),
      ((pool.length + n : Nat) : Int) = m.PopulationCount → n ≤ fuel →
      ∃ picks : List APath, picks.length = n ∧
        selectionLoop E m fuel k pool = some (pool ++ picks, k + n) ∧
        ∀ j < n, ∃ r, rouletteWalk (E.FRand (k + j)) m.mTotalFitness m.mPaths 0 0 = some r ∧
          picks[j]? = some r.2 := by
  intro n
  induction n with
  | zero =>
    intro fuel k pool hlen _
    refine ⟨[], rfl, ?_, by simp⟩
    have hnot : ¬ ((pool.length : Int) < m.PopulationCount) := by
      rw [← hlen]; simp
    cases fuel with
    | zero => simp [selectionLoop, hnot]
    | succ f => simp [selectionLoop, hnot]
  | succ n ih =>
    intro fuel k pool hlen hfuel
    have hlt : (pool.length : Int) < m.PopulationCount := by
      rw [← hlen]; push_cast; omega
    cases fuel with
    | zero => omega
    | succ f =>
      obtain ⟨r, hr⟩ := hwalk k
      obtain ⟨picks, hpl, hsel, hall⟩ := ih f (k + 1) (pool ++ [r.2])
        (by rw [← hlen]; simp; omega) (by omega)
      refine ⟨r.2 :: picks, by simp [hpl], ?_, ?_⟩
      · rw [selectionLoop, if_pos hlt]
        simp only [hr]
        rw [hsel]
        simp [Nat.add_assoc, Nat.add_comm 1 n]
      · intro j hj
        cases j with
        | zero => exact ⟨r, hr, by simp⟩
        | succ j =>
          obtain ⟨r2, hr2, hp2⟩ := hall j (by omega)
          refine ⟨r2, ?_, by simpa using hp2⟩
          rw [show k + (j + 1) = k + 1 + j by omega]
          exact hr2

theorem rouletteWalk_total (R T : ℚ) (ps : List APath) (hne : ps ≠ [])
    (hR : R ≤ runningShare ps T ps.length) :
    ∃ r, rouletteWalk R T ps 0 0 = some r := by
  refine rouletteWalk_isSome R T ps 0 0 (Or.inr hne) ?_
  rwa [runningShare_full] at hR

theorem accumulatedShare_isFloat (T : ℚ) (ps : List APath) :
    ∀ acc : ℚ, f32 acc = acc → f32 (accumulatedShare T acc ps) = accumulatedShare T acc ps := by
  induction ps with
  | nil => intro acc h; exact h
  | cons a ps ih =>
    intro acc _
    rw [accumulatedShare_cons]
    exact ih _ (f32_idem _)

theorem runningShare_isFloat (ps : List APath) (T : ℚ) (n : Nat) :
    f32 (runningShare ps T n) = runningShare ps T n :=
  accumulatedShare_isFloat T _ 0 f32_zero

theorem fdiv_nonneg {a b : ℚ} (ha : 0 ≤ a) (hb : 0 ≤ b) : 0 ≤ fdiv a b :=
  f32_nonneg (div_nonneg ha hb)

theorem runningShare_le_succ (ps : List APath) (T : ℚ) (hnonneg : ∀ p ∈ ps, 0 ≤ p.mFitness)
    (hpos : 0 < T) (n : Nat) : runningShare ps T n ≤ runningShare ps T (n + 1) := by
  cases h : ps[n]? with
  | none =>
    have hlen : ps.length ≤ n := List.getElem?_eq_none_iff.mp h
    rw [runningShare_of_length_le ps T n hlen, runningShare_of_length_le ps T (n + 1) (by omega)]
  | some p =>
    rw [runningShare_succ ps T n p h]
    have hp : 0 ≤ p.mFitness := hnonneg p (List.getElem?_mem h)
    have hs : 0 ≤ fdiv p.mFitness T := fdiv_nonneg hp (le_of_lt hpos)
    have := f32_mono (show runningShare ps T n ≤ runningShare ps T n + fdiv p.mFitness T by
      linarith)
    rwa [runningShare_isFloat] at this

theorem runningShare_mono (ps : List APath) (T : ℚ) (hnonneg : ∀ p ∈ ps, 0 ≤ p.mFitness)
    (hpos : 0 < T) : Monotone (runningShare ps T) :=
  monotone_nat_of_le_succ (runningShare_le_succ ps T hnonneg hpos)

theorem rouletteWalk_index_iff (R T : ℚ) (ps : List APath)
    (hnonneg : ∀ p ∈ ps, 0 ≤ p.mFitness) (hpos : 0 < T) (k : Nat) (p : APath)
    (hk : ps[k]? = some p) :
    (rouletteWalk R T ps 0 0).map Prod.fst = some k ↔
      R ≤ runningShare ps T (k + 1) ∧ (k = 0 ∨ runningShare ps T k < R) := by
  have hmono := runningShare_mono ps T hnonneg hpos
  constructor
  · intro h
    cases hw : rouletteWalk R T ps 0 0 with
    | none => rw [hw] at h; simp at h
    | some r =>
      rw [hw] at h
      have hr : r.1 = k := by simpa using h
      have hw2 : rouletteWalk R T ps 0 0 = some (r.1, r.2) := hw
      obtain ⟨j, hj, _, hle, hlt⟩ := (rouletteWalk_eq_some_iff R T ps 0 0 r.1 r.2).mp hw2
      have hjk : j = k := by omega
      subst hjk
      refine ⟨hle, ?_⟩
      cases j with
      | zero => exact Or.inl rfl
      | succ j => exact Or.inr (hlt j (Nat.lt_succ_self j))
  · rintro ⟨hle, hlt⟩
    have hw : rouletteWalk R T ps 0 0 = some (k, p) := by
      refine (rouletteWalk_eq_some_iff R T ps 0 0 k p).mpr ⟨k, by omega, hk, hle, ?_⟩
      intro j2 hj2
      rcases hlt with h0 | hlt
      · omega
      · exact lt_of_le_of_lt (hmono (show j2 + 1 ≤ k by omega)) hlt
    rw [hw]; rfl

theorem rouletteWalk_none_of_gt (R T : ℚ) (ps : List APath)
    (hnonneg : ∀ p ∈ ps, 0 ≤ p.mFitness) (hpos : 0 < T)
    (hR : runningShare ps T ps.length < R) : rouletteWalk R T ps 0 0 = none := by
  rw [rouletteWalk_none_iff]
  intro j hj
  exact lt_of_le_of_lt (runningShare_mono ps T hnonneg hpos (show j + 1 ≤ ps.length by omega)) hR

theorem rouletteWalk_mem (R T : ℚ) (ps : List APath) (i0 : Nat) (acc : ℚ) (r : Nat × APath)
    (h : rouletteWalk R T ps i0 acc = some r) : r.2 ∈ ps := by
  have h2 : rouletteWalk R T ps i0 acc = some (r.1, r.2) := h
  obtain ⟨j, _, hj, _, _⟩ := (rouletteWalk_eq_some_iff R T ps i0 acc r.1 r.2).mp h2
  exact List.getElem?_mem hj

theorem selectionLoop_sound (E : Engine) (m : APathManager) :
    ∀ (fuel k : Nat) (pool pool2 : List APath) (k2 : Nat),
      selectionLoop E m fuel k pool = some (pool2, k2) →
      (∃ picks, pool2 = pool ++ picks ∧ (∀ p ∈ picks, p ∈ m.mPaths) ∧ k + picks.length ≤ k2) ∧
      ((pool.length : Int) ≤ m.PopulationCount → (pool2.length : Int) = m.PopulationCount) := by
  intro fuel
  induction fuel with
  | zero =>
    intro k pool pool2 k2 h
    rw [selectionLoop] at h
    split_ifs at h with hlt
    have e : pool = pool2 ∧ k = k2 := by simpa using h
    obtain ⟨rfl, rfl⟩ := e
    exact ⟨⟨[], by simp, by simp, by simp⟩, fun hle => by omega⟩
  | succ f ih =>
    intro k pool pool2 k2 h
    rw [selectionLoop] at h
    split_ifs at h with hlt
    · cases hw : rouletteWalk (E.FRand k) m.mTotalFitness m.mPaths 0 0 with
      | none =>
        simp only [hw] at h
        obtain ⟨⟨picks, hp, hmem, hk⟩, hlen⟩ := ih (k + 1) pool pool2 k2 h
        exact ⟨⟨picks, hp, hmem, by omega⟩, hlen⟩
      | some r =>
        simp only [hw] at h
        obtain ⟨⟨picks, hp, hmem, hk⟩, hlen⟩ := ih (k + 1) (pool ++ [r.2]) pool2 k2 h
        refine ⟨⟨r.2 :: picks, by simp [hp], ?_, by simp; omega⟩, fun _ => hlen ?_⟩
        · intro p hpm
          rcases List.mem_cons.mp hpm with rfl | hpm
          · exact rouletteWalk_mem _ _ _ _ _ r hw
          · exact hmem p hpm
        · simp; omega
    · have e : pool = pool2 ∧ k = k2 := by simpa using h
      obtain ⟨rfl, rfl⟩ := e
      exact ⟨⟨[], by simp, by simp, by simp⟩, fun hle => by omega⟩

/-! ## Lemmas on the crossover -/

theorem crossoverLoop_length (E : Engine) (m : APathManager) :
    ∀ (n : Nat) (pool : List APath) (k : Nat) (temp : List APath) (cnt : Int),
      pool.length = 2 * n →
      ∃ r, crossoverLoop E m pool k temp cnt = some r ∧ r.1.length = temp.length + pool.length := by
  intro n
  induction n with
  | zero =>
    intro pool k temp cnt h
    have : pool = [] := List.length_eq_zero.mp (by omega)
    subst this
    exact ⟨_, rfl, rfl⟩
  | succ n ih =>
    intro pool k temp cnt h
    match pool, h with
    | a :: b :: rest, h =>
      have hrest : rest.length = 2 * n := by simp at h; omega
      rw [crossoverLoop]
      simp only []
      split_ifs
      · obtain ⟨r, hr, hl⟩ := ih rest (crossoverPair E m a b (k + 1)).2.2
          (temp ++ [(crossoverPair E m a b (k + 1)).1, (crossoverPair E m a b (k + 1)).2.1])
          (cnt + 1) hrest
        exact ⟨r, hr, by rw [hl]; simp; omega⟩
      · obtain ⟨r, hr, hl⟩ := ih rest (k + 1) (temp ++ [duplicatePath a, duplicatePath b])
          cnt hrest
        exact ⟨r, hr, by rw [hl]; simp; omega⟩

theorem singlePointLoop_start (E : Engine) (m : APathManager) (sm bg : APath) (p : Int) :
    ∀ (rest : List FVector) (index k : Nat) (o0 o1 : APath),
      rest = bg.mGeneticRepresentation.drop index →
      sm.mGeneticRepresentation.length ≤ bg.mGeneticRepresentation.length →
      (∃ t, (singlePointLoop E m sm bg p rest index k o0 o1).1.mGeneticRepresentation
            = o0.mGeneticRepresentation ++ t ∧
          ∀ i, index ≤ i → i < sm.mGeneticRepresentation.length →
            t[i - index]? = some (if (i : Int) < p then sm.GetChromosome i
              else bg.GetChromosome i)) ∧
      (∃ t, (singlePointLoop E m sm bg p rest index k o0 o1).2.1.mGeneticRepresentation
            = o1.mGeneticRepresentation ++ t ∧
          ∀ i, index ≤ i → i < sm.mGeneticRepresentation.length →
            t[i - index]? = some (if (i : Int) < p then bg.GetChromosome i
              else sm.GetChromosome i)) := by
  intro rest
  induction rest with
  | nil =>
    intro index k o0 o1 hrest hlen
    have hidx : bg.mGeneticRepresentation.length ≤ index := by
      have := congrArg List.length hrest
      simp at this
      omega
    refine ⟨⟨[], by simp [singlePointLoop], ?_⟩, ⟨[], by simp [singlePointLoop], ?_⟩⟩ <;>
    · intro i h1 h2; omega
  | cons x rest ih =>
    intro index k o0 o1 hrest hlen
    have hrest2 : rest = bg.mGeneticRepresentation.drop (index + 1) := by
      have := congrArg List.tail hrest
      simpa using this
    rw [singlePointLoop]
    by_cases hjunk : (index : Int) ≥ sm.GetAmountOfNodes
    · rw [if_pos hjunk]
      have hge : sm.mGeneticRepresentation.length ≤ index := by
        unfold APath.GetAmountOfNodes at hjunk; omega
      obtain ⟨⟨t0, h0, _⟩, ⟨t1, h1, _⟩⟩ := ih (index + 1) (k + 2)
        (junkStep m (E.RandRangeFloat k 0 100) (E.RandRangeFloat (k + 1) 0 100)
          (bg.GetChromosome index) o0 o1).1
        (junkStep m (E.RandRangeFloat k 0 100) (E.RandRangeFloat (k + 1) 0 100)
          (bg.GetChromosome index) o0 o1).2 hrest2 hlen
      constructor
      · rw [h0]
        unfold junkStep
        simp only []
        split_ifs
        · exact ⟨[bg.GetChromosome index] ++ t0, by simp [APath.AddChromosome],
            fun i h1 h2 => by omega⟩
        · exact ⟨t0, rfl, fun i h1 h2 => by omega⟩
      · rw [h1]
        unfold junkStep
        simp only []
        split_ifs
        · exact ⟨[bg.GetChromosome index] ++ t1, by simp [APath.AddChromosome],
            fun i h1 h2 => by omega⟩
        · exact ⟨t1, rfl, fun i h1 h2 => by omega⟩
    · rw [if_neg hjunk]
      by_cases hp : (index : Int) < p
      · rw [if_pos hp]
        obtain ⟨⟨t0, h0, c0⟩, ⟨t1, h1, c1⟩⟩ := ih (index + 1) k
          (o0.AddChromosome (sm.GetChromosome index))
          (o1.AddChromosome (bg.GetChromosome index)) hrest2 hlen
        constructor
        · refine ⟨sm.GetChromosome index :: t0, by rw [h0]; simp [APath.AddChromosome], ?_⟩
          intro i hi1 hi2
          rcases Nat.eq_or_lt_of_le hi1 with heq | hlt
          · subst heq; simp [hp]
          · have := c0 i (by omega) hi2
            rw [show i - index = (i - (index + 1)) + 1 by omega]
            simpa using this
        · refine ⟨bg.GetChromosome index :: t1, by rw [h1]; simp [APath.AddChromosome], ?_⟩
          intro i hi1 hi2
          rcases Nat.eq_or_lt_of_le hi1 with heq | hlt
          · subst heq; simp [hp]
          · have := c1 i (by omega) hi2
            rw [show i - index = (i - (index + 1)) + 1 by omega]
            simpa using this
      · rw [if_neg hp]
        obtain ⟨⟨t0, h0, c0⟩, ⟨t1, h1, c1⟩⟩ := ih (index + 1) k
          (o0.AddChromosome (bg.GetChromosome index))
          (o1.AddChromosome (sm.GetChromosome index)) hrest2 hlen
        constructor
        · refine ⟨bg.GetChromosome index :: t0, by rw [h0]; simp [APath.AddChromosome], ?_⟩
          intro i hi1 hi2
          rcases Nat.eq_or_lt_of_le hi1 with heq | hlt
          · subst heq; simp [hp]
          · have := c0 i (by omega) hi2
            rw [show i - index = (i - (index + 1)) + 1 by omega]
            simpa using this
        · refine ⟨sm.GetChromosome index :: t1, by rw [h1]; simp [APath.AddChromosome], ?_⟩
          intro i hi1 hi2
          rcases Nat.eq_or_lt_of_le hi1 with heq | hlt
          · subst heq; simp [hp]
          · have := c1 i (by omega) hi2
            rw [show i - index = (i - (index + 1)) + 1 by omega]
            simpa using this

theorem take_eq_crossedStart (t x y : List FVector) (p : Int) (s : Nat)
    (h : ∀ i < s, t[i]? = some (if (i : Int) < p then x.getD i FVector.ZeroVector
      else y.getD i FVector.ZeroVector))
    (hp0 : 0 ≤ p) (hps : p ≤ s) (hx : s ≤ x.length) (hy : s ≤ y.length) :
    t.take s = crossedStart x y p.toNat s := by
  unfold crossedStart
  apply List.ext_getElem?
  intro n
  have hpn : p.toNat ≤ s := by omega
  by_cases hn : n < s
  · rw [List.getElem?_take_of_lt hn, h n hn]
    by_cases hnp : (n : Int) < p
    · rw [if_pos hnp]
      have hn2 : n < p.toNat := by omega
      rw [List.getElem?_append_left (by simp; omega)]
      rw [List.getElem?_take_of_lt hn2]
      rw [List.getD_eq_getElem?_getD, List.getElem?_eq_getElem (by omega)]
      rfl
    · rw [if_neg hnp]
      have hn2 : p.toNat ≤ n := by omega
      rw [List.getElem?_append_right (by simp; omega)]
      rw [List.getElem?_drop]
      have : p.toNat + (n - (List.take p.toNat x).length) = n := by simp; omega
      rw [this, List.getElem?_take_of_lt hn]
      rw [List.getD_eq_getElem?_getD, List.getElem?_eq_getElem (by omega)]
      rfl
  · have hn2 : s ≤ n := by omega
    rw [List.getElem?_eq_none (by simp; omega), List.getElem?_eq_none (by simp; omega)]

theorem orderParents_le (a b : APath) :
    (orderParents a b).1.mGeneticRepresentation.length
      ≤ (orderParents a b).2.mGeneticRepresentation.length := by
  unfold orderParents APath.GetAmountOfNodes
  split_ifs with h
  · simp only []; omega
  · simp only []; omega

/-! ## The offspring of the two crossover operators -/

theorem carriedTail_nil (J : ℚ) (draw : Nat → ℚ) : carriedTail J draw [] = [] := rfl

theorem carriedTail_cons (J : ℚ) (draw : Nat → ℚ) (v : FVector) (rest : List FVector) :
    carriedTail J draw (v :: rest)
      = (if draw 0 < J then [v] else []) ++ carriedTail J (fun j => draw (j + 1)) rest := by
  unfold carriedTail
  rw [List.enum_cons, ← List.map_fst_add_enum_eq_enumFrom rest 1, List.filter_cons,
    List.filter_map]
  by_cases h : draw 0 < J
  · simp [h, Function.comp_def, List.map_map]
  · simp [h, Function.comp_def, List.map_map]

theorem carriedTail_sublist (J : ℚ) (draw : Nat → ℚ) (tail : List FVector) :
    (carriedTail J draw tail).Sublist tail := by
  induction tail generalizing draw with
  | nil => exact List.Sublist.refl _
  | cons v rest ih =>
    rw [carriedTail_cons]
    split_ifs
    · exact (ih _).cons₂ v
    · rw [List.nil_append]; exact (ih _).cons v

theorem withTail_withTail (p : APath) (a b : List FVector) :
    withTail (withTail p a) b = withTail p (a ++ b) := by
  simp [withTail, List.append_assoc]

theorem withTail_nil (p : APath) : withTail p [] = p := by
  simp [withTail]

theorem AddChromosome_eq_withTail (p : APath) (v : FVector) :
    p.AddChromosome v = withTail p [v] := rfl

theorem junkStep_eq_withTail (m : APathManager) (c0 c1 : ℚ) (v : FVector) (o0 o1 : APath) :
    junkStep m c0 c1 v o0 o1
      = (withTail o0 (if c0 < m.JunkDNACrossoverProbability then [v] else []),
         withTail o1 (if c1 < m.JunkDNACrossoverProbability then [v] else [])) := by
  unfold junkStep
  split_ifs <;> simp [AddChromosome_eq_withTail, withTail_nil]

theorem drop_head_GetChromosome (bg : APath) (index : Nat) (v : FVector) (rest : List FVector)
    (h : v :: rest = bg.mGeneticRepresentation.drop index) :
    bg.GetChromosome index = v ∧ rest = bg.mGeneticRepresentation.drop (index + 1) := by
  have hlt : index < bg.mGeneticRepresentation.length := by
    by_contra hge
    rw [List.drop_eq_nil_of_le (by omega)] at h
    exact List.cons_ne_nil _ _ h
  rw [List.drop_eq_getElem_cons hlt] at h
  have h1 := List.cons.inj h
  refine ⟨?_, h1.2⟩
  unfold APath.GetChromosome
  rw [List.getD_eq_getElem?_getD, List.getElem?_eq_getElem hlt, h1.1]
  rfl

theorem singlePointLoop_junk (E : Engine) (m : APathManager) (sm bg : APath) (p : Int) :
    ∀ (rest : List FVector) (index k : Nat) (o0 o1 : APath),
      sm.mGeneticRepresentation.length ≤ index →
      rest = bg.mGeneticRepresentation.drop index →
      singlePointLoop E m sm bg p rest index k o0 o1
        = (withTail o0 (carriedTail m.JunkDNACrossoverProbability
              (fun j => E.RandRangeFloat (k + 2 * j) 0 100) rest),
           withTail o1 (carriedTail m.JunkDNACrossoverProbability
              (fun j => E.RandRangeFloat (k + 2 * j + 1) 0 100) rest),
           k + 2 * rest.length) := by
  intro rest
  induction rest with
  | nil =>
    intro index k o0 o1 _ _
    simp [singlePointLoop, carriedTail_nil, withTail_nil]
  | cons v rest ih =>
    intro index k o0 o1 hs hrest
    obtain ⟨hv, hrest2⟩ := drop_head_GetChromosome bg index v rest hrest
    have hjunk : (index : Int) ≥ sm.GetAmountOfNodes := by
      unfold APath.GetAmountOfNodes; omega
    rw [singlePointLoop, if_pos hjunk, junkStep_eq_withTail, hv]
    simp only []
    rw [ih (index + 1) (k + 2) _ _ (by omega) hrest2, withTail_withTail, withTail_withTail,
      carriedTail_cons, carriedTail_cons]
    have f0 : (fun j => E.RandRangeFloat (k + 2 + 2 * j) 0 100)
        = (fun j => E.RandRangeFloat (k + 2 * (j + 1)) 0 100) := by
      funext j; congr 1; omega
    have f1 : (fun j => E.RandRangeFloat (k + 2 + 2 * j + 1) 0 100)
        = (fun j => E.RandRangeFloat (k + 2 * (j + 1) + 1) 0 100) := by
      funext j; congr 1; omega
    rw [f0, f1]
    simp only [Nat.mul_zero, Nat.add_zero, List.length_cons]
    congr 2
    omega

/-- The waypoint the single-point operator gives offspring-0 at an index below the shorter
length. -/
theorem singlePointLoop_eq (E : Engine) (m : APathManager) (sm bg : APath) (p : Int)
    (hle : sm.mGeneticRepresentation.length ≤ bg.mGeneticRepresentation.length) :
    ∀ (d index k : Nat) (o0 o1 : APath),
      index + d = sm.mGeneticRepresentation.length →
      singlePointLoop E m sm bg p (bg.mGeneticRepresentation.drop index) index k o0 o1
        = (withTail o0 ((List.range d).map (fun e =>
              if ((index + e : Nat) : Int) < p then sm.GetChromosome (index + e)
              else bg.GetChromosome (index + e))
            ++ carriedTail m.JunkDNACrossoverProbability
              (fun j => E.RandRangeFloat (k + 2 * j) 0 100)
              (bg.mGeneticRepresentation.drop sm.mGeneticRepresentation.length)),
           withTail o1 ((List.range d).map (fun e =>
              if ((index + e : Nat) : Int) < p then bg.GetChromosome (index + e)
              else sm.GetChromosome (index + e))
            ++ carriedTail m.JunkDNACrossoverProbability
              (fun j => E.RandRangeFloat (k + 2 * j + 1) 0 100)
              (bg.mGeneticRepresentation.drop sm.mGeneticRepresentation.length)),
           k + 2 * (bg.mGeneticRepresentation.length - sm.mGeneticRepresentation.length)) := by
  intro d
  induction d with
  | zero =>
    intro index k o0 o1 hd
    have hidx : index = sm.mGeneticRepresentation.length := by omega
    subst hidx
    rw [singlePointLoop_junk E m sm bg p _ _ k o0 o1 (le_refl _) rfl]
    simp
  | succ d ih =>
    intro index k o0 o1 hd
    have hlt : index < bg.mGeneticRepresentation.length := by omega
    have hnj : ¬ ((index : Int) ≥ sm.GetAmountOfNodes) := by
      unfold APath.GetAmountOfNodes; omega
    rw [List.drop_eq_getElem_cons hlt, singlePointLoop, if_neg hnj, List.range_succ_eq_map]
    simp only [List.map_cons, List.map_map]
    have hf0 : ((fun e => if ((index + e : Nat) : Int) < p then sm.GetChromosome (index + e)
          else bg.GetChromosome (index + e)) ∘ Nat.succ)
        = (fun e => if ((index + 1 + e : Nat) : Int) < p then sm.GetChromosome (index + 1 + e)
          else bg.GetChromosome (index + 1 + e)) := by
      funext e
      simp only [Function.comp, Nat.succ_eq_add_one]
      rw [show index + (e + 1) = index + 1 + e by omega]
    have hf1 : ((fun e => if ((index + e : Nat) : Int) < p then bg.GetChromosome (index + e)
          else sm.GetChromosome (index + e)) ∘ Nat.succ)
        = (fun e => if ((index + 1 + e : Nat) : Int) < p then bg.GetChromosome (index + 1 + e)
          else sm.GetChromosome (index + 1 + e)) := by
      funext e
      simp only [Function.comp, Nat.succ_eq_add_one]
      rw [show index + (e + 1) = index + 1 + e by omega]
    rw [hf0, hf1]
    by_cases hp : (index : Int) < p
    · rw [if_pos hp, ih (index + 1) k _ _ (by omega), AddChromosome_eq_withTail,
        AddChromosome_eq_withTail, withTail_withTail, withTail_withTail]
      simp [hp]
    · rw [if_neg hp, ih (index + 1) k _ _ (by omega), AddChromosome_eq_withTail,
        AddChromosome_eq_withTail, withTail_withTail, withTail_withTail]
      simp [hp]

theorem uniformLoop_junk (E : Engine) (m : APathManager) (sm bg : APath) :
    ∀ (rest : List FVector) (index k : Nat) (o0 o1 : APath),
      sm.mGeneticRepresentation.length ≤ index →
      uniformLoop E m sm bg rest index k o0 o1
        = (withTail o0 (carriedTail m.JunkDNACrossoverProbability
              (fun j => E.FRandRange (k + 2 * j) 0 100) rest),
           withTail o1 (carriedTail m.JunkDNACrossoverProbability
              (fun j => E.FRandRange (k + 2 * j + 1) 0 100) rest),
           k + 2 * rest.length) := by
  intro rest
  induction rest with
  | nil =>
    intro index k o0 o1 _
    simp [uniformLoop, carriedTail_nil, withTail_nil]
  | cons v rest ih =>
    intro index k o0 o1 hs
    have hjunk : (index : Int) ≥ sm.GetAmountOfNodes := by
      unfold APath.GetAmountOfNodes; omega
    rw [uniformLoop, if_pos hjunk, junkStep_eq_withTail]
    simp only []
    rw [ih (index + 1) (k + 2) _ _ (by omega), withTail_withTail, withTail_withTail,
      carriedTail_cons, carriedTail_cons]
    have f0 : (fun j => E.FRandRange (k + 2 + 2 * j) 0 100)
        = (fun j => E.FRandRange (k + 2 * (j + 1)) 0 100) := by
      funext j; congr 1; omega
    have f1 : (fun j => E.FRandRange (k + 2 + 2 * j + 1) 0 100)
        = (fun j => E.FRandRange (k + 2 * (j + 1) + 1) 0 100) := by
      funext j; congr 1; omega
    rw [f0, f1]
    simp only [Nat.mul_zero, Nat.add_zero, List.length_cons]
    congr 2
    omega

theorem uniformLoop_eq (E : Engine) (m : APathManager) (sm bg : APath)
    (hle : sm.mGeneticRepresentation.length ≤ bg.mGeneticRepresentation.length) :
    ∀ (d index k : Nat) (o0 o1 : APath),
      index + d = sm.mGeneticRepresentation.length →
      uniformLoop E m sm bg (bg.mGeneticRepresentation.drop index) index k o0 o1
        = (withTail o0 ((List.range d).map (fun e =>
              if E.FRandRange (k + e) 0 100 < 50 then sm.GetChromosome (index + e)
              else bg.GetChromosome (index + e))
            ++ carriedTail m.JunkDNACrossoverProbability
              (fun j => E.FRandRange (k + d + 2 * j) 0 100)
              (bg.mGeneticRepresentation.drop sm.mGeneticRepresentation.length)),
           withTail o1 ((List.range d).map (fun e =>
              if E.FRandRange (k + e) 0 100 < 50 then bg.GetChromosome (index + e)
              else sm.GetChromosome (index + e))
            ++ carriedTail m.JunkDNACrossoverProbability
              (fun j => E.FRandRange (k + d + 2 * j + 1) 0 100)
              (bg.mGeneticRepresentation.drop sm.mGeneticRepresentation.length)),
           k + d
            + 2 * (bg.mGeneticRepresentation.length - sm.mGeneticRepresentation.length)) := by
  intro d
  induction d with
  | zero =>
    intro index k o0 o1 hd
    have hidx : index = sm.mGeneticRepresentation.length := by omega
    subst hidx
    rw [uniformLoop_junk E m sm bg _ _ k o0 o1 (le_refl _)]
    simp
  | succ d ih =>
    intro index k o0 o1 hd
    have hlt : index < bg.mGeneticRepresentation.length := by omega
    have hnj : ¬ ((index : Int) ≥ sm.GetAmountOfNodes) := by
      unfold APath.GetAmountOfNodes; omega
    rw [List.drop_eq_getElem_cons hlt, uniformLoop, if_neg hnj, List.range_succ_eq_map]
    simp only [List.map_cons, List.map_map]
    have hf0 : ((fun e => if E.FRandRange (k + e) 0 100 < 50 then sm.GetChromosome (index + e)
          else bg.GetChromosome (index + e)) ∘ Nat.succ)
        = (fun e => if E.FRandRange (k + 1 + e) 0 100 < 50 then sm.GetChromosome (index + 1 + e)
          else bg.GetChromosome (index + 1 + e)) := by
      funext e
      simp only [Function.comp, Nat.succ_eq_add_one]
      rw [show index + (e + 1) = index + 1 + e by omega, show k + (e + 1) = k + 1 + e by omega]
    have hf1 : ((fun e => if E.FRandRange (k + e) 0 100 < 50 then bg.GetChromosome (index + e)
          else sm.GetChromosome (index + e)) ∘ Nat.succ)
        = (fun e => if E.FRandRange (k + 1 + e) 0 100 < 50 then bg.GetChromosome (index + 1 + e)
          else sm.GetChromosome (index + 1 + e)) := by
      funext e
      simp only [Function.comp, Nat.succ_eq_add_one]
      rw [show index + (e + 1) = index + 1 + e by omega, show k + (e + 1) = k + 1 + e by omega]
    have g0 : (fun j => E.FRandRange (k + 1 + d + 2 * j) 0 100)
        = (fun j => E.FRandRange (k + (d + 1) + 2 * j) 0 100) := by
      funext j; congr 1; omega
    have g1 : (fun j => E.FRandRange (k + 1 + d + 2 * j + 1) 0 100)
        = (fun j => E.FRandRange (k + (d + 1) + 2 * j + 1) 0 100) := by
      funext j; congr 1; omega
    rw [hf0, hf1]
    by_cases hp : E.FRandRange k 0 100 < 50
    · rw [if_pos hp, ih (index + 1) (k + 1) _ _ (by omega), AddChromosome_eq_withTail,
        AddChromosome_eq_withTail, withTail_withTail, withTail_withTail, g0, g1]
      simp [hp]
      omega
    · rw [if_neg hp, ih (index + 1) (k + 1) _ _ (by omega), AddChromosome_eq_withTail,
        AddChromosome_eq_withTail, withTail_withTail, withTail_withTail, g0, g1]
      simp [hp]
      omega

theorem uniformCrossover_genomes (E : Engine) (m : APathManager) (sm bg : APath) (k : Nat)
    (hle : sm.mGeneticRepresentation.length ≤ bg.mGeneticRepresentation.length) :
    (uniformCrossover E m sm bg k).1.mGeneticRepresentation
      = (List.range sm.mGeneticRepresentation.length).map (fun e =>
          if E.FRandRange (k + e) 0 100 < 50 then sm.GetChromosome e else bg.GetChromosome e)
        ++ carriedTail m.JunkDNACrossoverProbability
          (fun j => E.FRandRange (k + sm.mGeneticRepresentation.length + 2 * j) 0 100)
          (bg.mGeneticRepresentation.drop sm.mGeneticRepresentation.length) ∧
    (uniformCrossover E m sm bg k).2.1.mGeneticRepresentation
      = (List.range sm.mGeneticRepresentation.length).map (fun e =>
          if E.FRandRange (k + e) 0 100 < 50 then bg.GetChromosome e else sm.GetChromosome e)
        ++ carriedTail m.JunkDNACrossoverProbability
          (fun j => E.FRandRange (k + sm.mGeneticRepresentation.length + 2 * j + 1) 0 100)
          (bg.mGeneticRepresentation.drop sm.mGeneticRepresentation.length) := by
  have h := uniformLoop_eq E m sm bg hle sm.mGeneticRepresentation.length 0 k SpawnActor
    SpawnActor (by omega)
  rw [List.drop_zero] at h
  unfold uniformCrossover APath.DetermineGeneticRepresentation APath.GetGeneticRepresentation
  simp only []
  rw [h]
  simp [withTail, SpawnActor]

theorem singlePointCrossover_genomes (E : Engine) (m : APathManager) (sm bg : APath) (p : Int)
    (k : Nat) (hle : sm.mGeneticRepresentation.length ≤ bg.mGeneticRepresentation.length) :
    (singlePointCrossover E m sm bg p k).1.mGeneticRepresentation
      = (List.range sm.mGeneticRepresentation.length).map (fun e =>
          if ((e : Nat) : Int) < p then sm.GetChromosome e else bg.GetChromosome e)
        ++ carriedTail m.JunkDNACrossoverProbability
          (fun j => E.RandRangeFloat (k + 2 * j) 0 100)
          (bg.mGeneticRepresentation.drop sm.mGeneticRepresentation.length) ∧
    (singlePointCrossover E m sm bg p k).2.1.mGeneticRepresentation
      = (List.range sm.mGeneticRepresentation.length).map (fun e =>
          if ((e : Nat) : Int) < p then bg.GetChromosome e else sm.GetChromosome e)
        ++ carriedTail m.JunkDNACrossoverProbability
          (fun j => E.RandRangeFloat (k + 2 * j + 1) 0 100)
          (bg.mGeneticRepresentation.drop sm.mGeneticRepresentation.length) := by
  have h := singlePointLoop_eq E m sm bg p hle sm.mGeneticRepresentation.length 0 k SpawnActor
    SpawnActor (by omega)
  rw [List.drop_zero] at h
  unfold singlePointCrossover APath.DetermineGeneticRepresentation APath.GetGeneticRepresentation
  simp only []
  rw [h]
  simp [withTail, SpawnActor]

theorem crossoverPair_structure (E : Engine) (m : APathManager) (a b : APath) (k : Nat) :
    ∃ head0 head1 : List FVector,
      head0.length = (orderParents a b).1.mGeneticRepresentation.length ∧
      head1.length = (orderParents a b).1.mGeneticRepresentation.length ∧
      (crossoverPair E m a b k).1.mGeneticRepresentation
        = head0 ++ carriedTail m.JunkDNACrossoverProbability
            (fun j => junkDraw E m (junkStart m a b k + 2 * j))
            ((orderParents a b).2.mGeneticRepresentation.drop
              (orderParents a b).1.mGeneticRepresentation.length) ∧
      (crossoverPair E m a b k).2.1.mGeneticRepresentation
        = head1 ++ carriedTail m.JunkDNACrossoverProbability
            (fun j => junkDraw E m (junkStart m a b k + 2 * j + 1))
            ((orderParents a b).2.mGeneticRepresentation.drop
              (orderParents a b).1.mGeneticRepresentation.length) := by
  have hle := orderParents_le a b
  cases hop : m.CrossoverOperator with
  | SinglePoint =>
    obtain ⟨h0, h1⟩ := singlePointCrossover_genomes E m (orderParents a b).1 (orderParents a b).2
      (E.RandRange k 0 (orderParents a b).1.GetAmountOfNodes) (k + 1) hle
    refine ⟨(List.range (orderParents a b).1.mGeneticRepresentation.length).map (fun e =>
        if ((e : Nat) : Int) < E.RandRange k 0 (orderParents a b).1.GetAmountOfNodes
        then (orderParents a b).1.GetChromosome e else (orderParents a b).2.GetChromosome e),
      (List.range (orderParents a b).1.mGeneticRepresentation.length).map (fun e =>
        if ((e : Nat) : Int) < E.RandRange k 0 (orderParents a b).1.GetAmountOfNodes
        then (orderParents a b).2.GetChromosome e else (orderParents a b).1.GetChromosome e),
      by simp, by simp, ?_, ?_⟩
    · unfold crossoverPair junkDraw junkStart
      simp only [hop]
      exact h0
    · unfold crossoverPair junkDraw junkStart
      simp only [hop]
      exact h1
  | Uniform =>
    obtain ⟨h0, h1⟩ := uniformCrossover_genomes E m (orderParents a b).1 (orderParents a b).2
      k hle
    refine ⟨(List.range (orderParents a b).1.mGeneticRepresentation.length).map (fun e =>
        if E.FRandRange (k + e) 0 100 < 50
        then (orderParents a b).1.GetChromosome e else (orderParents a b).2.GetChromosome e),
      (List.range (orderParents a b).1.mGeneticRepresentation.length).map (fun e =>
        if E.FRandRange (k + e) 0 100 < 50
        then (orderParents a b).2.GetChromosome e else (orderParents a b).1.GetChromosome e),
      by simp, by simp, ?_, ?_⟩
    · unfold crossoverPair junkDraw junkStart
      simp only [hop]
      exact h0
    · unfold crossoverPair junkDraw junkStart
      simp only [hop]
      exact h1

theorem orderParents_cases (a b : APath) :
    (orderParents a b = (a, b) ∧
      a.mGeneticRepresentation.length ≤ b.mGeneticRepresentation.length) ∨
    (orderParents a b = (b, a) ∧
      b.mGeneticRepresentation.length < a.mGeneticRepresentation.length) := by
  unfold orderParents APath.GetAmountOfNodes
  split_ifs with h
  · exact Or.inr ⟨rfl, by omega⟩
  · exact Or.inl ⟨rfl, by omega⟩

/-! ## Lemmas on the flags and on the node-amount blend -/

theorem mem_scoredPaths (E : Engine) (m : APathManager) (q : APath) :
    q ∈ scoredPaths E m ↔
      ∃ q0 ∈ cachedPaths E m, q = q0.SetFitness (final_fitness E m (populationBounds E m) q0) := by
  unfold scoredPaths assignFitness cachedPaths populationBounds
  rw [List.mem_map]
  constructor
  · rintro ⟨q0, h0, rfl⟩; exact ⟨q0, h0, rfl⟩
  · rintro ⟨q0, h0, rfl⟩; exact ⟨q0, h0, rfl⟩


theorem traceStep_reached (E : Engine) (m : APathManager) (i : Nat) (g : List FVector)
    (path : APath) (index : Nat) :
    (traceStep E m i g path index).mHasReachedTarget = path.mHasReachedTarget := by
  unfold traceStep
  simp only []
  split_ifs <;> rfl

theorem traceLoop_reached (E : Engine) (m : APathManager) (i : Nat) (g : List FVector)
    (ks : List Nat) (path : APath) :
    (ks.foldl (fun q k => traceStep E m i g q (k + 1)) path).mHasReachedTarget
      = path.mHasReachedTarget := by
  induction ks generalizing path with
  | nil => rfl
  | cons k ks ih => rw [List.foldl_cons, ih, traceStep_reached]

theorem cachePath_reached (E : Engine) (m : APathManager) (i : Nat) (p : APath) :
    (cachePath E m i p).mHasReachedTarget
      = decide (distance_to_targetting_node E m (cachePath E m i p) < 100) := by
  rw [cachePath_distance]
  unfold cachePath
  simp only []
  split_ifs with h
  · have hd : distance_to_targetting_node E m (p.SnapToTerrain E) < 100 := h
    simp [APath.MarkHasReachedTarget, hd]
  · have hd : ¬ distance_to_targetting_node E m (p.SnapToTerrain E) < 100 := h
    rw [traceLoop_reached]
    have e : (p.SnapToTerrain E).mHasReachedTarget = false := rfl
    rw [e, decide_eq_false hd]

theorem mem_cacheLoop (E : Engine) (m : APathManager) (ps : List APath) :
    ∀ (i : Nat) (c : FitnessBounds) (q : APath), q ∈ (cacheLoop E m i ps c).2 →
      ∃ j, ∃ p ∈ ps, q = cachePath E m j p := by
  induction ps with
  | nil => intro i c q hq; simp [cacheLoop] at hq
  | cons p ps ih =>
    intro i c q hq
    simp only [cacheLoop, List.mem_cons] at hq
    rcases hq with rfl | hq
    · exact ⟨i, p, List.mem_cons_self _ _, rfl⟩
    · obtain ⟨j, p2, hp2, rfl⟩ := ih (i + 1) _ q hq
      exact ⟨j, p2, List.mem_cons_of_mem _ hp2, rfl⟩

theorem mem_EvaluateFitness_iff (E : Engine) (m : APathManager) (q : APath) :
    q ∈ (EvaluateFitness E m).mPaths ↔
      ∃ q0 ∈ cachedPaths E m, q = q0.SetFitness (final_fitness E m (populationBounds E m) q0) :=
  (mem_EvaluateFitness E m q).trans (mem_scoredPaths E m q)

theorem node_blend_at_least (c : FitnessBounds) (q : APath)
    (hne : c.least_amount_of_nodes ≠ c.most_amount_of_nodes)
    (hq : q.GetAmountOfNodes = c.least_amount_of_nodes) :
    node_amount_blend_value c q = 1 := by
  unfold node_amount_blend_value
  have h : c.least_amount_of_nodes - c.most_amount_of_nodes ≠ 0 := by omega
  rw [if_pos h, hq, Int.tdiv_self h, Int.cast_one, f32_one]

theorem node_blend_above_least (c : FitnessBounds) (q : APath)
    (h1 : c.least_amount_of_nodes < q.GetAmountOfNodes)
    (h2 : q.GetAmountOfNodes ≤ c.most_amount_of_nodes) :
    node_amount_blend_value c q = 0 := by
  unfold node_amount_blend_value
  have h : c.least_amount_of_nodes - c.most_amount_of_nodes ≠ 0 := by omega
  rw [if_pos h]
  have e : Int.tdiv (q.GetAmountOfNodes - c.most_amount_of_nodes)
      (c.least_amount_of_nodes - c.most_amount_of_nodes)
      = Int.tdiv (c.most_amount_of_nodes - q.GetAmountOfNodes)
          (c.most_amount_of_nodes - c.least_amount_of_nodes) := by
    rw [← Int.neg_tdiv_neg]
    congr 1 <;> omega
  rw [e, Int.tdiv_eq_zero_of_lt (by omega) (by omega), Int.cast_zero, f32_zero]

theorem rawScore_isFloat (E : Engine) (m : APathManager) (c : FitnessBounds) (q : APath) :
    f32 (rawScore E m c q) = rawScore E m c q := by
  unfold rawScore fadd
  exact f32_idem _

theorem fmul_isFloat (a b : ℚ) : f32 (fmul a b) = fmul a b := f32_idem _

theorem fmul_one_of_isFloat {x : ℚ} (hx : f32 x = x) : fmul x 1 = x := by
  unfold fmul
  rw [mul_one, hx]

theorem final_fitness_unflagged (E : Engine) (m : APathManager) (c : FitnessBounds) (q : APath)
    (h : q.mIsInObstacle = false ∧ q.mSlopeTooIntense = false ∧ q.mTravelingThroughTerrain = false) :
    final_fitness E m c q = rawScore E m c q := by
  rw [final_fitness_eq_rawScore]
  unfold obstacle_multiplier slope_too_intense_multiplier traveling_through_terrain_multiplier
  rw [h.1, h.2.1, h.2.2]
  simp only [Bool.false_eq_true, if_false]
  rw [fmul_one_of_isFloat (rawScore_isFloat E m c q),
    fmul_one_of_isFloat (rawScore_isFloat E m c q),
    fmul_one_of_isFloat (rawScore_isFloat E m c q)]

theorem rawScore_mono_node (E : Engine) (m : APathManager) (c : FitnessBounds) (q1 q2 : APath)
    (hW : 0 ≤ m.AmountOfNodesWeight)
    (h : distance_to_targetting_node E m q1 = distance_to_targetting_node E m q2 ∧
      q1.GetLength E = q2.GetLength E ∧ q1.mCanSeeTarget = q2.mCanSeeTarget ∧
      q1.mHasReachedTarget = q2.mHasReachedTarget)
    (hn : node_amount_blend_value c q1 ≤ node_amount_blend_value c q2) :
    rawScore E m c q1 ≤ rawScore E m c q2 := by
  unfold rawScore proximity_blend_value length_blend_value can_see_target_fitness
    target_reached_fitness
  rw [h.1, h.2.1, h.2.2.1, h.2.2.2]
  have h0 : fmul m.AmountOfNodesWeight (node_amount_blend_value c q1)
      ≤ fmul m.AmountOfNodesWeight (node_amount_blend_value c q2) :=
    f32_mono (mul_le_mul_of_nonneg_left hn hW)
  exact fadd_mono (fadd_mono (fadd_mono (fadd_mono (fadd_mono h0 (le_refl _)) (le_refl _))
    (le_refl _)) (le_refl _)) (le_refl _)

theorem selectionLoop_none (E : Engine) (m : APathManager)
    (hwalk : ∀ n, rouletteWalk (E.FRand n) m.mTotalFitness m.mPaths 0 0 = none) :
    ∀ (fuel k : Nat) (pool : List APath), (pool.length : Int) < m.PopulationCount →
      selectionLoop E m fuel k pool = none := by
  intro fuel
  induction fuel with
  | zero => intro k pool h; simp [selectionLoop, h]
  | succ f ih =>
    intro k pool h
    rw [selectionLoop, if_pos h]
    simp only [hwalk k]
    exact ih (k + 1) pool h

/-! ## Lemmas on the aggregates and on the mutation -/

theorem tdiv_le_one_of_nonpos (a b : Int) (ha : a ≤ 0) (hb : b < 0) (hab : b ≤ a) :
    Int.tdiv a b ≤ 1 := by
  have h : Int.tdiv a b = Int.tdiv (-a) (-b) := by rw [Int.neg_tdiv_neg]
  rw [h, Int.tdiv_eq_ediv (by omega) (by omega)]
  calc -a / -b ≤ -b / -b := Int.ediv_le_ediv (by omega) (by omega)
    _ = 1 := Int.ediv_self (by omega)

theorem node_amount_blend_le_one (E : Engine) (m : APathManager) (c : FitnessBounds) (q : APath)
    (h : Encloses E m c q) : node_amount_blend_value c q ≤ 1 := by
  unfold node_amount_blend_value
  obtain ⟨h1, h2, _⟩ := h
  split_ifs with hne
  · have : Int.tdiv (q.GetAmountOfNodes - c.most_amount_of_nodes)
        (c.least_amount_of_nodes - c.most_amount_of_nodes) ≤ 1 :=
      tdiv_le_one_of_nonpos _ _ (by omega) (by omega) (by omega)
    exact f32_le_one (by exact_mod_cast this)
  · exact zero_le_one

theorem fmul_le_weight {w b : ℚ} (hw : 0 ≤ w) (hf : f32 w = w) (hb : b ≤ 1) : fmul w b ≤ w := by
  unfold fmul
  have := f32_mono (mul_le_of_le_one_right hw hb)
  rwa [hf] at this

theorem rawScore_le_maximum (E : Engine) (m : APathManager) (c : FitnessBounds) (q : APath)
    (h : Encloses E m c q)
    (hw : 0 ≤ m.AmountOfNodesWeight ∧ 0 ≤ m.ProximityToTargetedNodeWeight ∧ 0 ≤ m.LengthWeight ∧
      0 ≤ m.CanSeeTargetWeight ∧ 0 ≤ m.TargetReachedWeight ∧ 0 ≤ m.SlopeWeight)
    (hf : f32 m.AmountOfNodesWeight = m.AmountOfNodesWeight ∧
      f32 m.ProximityToTargetedNodeWeight = m.ProximityToTargetedNodeWeight ∧
      f32 m.LengthWeight = m.LengthWeight) :
    rawScore E m c q ≤ max_fitness m := by
  obtain ⟨w1, w2, w3, w4, w5, w6⟩ := hw
  obtain ⟨f1, f2, f3⟩ := hf
  have b1 := node_amount_blend_le_one E m c q h
  have b2 := (proximity_blend_mem_unit E m c q h).2
  have b3 := (length_blend_mem_unit E m c q h).2
  have s1 : can_see_target_fitness m q ≤ m.CanSeeTargetWeight := by
    unfold can_see_target_fitness; split_ifs <;> simp [w4]
  have s2 : target_reached_fitness m q ≤ m.TargetReachedWeight := by
    unfold target_reached_fitness; split_ifs <;> simp [w5]
  unfold rawScore max_fitness
  exact fadd_mono (fadd_mono (fadd_mono (fadd_mono (fadd_mono (fmul_le_weight w1 f1 b1)
    (fmul_le_weight w2 f2 b2)) (fmul_le_weight w3 f3 b3)) s1) s2) (le_refl _)

theorem fmul_le_self {x b : ℚ} (hx : f32 x = x) (h0 : 0 ≤ x) (hb : b ≤ 1) : fmul x b ≤ x := by
  unfold fmul
  have := f32_mono (mul_le_of_le_one_right h0 hb)
  rwa [hx] at this

theorem final_fitness_le_maximum (E : Engine) (m : APathManager) (c : FitnessBounds) (q : APath)
    (h : Encloses E m c q)
    (hw : 0 ≤ m.AmountOfNodesWeight ∧ 0 ≤ m.ProximityToTargetedNodeWeight ∧ 0 ≤ m.LengthWeight ∧
      0 ≤ m.CanSeeTargetWeight ∧ 0 ≤ m.TargetReachedWeight ∧ 0 ≤ m.SlopeWeight)
    (hm : (0 ≤ m.ObstacleHitMultiplier ∧ m.ObstacleHitMultiplier ≤ 1) ∧
      (0 ≤ m.SlopeTooIntenseMultiplier ∧ m.SlopeTooIntenseMultiplier ≤ 1) ∧
      (0 ≤ m.PiercesTerrainMultiplier ∧ m.PiercesTerrainMultiplier ≤ 1))
    (hf : f32 m.AmountOfNodesWeight = m.AmountOfNodesWeight ∧
      f32 m.ProximityToTargetedNodeWeight = m.ProximityToTargetedNodeWeight ∧
      f32 m.LengthWeight = m.LengthWeight) :
    final_fitness E m c q ≤ max_fitness m := by
  obtain ⟨⟨m1, m1b⟩, ⟨m2, m2b⟩, ⟨m3, m3b⟩⟩ := hm
  have p1 : 0 ≤ obstacle_multiplier m q ∧ obstacle_multiplier m q ≤ 1 := by
    unfold obstacle_multiplier; split_ifs <;> simp [m1, m1b]
  have p2 : 0 ≤ slope_too_intense_multiplier m q ∧ slope_too_intense_multiplier m q ≤ 1 := by
    unfold slope_too_intense_multiplier; split_ifs <;> simp [m2, m2b]
  have p3 : 0 ≤ traveling_through_terrain_multiplier m q ∧
      traveling_through_terrain_multiplier m q ≤ 1 := by
    unfold traveling_through_terrain_multiplier; split_ifs <;> simp [m3, m3b]
  have raw0 := rawScore_nonneg E m c q h hw
  have raw1 := rawScore_le_maximum E m c q h hw hf
  have t1 := fmul_le_self (rawScore_isFloat E m c q) raw0 p1.2
  have n1 := fmul_nonneg raw0 p1.1
  have t2 := fmul_le_self (fmul_isFloat (rawScore E m c q) (obstacle_multiplier m q)) n1 p2.2
  have n2 := fmul_nonneg n1 p2.1
  have t3 := fmul_le_self (fmul_isFloat _ (slope_too_intense_multiplier m q)) n2 p3.2
  rw [final_fitness_eq_rawScore]
  linarith

theorem foldl_fadd_nonneg (l : List APath) (h : ∀ q ∈ l, 0 ≤ q.mFitness) :
    ∀ acc : ℚ, 0 ≤ acc → 0 ≤ l.foldl (fun a path => fadd a path.mFitness) acc := by
  induction l with
  | nil => intro acc h0; exact h0
  | cons p l ih =>
    intro acc h0
    rw [List.foldl_cons]
    exact ih (fun q hq => h q (List.mem_cons_of_mem _ hq)) _
      (fadd_nonneg h0 (h p (List.mem_cons_self _ _)))

theorem foldl_fadd_le (l : List APath) (M : ℚ) (h : ∀ q ∈ l, q.mFitness ≤ M) :
    ∀ acc acc2 : ℚ, acc ≤ acc2 →
      l.foldl (fun a path => fadd a path.mFitness) acc
        ≤ (List.replicate l.length M).foldl fadd acc2 := by
  induction l with
  | nil => intro acc acc2 h0; exact h0
  | cons p l ih =>
    intro acc acc2 h0
    rw [List.foldl_cons, List.length_cons, List.replicate_succ, List.foldl_cons]
    exact ih (fun q hq => h q (List.mem_cons_of_mem _ hq)) _ _
      (fadd_mono h0 (h p (List.mem_cons_self _ _)))

theorem EvaluateFitness_total (E : Engine) (m : APathManager) :
    (EvaluateFitness E m).mTotalFitness
      = (scoredPaths E m).foldl (fun a path => fadd a path.mFitness) 0 := rfl

theorem EvaluateFitness_average (E : Engine) (m : APathManager) :
    (EvaluateFitness E m).mGenerationInfo.mAverageFitness
      = fdiv (EvaluateFitness E m).mTotalFitness (f32 ((EvaluateFitness E m).mPaths.length : ℚ)) := by
  have h : (EvaluateFitness E m).mGenerationInfo.mAverageFitness
      = fdiv (EvaluateFitness E m).mTotalFitness (f32 ((scoredPaths E m).length : ℚ)) := rfl
  rw [h, (EvaluateFitness_perm E m).length_eq]

theorem mutatePath_aggregate (E : Engine) (m : APathManager) (h : m.AggregateSelectOne = true)
    (path : APath) (k : Nat) (counts : MutationCounts) :
    mutatePath E m path k counts = (path, k + 1, counts) := by
  have hc : chooseMutations E m (k + 1)
      = { do_translation_mutation := false, do_insertion_mutation := false,
          do_deletion_mutation := false, nextCall := k + 1 } := by
    unfold chooseMutations
    rw [if_pos h]
  unfold mutatePath
  rw [hc]
  simp only [Bool.false_eq_true, if_false]
  split_ifs <;> rfl

theorem mutationLoop_aggregate (E : Engine) (m : APathManager) (h : m.AggregateSelectOne = true)
    (paths : List APath) :
    ∀ (k : Nat) (counts : MutationCounts),
      mutationLoop E m paths k counts = (paths, k + paths.length, counts) := by
  induction paths with
  | nil => intro k counts; rfl
  | cons p ps ih =>
    intro k counts
    rw [mutationLoop, mutatePath_aggregate E m h]
    simp only []
    rw [ih]
    simp only [List.length_cons]
    congr 2
    omega

/-! ## Theorems -/

/-- C1: after `EvaluateFitness` the population is ordered descending by fitness (every
individual's fitness is at least that of every later one), it has as many individuals as
before, it is a permutation of the scored population, and its genomes are a permutation of
the (terrain-snapped) genomes it was given. -/
theorem C1_sorted_descending_permutation (E : Engine) (m : APathManager) :
    (EvaluateFitness E m).mPaths.Pairwise (fun x y => x.mFitness ≥ y.mFitness) ∧
    List.Perm (EvaluateFitness E m).mPaths (scoredPaths E m) ∧
    (EvaluateFitness E m).mPaths.length = m.mPaths.length ∧
    List.Perm ((EvaluateFitness E m).mPaths.map APath.mGeneticRepresentation)
      (m.mPaths.map (fun p => E.SnapToTerrain p.mGeneticRepresentation)) := by
  have hperm := EvaluateFitness_perm E m
  have hgen : (scoredPaths E m).map APath.mGeneticRepresentation
      = m.mPaths.map (fun p => E.SnapToTerrain p.mGeneticRepresentation) := by
    unfold scoredPaths
    rw [assignFitness_genomes, cacheLoop_genomes]
  refine ⟨?_, hperm, EvaluateFitness_length E m, ?_⟩
  · rw [EvaluateFitness_mPaths]
    exact TArraySort_descending _
  · rw [← hgen]
    exact hperm.map _

theorem rawScore_SetFitness (E : Engine) (m : APathManager) (c : FitnessBounds)
    (q : APath) (f : ℚ) : rawScore E m c (q.SetFitness f) = rawScore E m c q :=
  rfl

theorem timesPenalties_SetFitness (m : APathManager) (q : APath) (f raw : ℚ) :
    timesPenalties m (q.SetFitness f) raw = timesPenalties m q raw :=
  rfl

theorem final_fitness_eq (E : Engine) (m : APathManager) (c : FitnessBounds) (q : APath) :
    final_fitness E m c q = timesPenalties m q (rawScore E m c q) := by
  rw [final_fitness_eq_rawScore]
  have hr := rawScore_isFloat E m c q
  unfold timesPenalties setPenalties obstacle_multiplier slope_too_intense_multiplier
    traveling_through_terrain_multiplier
  cases q.mIsInObstacle <;> cases q.mSlopeTooIntense <;> cases q.mTravelingThroughTerrain <;>
    simp only [Bool.false_eq_true, if_false, if_true, List.filter, List.map, List.foldl,
      fmul_one_of_isFloat hr, fmul_one_of_isFloat (fmul_isFloat _ _)]

/-- C2: the fitness `EvaluateFitness` leaves on every individual is its raw score (the
float sum the code computes) multiplied by the penalty multipliers of exactly the flags that
are set, one float multiplication for each in the order obstacle, slope, terrain; with all
three flags set it is raw * ObstacleHitMultiplier * SlopeTooIntenseMultiplier *
PiercesTerrainMultiplier, with none set it is the raw score itself. -/
theorem C2_fitness_is_raw_times_penalties (E : Engine) (m : APathManager) :
    ∀ q ∈ (EvaluateFitness E m).mPaths,
      q.mFitness = timesPenalties m q (rawScore E m (populationBounds E m) q) ∧
      (q.mIsInObstacle = true ∧ q.mSlopeTooIntense = true ∧ q.mTravelingThroughTerrain = true →
        q.mFitness = fmul (fmul (fmul (rawScore E m (populationBounds E m) q)
          m.ObstacleHitMultiplier) m.SlopeTooIntenseMultiplier) m.PiercesTerrainMultiplier) ∧
      (q.mIsInObstacle = false ∧ q.mSlopeTooIntense = false ∧ q.mTravelingThroughTerrain = false →
        q.mFitness = rawScore E m (populationBounds E m) q) := by
  intro q hq
  obtain ⟨q0, _, rfl⟩ := (mem_scoredPaths E m q).mp ((mem_EvaluateFitness E m q).mp hq)
  have key : (q0.SetFitness (final_fitness E m (populationBounds E m) q0)).mFitness
      = timesPenalties m (q0.SetFitness (final_fitness E m (populationBounds E m) q0))
          (rawScore E m (populationBounds E m)
            (q0.SetFitness (final_fitness E m (populationBounds E m) q0))) := by
    rw [rawScore_SetFitness, timesPenalties_SetFitness, ← final_fitness_eq]
    rfl
  refine ⟨key, ?_, ?_⟩
  · rintro ⟨h1, h2, h3⟩
    rw [key]
    simp [timesPenalties, setPenalties, h1, h2, h3]
  · rintro ⟨h1, h2, h3⟩
    rw [key]
    simp [timesPenalties, setPenalties, h1, h2, h3]

/-- C3: when the six weights are non-negative and the three penalty multipliers lie in
[0,1], every individual of the population has a non-negative fitness after
`EvaluateFitness`. -/
theorem C3_fitness_nonneg (E : Engine) (m : APathManager)
    (hw : 0 ≤ m.AmountOfNodesWeight ∧ 0 ≤ m.ProximityToTargetedNodeWeight ∧ 0 ≤ m.LengthWeight ∧
      0 ≤ m.CanSeeTargetWeight ∧ 0 ≤ m.TargetReachedWeight ∧ 0 ≤ m.SlopeWeight)
    (hm : (0 ≤ m.ObstacleHitMultiplier ∧ m.ObstacleHitMultiplier ≤ 1) ∧
      (0 ≤ m.SlopeTooIntenseMultiplier ∧ m.SlopeTooIntenseMultiplier ≤ 1) ∧
      (0 ≤ m.PiercesTerrainMultiplier ∧ m.PiercesTerrainMultiplier ≤ 1))
    (hne : m.mPaths ≠ []) :
    (EvaluateFitness E m).mPaths ≠ [] ∧ ∀ q ∈ (EvaluateFitness E m).mPaths, 0 ≤ q.mFitness := by
  constructor
  · intro h
    have hl := EvaluateFitness_length E m
    rw [h] at hl
    exact hne (List.length_eq_zero.mp hl.symm)
  · intro q hq
    obtain ⟨q0, h0, rfl⟩ := (mem_scoredPaths E m q).mp ((mem_EvaluateFitness E m q).mp hq)
    exact final_fitness_nonneg E m _ q0 (cachedPaths_encloses E m q0 h0) hw
      ⟨hm.1.1, hm.2.1.1, hm.2.2.1⟩

/-- C4 (as the code behaves): in a population whose node counts range from 3 to 7, the
individual with 5 nodes gets the node-amount blend 0, not the ratio 1/2: the quotient
(5 - 7) / (3 - 7) is an integer division. -/
theorem C4_node_blend_five_of_three_to_seven :
    (populationBounds exampleEngine nodesThreeFiveSeven).least_amount_of_nodes = 3 ∧
    (populationBounds exampleEngine nodesThreeFiveSeven).most_amount_of_nodes = 7 ∧
    (cachedPaths exampleEngine nodesThreeFiveSeven).map APath.GetAmountOfNodes = [3, 5, 7] ∧
    (cachedPaths exampleEngine nodesThreeFiveSeven).map
      (node_amount_blend_value (populationBounds exampleEngine nodesThreeFiveSeven)) = [1, 0, 0] ∧
    ((5 : ℚ) - 7) / (3 - 7) = 1 / 2 := by
  refine ⟨by decide!, by decide!, by decide!, by decide!, by norm_num⟩

/-- C5: in a non-empty population (norms non-negative, no measurement above the largest
float) the cached bounds are the population minimum and maximum of the final-waypoint
distance and of the path length, and for every individual the proximity blend and the
length blend lie in [0,1]; when the spread max - min of a criterion, a float difference,
exceeds the float 0.1f, the blend is the float quotient (x - max) / (min - max) of the two
float differences, it is 1 for an individual at the minimum, 0 for one at the maximum, and
an individual with a smaller value never has a smaller blend; when the spread does not
exceed 0.1f the blend is 0. -/
theorem C5_proximity_and_length_blends (E : Engine) (m : APathManager)
    (hsize : ∀ v, 0 ≤ E.Size v)
    (hfin : ∀ q ∈ cachedPaths E m,
      distance_to_targetting_node E m q ≤ FLT_MAX ∧ q.GetLength E ≤ FLT_MAX)
    (hne : m.mPaths ≠ []) :
    ((∃ q ∈ cachedPaths E m,
        distance_to_targetting_node E m q = (populationBounds E m).closest_distance) ∧
      (∃ q ∈ cachedPaths E m,
        distance_to_targetting_node E m q = (populationBounds E m).furthest_distance) ∧
      (∃ q ∈ cachedPaths E m, q.GetLength E = (populationBounds E m).shortest_path_length) ∧
      (∃ q ∈ cachedPaths E m, q.GetLength E = (populationBounds E m).longest_path_length)) ∧
    ∀ q ∈ cachedPaths E m,
      ((populationBounds E m).closest_distance ≤ distance_to_targetting_node E m q ∧
        distance_to_targetting_node E m q ≤ (populationBounds E m).furthest_distance ∧
        (populationBounds E m).shortest_path_length ≤ q.GetLength E ∧
        q.GetLength E ≤ (populationBounds E m).longest_path_length) ∧
      (0 ≤ proximity_blend_value E m (populationBounds E m) q ∧
        proximity_blend_value E m (populationBounds E m) q ≤ 1) ∧
      (0 ≤ length_blend_value E (populationBounds E m) q ∧
        length_blend_value E (populationBounds E m) q ≤ 1) ∧
      (fsub (populationBounds E m).furthest_distance (populationBounds E m).closest_distance
          > f32 (1 / 10) →
        proximity_blend_value E m (populationBounds E m) q
          = fdiv (fsub (distance_to_targetting_node E m q)
                (populationBounds E m).furthest_distance)
              (fsub (populationBounds E m).closest_distance
                (populationBounds E m).furthest_distance) ∧
        (distance_to_targetting_node E m q = (populationBounds E m).closest_distance →
          proximity_blend_value E m (populationBounds E m) q = 1) ∧
        (distance_to_targetting_node E m q = (populationBounds E m).furthest_distance →
          proximity_blend_value E m (populationBounds E m) q = 0) ∧
        ∀ q2 ∈ cachedPaths E m,
          distance_to_targetting_node E m q ≤ distance_to_targetting_node E m q2 →
          proximity_blend_value E m (populationBounds E m) q2
            ≤ proximity_blend_value E m (populationBounds E m) q) ∧
      (fsub (populationBounds E m).longest_path_length (populationBounds E m).shortest_path_length
          > f32 (1 / 10) →
        length_blend_value E (populationBounds E m) q
          = fdiv (fsub (q.GetLength E) (populationBounds E m).longest_path_length)
              (fsub (populationBounds E m).shortest_path_length
                (populationBounds E m).longest_path_length) ∧
        (q.GetLength E = (populationBounds E m).shortest_path_length →
          length_blend_value E (populationBounds E m) q = 1) ∧
        (q.GetLength E = (populationBounds E m).longest_path_length →
          length_blend_value E (populationBounds E m) q = 0) ∧
        ∀ q2 ∈ cachedPaths E m, q.GetLength E ≤ q2.GetLength E →
          length_blend_value E (populationBounds E m) q2
            ≤ length_blend_value E (populationBounds E m) q) ∧
      (¬ fsub (populationBounds E m).furthest_distance (populationBounds E m).closest_distance
          > f32 (1 / 10) →
        proximity_blend_value E m (populationBounds E m) q = 0) ∧
      (¬ fsub (populationBounds E m).longest_path_length
          (populationBounds E m).shortest_path_length > f32 (1 / 10) →
        length_blend_value E (populationBounds E m) q = 0) := by
  obtain ⟨t1, t2, t3, t4⟩ := populationBounds_attained E m hsize hne
  refine ⟨⟨t3 (fun q hq => (hfin q hq).1), t1, t4 (fun q hq => (hfin q hq).2), t2⟩, ?_⟩
  intro q hq
  have henc := cachedPaths_encloses E m q hq
  obtain ⟨_, _, e3, e4, e5, e6⟩ := id henc
  refine ⟨⟨e3, e4, e5, e6⟩, proximity_blend_mem_unit E m _ q henc,
    length_blend_mem_unit E m _ q henc, ?_, ?_, ?_, ?_⟩
  rotate_left 2
  · intro hsmall
    unfold proximity_blend_value
    rw [if_neg (fun hg => hsmall ((guard_iff_spread _ _ (le_trans e3 e4)).mp hg))]
  · intro hsmall
    unfold length_blend_value
    rw [if_neg (fun hg => hsmall ((guard_iff_spread _ _ (le_trans e5 e6)).mp hg))]
  · intro hspread
    have hg := (blend_spread _ (distance_to_targetting_node E m q) _ 0 hspread).1
    have hval : ∀ q2, proximity_blend_value E m (populationBounds E m) q2
        = fdiv (fsub (distance_to_targetting_node E m q2)
              (populationBounds E m).furthest_distance)
            (fsub (populationBounds E m).closest_distance
              (populationBounds E m).furthest_distance) := by
      intro q2; unfold proximity_blend_value; rw [if_pos hg]
    refine ⟨hval q, ?_, ?_, ?_⟩
    · rw [hval q]; exact (blend_spread _ _ _ 0 hspread).2.1
    · rw [hval q]; exact (blend_spread _ _ _ 0 hspread).2.2.1
    · intro q2 _ hle
      rw [hval q, hval q2]
      exact (blend_spread _ _ _ _ hspread).2.2.2 hle
  · intro hspread
    have hg := (blend_spread _ (q.GetLength E) _ 0 hspread).1
    have hval : ∀ q2 : APath, length_blend_value E (populationBounds E m) q2
        = fdiv (fsub (q2.GetLength E) (populationBounds E m).longest_path_length)
            (fsub (populationBounds E m).shortest_path_length
              (populationBounds E m).longest_path_length) := by
      intro q2; unfold length_blend_value; rw [if_pos hg]
    refine ⟨hval q, ?_, ?_, ?_⟩
    · rw [hval q]; exact (blend_spread _ _ _ 0 hspread).2.1
    · rw [hval q]; exact (blend_spread _ _ _ 0 hspread).2.2.1
    · intro q2 _ hle
      rw [hval q, hval q2]
      exact (blend_spread _ _ _ _ hspread).2.2.2 hle

/-- C6: in a population in which all individuals have the same value of a criterion (its
minimum equals its maximum), the blend of that criterion is 0 for every individual; and for
every population the three blend computations evaluate no division by a zero divisor: the
checked computations return the very values `EvaluateFitness` uses. -/
theorem C6_degenerate_blends_are_zero (E : Engine) (m : APathManager)
    (hsize : ∀ v, 0 ≤ E.Size v) :
    ∀ q ∈ cachedPaths E m,
      ((∀ q2 ∈ cachedPaths E m, q2.GetAmountOfNodes = q.GetAmountOfNodes) →
        node_amount_blend_value (populationBounds E m) q = 0) ∧
      ((∀ q2 ∈ cachedPaths E m,
          distance_to_targetting_node E m q2 = distance_to_targetting_node E m q) →
        proximity_blend_value E m (populationBounds E m) q = 0) ∧
      ((∀ q2 ∈ cachedPaths E m, q2.GetLength E = q.GetLength E) →
        length_blend_value E (populationBounds E m) q = 0) ∧
      node_amount_blend_checked (populationBounds E m) q
        = some (node_amount_blend_value (populationBounds E m) q) ∧
      proximity_blend_checked E m (populationBounds E m) q
        = some (proximity_blend_value E m (populationBounds E m) q) ∧
      length_blend_checked E (populationBounds E m) q
        = some (length_blend_value E (populationBounds E m) q) := by
  intro q hq
  obtain ⟨_, e2, _, e4, _, e6⟩ := cachedPaths_encloses E m q hq
  obtain ⟨_, a2, _, a4, _, a6⟩ := cachedPaths_attained E m
  obtain ⟨c1, c2, c3⟩ := checked_blends_total E m (populationBounds E m) q
  refine ⟨?_, ?_, ?_, c1, c2, c3⟩
  · intro hall
    have hmost : q.GetAmountOfNodes = (populationBounds E m).most_amount_of_nodes := by
      rcases a2 with h | ⟨q2, h2, hv⟩
      · have h0 : (0 : Int) ≤ q.GetAmountOfNodes := Int.ofNat_nonneg _
        have h1 : (populationBounds E m).most_amount_of_nodes = 0 := h
        omega
      · rw [← hv]; exact (hall q2 h2).symm
    unfold node_amount_blend_value
    split_ifs
    · rw [hmost, sub_self, Int.zero_tdiv, Int.cast_zero, f32_zero]
    · rfl
  · intro hall
    have hmost : distance_to_targetting_node E m q = (populationBounds E m).furthest_distance := by
      rcases a4 with h | ⟨q2, h2, hv⟩
      · have h1 : (populationBounds E m).furthest_distance = 0 := h
        exact le_antisymm e4 (by rw [h1]; exact hsize _)
      · rw [← hv]; exact (hall q2 h2).symm
    unfold proximity_blend_value
    split_ifs
    · rw [hmost, fsub_self, fdiv_zero_left]
    · rfl
  · intro hall
    have hmost : q.GetLength E = (populationBounds E m).longest_path_length := by
      rcases a6 with h | ⟨q2, h2, hv⟩
      · have h1 : (populationBounds E m).longest_path_length = 0 := h
        exact le_antisymm e6 (by rw [h1]; exact GetLength_nonneg E hsize q)
      · rw [← hv]; exact (hall q2 h2).symm
    unfold length_blend_value
    split_ifs
    · rw [hmost, fsub_self, fdiv_zero_left]
    · rfl

/-- C7 (counterexample): the fitness values 5, 12, 5 and 9 are non-negative and their sum 31
is the total; the shares, float quotients added up in floats, reach 1 - 2^-23 only.  The
draw 1 - 2^-24 of [0,1) is above every running sum: the walk selects nobody, and
`SelectionStep` with `PopulationCount` 1 does not return after one draw; it returns after
two draws, with the individual the second draw selected. -/
theorem C7_draw_above_the_rounded_shares :
    (∀ p ∈ fourShares.mPaths, 0 ≤ p.mFitness) ∧
    fourShares.mTotalFitness = (fourShares.mPaths.map APath.mFitness).sum ∧
    0 < fourShares.mTotalFitness ∧
    (∀ n, 0 ≤ lateDrawEngine.FRand n ∧ lateDrawEngine.FRand n < 1) ∧
    fourShares.PopulationCount = 1 ∧
    runningShare fourShares.mPaths fourShares.mTotalFitness 4 = 1 - 1 / 2 ^ 23 ∧
    lateDrawEngine.FRand 0 = 1 - 1 / 2 ^ 24 ∧
    rouletteWalk (lateDrawEngine.FRand 0) fourShares.mTotalFitness fourShares.mPaths 0 0 = none ∧
    (SelectionStep lateDrawEngine 1 0 fourShares).isNone = true ∧
    (SelectionStep lateDrawEngine 2 0 fourShares).map (fun r => (r.1.mMatingPaths, r.2))
      = some ([pathWithFitness 5], 2) := by
  refine ⟨by decide!, by decide!, by decide!, ?_, by decide!, by decide!, by decide!,
    by decide!, by decide!, by decide!⟩
  intro n
  show 0 ≤ (if n = 0 then (16777215 / 16777216 : ℚ) else 0)
    ∧ (if n = 0 then (16777215 / 16777216 : ℚ) else 0) < 1
  split_ifs <;> norm_num

/-- C7 (amended): for a non-empty population with a positive total fitness and a
non-negative `PopulationCount`, with the running sums of the shares taken as the code
computes them (float quotients added in floats).  If no draw exceeds the last running sum, `SelectionStep` returns (with any fuel
of at least `PopulationCount` iterations) after exactly `PopulationCount` draws, the
population is untouched, the mating pool has exactly `PopulationCount` entries and its j-th
entry is the individual at the first position at which the running sum reaches or exceeds
the j-th draw.  Whatever the draws, when `SelectionStep` returns the pool has exactly
`PopulationCount` entries, each one a member of the population, and at least
`PopulationCount` draws were consumed.  A walk selects nobody, and the loop draws again,
exactly when the draw exceeds every running sum. -/
theorem C7_selection_fills_the_mating_pool (E : Engine) (m : APathManager) (fuel k : Nat)
    (hne : m.mPaths ≠ [])
    (_hpos : 0 < m.mTotalFitness)
    (hcount : 0 ≤ m.PopulationCount) :
    ((∀ n, E.FRand n ≤ runningShare m.mPaths m.mTotalFitness m.mPaths.length) →
      m.PopulationCount.toNat ≤ fuel →
      ∃ m2, SelectionStep E fuel k m = some (m2, k + m.PopulationCount.toNat) ∧
        m2.mPaths = m.mPaths ∧
        (m2.mMatingPaths.length : Int) = m.PopulationCount ∧
        ∀ j < m.PopulationCount.toNat, ∃ i p,
          m.mPaths[i]? = some p ∧ m2.mMatingPaths[j]? = some p ∧
          E.FRand (k + j) ≤ runningShare m.mPaths m.mTotalFitness (i + 1) ∧
          ∀ i2 < i, runningShare m.mPaths m.mTotalFitness (i2 + 1) < E.FRand (k + j)) ∧
    (∀ m2 k2, SelectionStep E fuel k m = some (m2, k2) →
      m2.mPaths = m.mPaths ∧
      (m2.mMatingPaths.length : Int) = m.PopulationCount ∧
      (∀ p ∈ m2.mMatingPaths, p ∈ m.mPaths) ∧
      k + m.PopulationCount.toNat ≤ k2) ∧
    (∀ R, rouletteWalk R m.mTotalFitness m.mPaths 0 0 = none ↔
      ∀ i < m.mPaths.length, runningShare m.mPaths m.mTotalFitness (i + 1) < R) := by
  refine ⟨?_, ?_, ?_⟩
  · intro hR hfuel
    have hwalk : ∀ n, ∃ r, rouletteWalk (E.FRand n) m.mTotalFitness m.mPaths 0 0 = some r :=
      fun n => rouletteWalk_total _ _ _ hne (hR n)
    obtain ⟨picks, hlen, hsel, hall⟩ :=
      selectionLoop_spec E m hwalk m.PopulationCount.toNat fuel k []
        (by simp [Int.toNat_of_nonneg hcount]) hfuel
    refine ⟨{ m with mMatingPaths := [] ++ picks }, ?_, rfl, ?_, ?_⟩
    · unfold SelectionStep
      rw [hsel]; rfl
    · simp [hlen, Int.toNat_of_nonneg hcount]
    · intro j hj
      obtain ⟨r, hr, hp⟩ := hall j hj
      have hr2 : rouletteWalk (E.FRand (k + j)) m.mTotalFitness m.mPaths 0 0 = some (r.1, r.2) :=
        hr
      obtain ⟨i, _, hi, hle, hlt⟩ := (rouletteWalk_eq_some_iff _ _ _ 0 0 r.1 r.2).mp hr2
      exact ⟨i, r.2, hi, by simpa using hp, hle, hlt⟩
  · intro m2 k2 h
    unfold SelectionStep at h
    cases hs : selectionLoop E m fuel k [] with
    | none => rw [hs] at h; exact Option.noConfusion h
    | some r =>
      rw [hs] at h
      have e : ({ m with mMatingPaths := r.1 }, r.2) = (m2, k2) := Option.some.inj h
      have e1 : m2 = { m with mMatingPaths := r.1 } := (congrArg Prod.fst e).symm
      have e2 : k2 = r.2 := (congrArg Prod.snd e).symm
      obtain ⟨⟨picks, hp, hmem, hk⟩, hlen⟩ := selectionLoop_sound E m fuel k [] r.1 r.2 hs
      have hl := hlen (by simpa using hcount)
      have hp2 : r.1 = picks := by simpa using hp
      subst e1 e2
      refine ⟨rfl, hl, ?_, ?_⟩
      · intro p hpm
        have : p ∈ r.1 := hpm
        rw [hp2] at this
        exact hmem p this
      · have h3 : ((picks.length : Nat) : Int) = m.PopulationCount := by rw [← hp2]; exact hl
        omega
  · intro R
    exact rouletteWalk_none_iff R m.mTotalFitness m.mPaths 0 0

/-- C8 (counterexample): in the population with the fitness values 5, 12, 5 and 9 (total 31)
the individual of fitness 9 is picked at the draw `1 - 2^-23`, the last running sum, and at
no larger draw: the draw `1 - 2^-24` of [0,1) picks nobody.  The running sums before and
after it differ by 1217701 / 4194304, not by its share 9 / 31, and the individual before it
is picked at the draw equal to the running sum before it. -/
theorem C8_interval_lengths_are_rounded :
    (∀ p ∈ fourShares.mPaths, 0 ≤ p.mFitness) ∧
    (31 : ℚ) = (fourShares.mPaths.map APath.mFitness).sum ∧
    fourShares.mPaths[3]? = some (pathWithFitness 9) ∧
    runningShare fourShares.mPaths 31 4 = 1 - 1 / 2 ^ 23 ∧
    runningShare fourShares.mPaths 31 4 - runningShare fourShares.mPaths 31 3
      = 1217701 / 4194304 ∧
    (1217701 / 4194304 : ℚ) ≠ 9 / 31 ∧
    (rouletteWalk (runningShare fourShares.mPaths 31 3) 31 fourShares.mPaths 0 0).map Prod.fst
      = some 2 ∧
    (rouletteWalk (runningShare fourShares.mPaths 31 4) 31 fourShares.mPaths 0 0).map Prod.fst
      = some 3 ∧
    ((0 : ℚ) ≤ 1 - 1 / 2 ^ 24 ∧ (1 - 1 / 2 ^ 24 : ℚ) < 1) ∧
    rouletteWalk (1 - 1 / 2 ^ 24) 31 fourShares.mPaths 0 0 = none := by
  refine ⟨by decide!, by decide!, by decide!, by decide!, by decide!, by norm_num, by decide!,
    by decide!, by norm_num, by decide!⟩

/-- C8 (amended): with non-negative fitness values and a positive total, the draws R ≥ 0 on
which one walk of the roulette wheel stops at position k are exactly those of the interval
from the running sum before k (excluded; included for k = 0, where it is 0) to the running
sum after k (included), the running sums being those the code computes: the sum after k is
the float sum of the sum before k and the float quotient fitness(k) / totalFitness, so the
length of the interval is the share up to rounding.  The running sums are non-negative and
do not decrease; an individual of zero fitness is picked on no draw but R = 0; a draw above
the last running sum picks nobody. -/
theorem C8_selection_is_fitness_proportionate (paths : List APath) (T : ℚ)
    (hnonneg : ∀ p ∈ paths, 0 ≤ p.mFitness) (hpos : 0 < T)
    (k : Nat) (p : APath) (hk : paths[k]? = some p) :
    (0 ≤ runningShare paths T k ∧ runningShare paths T k ≤ runningShare paths T (k + 1)) ∧
    runningShare paths T (k + 1) = fadd (runningShare paths T k) (fdiv p.mFitness T) ∧
    (∀ R, 0 ≤ R →
      ((rouletteWalk R T paths 0 0).map Prod.fst = some k ↔
        R ∈ (if k = 0 then Set.Icc 0 (runningShare paths T 1)
          else Set.Ioc (runningShare paths T k) (runningShare paths T (k + 1))))) ∧
    (p.mFitness = 0 → ∀ R, 0 ≤ R →
      (rouletteWalk R T paths 0 0).map Prod.fst = some k → R = 0) ∧
    (∀ R, runningShare paths T paths.length < R → rouletteWalk R T paths 0 0 = none) := by
  have hmono := runningShare_mono paths T hnonneg hpos
  have h0 : 0 ≤ runningShare paths T k := by
    have := hmono (Nat.zero_le k)
    rwa [runningShare_zero] at this
  have hstep := runningShare_succ paths T k p hk
  have hiff := fun R => rouletteWalk_index_iff R T paths hnonneg hpos k p hk
  refine ⟨⟨h0, hmono (Nat.le_succ k)⟩, hstep, ?_, ?_,
    fun R hR => rouletteWalk_none_of_gt R T paths hnonneg hpos hR⟩
  · intro R hR0
    rw [hiff R]
    by_cases hk0 : k = 0
    · subst hk0
      simp [Set.mem_Icc, hR0]
    · simp only [hk0, if_false, Set.mem_Ioc, false_or]
      exact And.comm
  · intro hz R hR0 hpick
    obtain ⟨hle, hlt⟩ := (hiff R).mp hpick
    have hsame : runningShare paths T (k + 1) = runningShare paths T k := by
      rw [hstep, hz]
      unfold fdiv fadd
      rw [zero_div, f32_zero, add_zero, runningShare_isFloat]
    rw [hsame] at hle
    rcases hlt with hk0 | hlt
    · subst hk0
      rw [runningShare_zero] at hle
      exact le_antisymm hle hR0
    · exact absurd hle (not_le.mpr hlt)

/-- C9: from a mating pool of even size N, with either crossover operator and whatever the
random draws, `CrossoverStep` returns and its new population has exactly N individuals. -/
theorem C9_crossover_keeps_population_size (E : Engine) (m : APathManager) (k : Nat)
    (heven : Even m.mMatingPaths.length) :
    ∃ m2 k2, CrossoverStep E k m = some (m2, k2) ∧
      m2.mPaths.length = m.mMatingPaths.length := by
  obtain ⟨n, hn⟩ := heven
  obtain ⟨r, hr, hl⟩ := crossoverLoop_length E m n m.mMatingPaths k [] 0 (by omega)
  refine ⟨{ m with
      mPaths := r.1
      mGenerationInfo := { m.mGenerationInfo with mCrossoverAmount := r.2.1 } }, r.2.2, ?_, ?_⟩
  · unfold CrossoverStep
    rw [hr]; rfl
  · simpa using hl

/-- C10: single-point crossover of two parents, shorter being the parent with fewer
waypoints (the first parent when the lengths are equal), s its length and p a crossover
point in [0, s]: the first s waypoints of offspring-0 are shorter's at the indices below p
followed by longer's at the indices p..s-1, the first s waypoints of offspring-1 are
longer's below p followed by shorter's at p..s-1, and the first p waypoints of offspring-0
are the first p waypoints of shorter.  In `CrossoverStep` the point is the integer drawn
from [0, s]. -/
theorem C10_single_point_offspring_start (E : Engine) (m : APathManager) (a b : APath)
    (p : Int) (k : Nat)
    (hp0 : 0 ≤ p) (hps : p ≤ (orderParents a b).1.GetAmountOfNodes) :
    (orderParents a b).1
      = (if b.mGeneticRepresentation.length < a.mGeneticRepresentation.length then b else a) ∧
    (orderParents a b).2
      = (if b.mGeneticRepresentation.length < a.mGeneticRepresentation.length then a else b) ∧
    (singlePointCrossover E m (orderParents a b).1 (orderParents a b).2 p k).1.mGeneticRepresentation.take
        (orderParents a b).1.mGeneticRepresentation.length
      = crossedStart (orderParents a b).1.mGeneticRepresentation
          (orderParents a b).2.mGeneticRepresentation p.toNat
          (orderParents a b).1.mGeneticRepresentation.length ∧
    (singlePointCrossover E m (orderParents a b).1 (orderParents a b).2 p k).2.1.mGeneticRepresentation.take
        (orderParents a b).1.mGeneticRepresentation.length
      = crossedStart (orderParents a b).2.mGeneticRepresentation
          (orderParents a b).1.mGeneticRepresentation p.toNat
          (orderParents a b).1.mGeneticRepresentation.length ∧
    (singlePointCrossover E m (orderParents a b).1 (orderParents a b).2 p k).1.mGeneticRepresentation.take
        p.toNat
      = (orderParents a b).1.mGeneticRepresentation.take p.toNat ∧
    (m.CrossoverOperator = ECrossoverOperator.SinglePoint → ∀ k0,
      crossoverPair E m a b k0
        = singlePointCrossover E m (orderParents a b).1 (orderParents a b).2
            (E.RandRange k0 0 (orderParents a b).1.GetAmountOfNodes) (k0 + 1)) := by
  have hle := orderParents_le a b
  have hps2 : p ≤ ((orderParents a b).1.mGeneticRepresentation.length : Int) := hps
  obtain ⟨⟨t0, h0, c0⟩, ⟨t1, h1, c1⟩⟩ := singlePointLoop_start E m (orderParents a b).1
    (orderParents a b).2 p (orderParents a b).2.GetGeneticRepresentation 0 k SpawnActor SpawnActor
    (by simp [APath.GetGeneticRepresentation]) hle
  have g0 : (singlePointCrossover E m (orderParents a b).1 (orderParents a b).2 p
      k).1.mGeneticRepresentation = t0 := by
    unfold singlePointCrossover APath.DetermineGeneticRepresentation
    simp only []
    rw [h0]; simp [SpawnActor]
  have g1 : (singlePointCrossover E m (orderParents a b).1 (orderParents a b).2 p
      k).2.1.mGeneticRepresentation = t1 := by
    unfold singlePointCrossover APath.DetermineGeneticRepresentation
    simp only []
    rw [h1]; simp [SpawnActor]
  have e0 := take_eq_crossedStart t0 (orderParents a b).1.mGeneticRepresentation
    (orderParents a b).2.mGeneticRepresentation p
    (orderParents a b).1.mGeneticRepresentation.length
    (fun i hi => by simpa [APath.GetChromosome] using c0 i (Nat.zero_le i) hi)
    hp0 hps2 (le_refl _) hle
  have e1 := take_eq_crossedStart t1 (orderParents a b).2.mGeneticRepresentation
    (orderParents a b).1.mGeneticRepresentation p
    (orderParents a b).1.mGeneticRepresentation.length
    (fun i hi => by simpa [APath.GetChromosome] using c1 i (Nat.zero_le i) hi)
    hp0 hps2 hle (le_refl _)
  refine ⟨?_, ?_, by rw [g0]; exact e0, by rw [g1]; exact e1, ?_, ?_⟩
  · unfold orderParents APath.GetAmountOfNodes
    by_cases h : b.mGeneticRepresentation.length < a.mGeneticRepresentation.length
    · have h2 : (a.mGeneticRepresentation.length : Int) > b.mGeneticRepresentation.length := by
        omega
      rw [if_pos h2, if_pos h]
    · have h2 : ¬ (a.mGeneticRepresentation.length : Int) > b.mGeneticRepresentation.length := by
        omega
      rw [if_neg h2, if_neg h]
  · unfold orderParents APath.GetAmountOfNodes
    by_cases h : b.mGeneticRepresentation.length < a.mGeneticRepresentation.length
    · have h2 : (a.mGeneticRepresentation.length : Int) > b.mGeneticRepresentation.length := by
        omega
      rw [if_pos h2, if_pos h]
    · have h2 : ¬ (a.mGeneticRepresentation.length : Int) > b.mGeneticRepresentation.length := by
        omega
      rw [if_neg h2, if_neg h]
  · rw [g0]
    have hpn : p.toNat ≤ (orderParents a b).1.mGeneticRepresentation.length := by omega
    have h3 : t0.take p.toNat
        = (t0.take (orderParents a b).1.mGeneticRepresentation.length).take p.toNat := by
      rw [List.take_take, min_eq_left hpn]
    rw [h3, e0]
    unfold crossedStart
    rw [List.take_append_of_le_length (by simp; omega), List.take_take, min_self]
  · intro hop k0
    unfold crossoverPair
    rw [hop]

/-- C11: uniform crossover of two parents, shorter being the parent with fewer waypoints:
at every index i below the shorter length the pair (offspring-0[i], offspring-1[i]) is
(shorter[i], longer[i]) when the flip of that index (the random call number k + i) is below
50 and (longer[i], shorter[i]) otherwise.  In `CrossoverStep` with the uniform operator the
pair is built by this crossover. -/
theorem C11_uniform_offspring_positions (E : Engine) (m : APathManager) (a b : APath) (k i : Nat)
    (hi : i < (orderParents a b).1.mGeneticRepresentation.length) :
    (∃ x y, (orderParents a b).1.mGeneticRepresentation[i]? = some x ∧
      (orderParents a b).2.mGeneticRepresentation[i]? = some y ∧
      ((uniformCrossover E m (orderParents a b).1 (orderParents a b).2 k).1.mGeneticRepresentation[i]?,
        (uniformCrossover E m (orderParents a b).1
          (orderParents a b).2 k).2.1.mGeneticRepresentation[i]?)
        = if E.FRandRange (k + i) 0 100 < 50 then (some x, some y) else (some y, some x)) ∧
    (m.CrossoverOperator = ECrossoverOperator.Uniform → ∀ k0,
      crossoverPair E m a b k0
        = uniformCrossover E m (orderParents a b).1 (orderParents a b).2 k0) := by
  have hle := orderParents_le a b
  obtain ⟨h0, h1⟩ := uniformCrossover_genomes E m (orderParents a b).1 (orderParents a b).2 k hle
  have hi2 : i < (orderParents a b).2.mGeneticRepresentation.length := by omega
  refine ⟨⟨(orderParents a b).1.mGeneticRepresentation[i],
    (orderParents a b).2.mGeneticRepresentation[i], List.getElem?_eq_getElem hi,
    List.getElem?_eq_getElem hi2, ?_⟩, ?_⟩
  · have e0 : (orderParents a b).1.GetChromosome i
        = (orderParents a b).1.mGeneticRepresentation[i] := by
      unfold APath.GetChromosome
      rw [List.getD_eq_getElem?_getD, List.getElem?_eq_getElem hi]; rfl
    have e1 : (orderParents a b).2.GetChromosome i
        = (orderParents a b).2.mGeneticRepresentation[i] := by
      unfold APath.GetChromosome
      rw [List.getD_eq_getElem?_getD, List.getElem?_eq_getElem hi2]; rfl
    rw [h0, h1, List.getElem?_append_left (by simp [hi]),
      List.getElem?_append_left (by simp [hi]), List.getElem?_map, List.getElem?_map,
      List.getElem?_range hi]
    simp only [Option.map_some']
    rw [e0, e1]
    split_ifs <;> rfl
  · intro hop k0
    unfold crossoverPair
    rw [hop]

/-- C12 (as the code behaves): the delete operator is drawn for the single individual of
the population, whose genome has one waypoint.  The genome is unchanged, yet the deletion
count written to the stats is 1: the counter is incremented for every individual for which
the operator is drawn. -/
theorem C12_deletion_counted_on_single_waypoint :
    (chooseMutations exampleEngine singleWaypoint 1).do_deletion_mutation = true ∧
    singleWaypoint.mPaths.map (fun p => p.mGeneticRepresentation.length) = [1] ∧
    (MutationStep exampleEngine 0 singleWaypoint).1.mPaths = singleWaypoint.mPaths ∧
    (MutationStep exampleEngine 0 singleWaypoint).1.mGenerationInfo.mAmountOfDeletionMutations
      = 1 := by
  decide!

/-- C13 (as the code behaves): a second `EvaluateFitness` on the population left by the
first one changes an individual.  After the first pass the vertical path is at position 1
with fitness 100 and a clear slope flag; after the second pass the same path has the slope
flag set and fitness 50. -/
theorem C13_second_pass_changes_flag_and_fitness :
    (EvaluateFitness slopeEngine steepThenFlat).mPaths.map
        (fun q => (q.mGeneticRepresentation, q.mFitness, q.mSlopeTooIntense))
      = [(horizontalPath.mGeneticRepresentation, 200, false),
         (verticalPath.mGeneticRepresentation, 100, false)] ∧
    (EvaluateFitness slopeEngine (EvaluateFitness slopeEngine steepThenFlat)).mPaths.map
        (fun q => (q.mGeneticRepresentation, q.mFitness, q.mSlopeTooIntense))
      = [(horizontalPath.mGeneticRepresentation, 200, false),
         (verticalPath.mGeneticRepresentation, 50, true)] := by
  decide!

/-- C14: after an evaluation pass every individual is an individual of the given population
(its genome snapped to the terrain), and whatever its flag was before the pass its
`hasReachedTarget` is the outcome of the test that the final waypoint lies less than 100
units from the target: set when the distance is below 100, clear when it is above 100.
The flags are reset at the start of the pass, as the spec describes `APath`. -/
theorem C14_reached_flag_follows_distance (E : Engine) (m : APathManager) :
    ∀ q ∈ (EvaluateFitness E m).mPaths,
      (∃ p ∈ m.mPaths, q.mGeneticRepresentation = E.SnapToTerrain p.mGeneticRepresentation) ∧
      q.mHasReachedTarget = decide (distance_to_targetting_node E m q < 100) ∧
      (distance_to_targetting_node E m q < 100 → q.mHasReachedTarget = true) ∧
      (100 < distance_to_targetting_node E m q → q.mHasReachedTarget = false) := by
  intro q hq
  obtain ⟨q0, h0, rfl⟩ := (mem_EvaluateFitness_iff E m q).mp hq
  obtain ⟨j, p, hp, rfl⟩ := mem_cacheLoop E m m.mPaths 0 FitnessBounds.init q0 h0
  have hflag : ((cachePath E m j p).SetFitness
      (final_fitness E m (populationBounds E m) (cachePath E m j p))).mHasReachedTarget
      = decide (distance_to_targetting_node E m
          ((cachePath E m j p).SetFitness
            (final_fitness E m (populationBounds E m) (cachePath E m j p))) < 100) :=
    cachePath_reached E m j p
  refine ⟨⟨p, hp, cachePath_genome E m j p⟩, hflag, ?_, ?_⟩
  · intro hd
    rw [hflag, decide_eq_true hd]
  · intro hd
    rw [hflag, decide_eq_false (not_lt.mpr (le_of_lt hd))]

/-- C15 (as the code behaves): the slope test of the path at position i of the population
reads the waypoints i - 1 and i of its genome.  A vertical path (one segment at 90 degrees,
tolerance 45) is not flagged when it is alone or at position 0, and is flagged at
position 1. -/
theorem C15_slope_flag_depends_on_position :
    slopeDegrees slopeEngine ⟨0, 0, 0⟩ ⟨0, 0, 5⟩ = 90 ∧
    (EvaluateFitness slopeEngine steepAlone).mPaths.map
        (fun q => (q.mGeneticRepresentation, q.mSlopeTooIntense))
      = [(verticalPath.mGeneticRepresentation, false)] ∧
    (cachedPaths slopeEngine steepThenFlat).map
        (fun q => (q.mGeneticRepresentation, q.mSlopeTooIntense))
      = [(verticalPath.mGeneticRepresentation, false),
         (horizontalPath.mGeneticRepresentation, false)] ∧
    (cachedPaths slopeEngine flatThenSteep).map
        (fun q => (q.mGeneticRepresentation, q.mSlopeTooIntense))
      = [(horizontalPath.mGeneticRepresentation, false),
         (verticalPath.mGeneticRepresentation, true)] := by
  decide!

/-- C16 (counterexample): the population with the node counts 3, 5, 3 and 7 and the positive
node-count weight 2^-20; the other criteria are equal across the individuals and no penalty
flag is set.  The float sum 2^-20 + 100 is 100: the individual with 3 nodes and the one with
5 nodes have the same fitness 100. -/
theorem C16_absorbed_node_weight_ties :
    0 < tinyNodeWeight.AmountOfNodesWeight ∧
    (∃ qa ∈ (EvaluateFitness exampleEngine tinyNodeWeight).mPaths,
      ∃ qb ∈ (EvaluateFitness exampleEngine tinyNodeWeight).mPaths,
        qa.GetAmountOfNodes ≠ qb.GetAmountOfNodes) ∧
    (∀ qa ∈ (EvaluateFitness exampleEngine tinyNodeWeight).mPaths,
      ∀ qb ∈ (EvaluateFitness exampleEngine tinyNodeWeight).mPaths,
        distance_to_targetting_node exampleEngine tinyNodeWeight qa
          = distance_to_targetting_node exampleEngine tinyNodeWeight qb ∧
        qa.GetLength exampleEngine = qb.GetLength exampleEngine ∧
        qa.mCanSeeTarget = qb.mCanSeeTarget ∧ qa.mHasReachedTarget = qb.mHasReachedTarget) ∧
    (∀ q ∈ (EvaluateFitness exampleEngine tinyNodeWeight).mPaths,
      q.mIsInObstacle = false ∧ q.mSlopeTooIntense = false ∧
        q.mTravelingThroughTerrain = false) ∧
    tinyThreeNodeIndividual ∈ (EvaluateFitness exampleEngine tinyNodeWeight).mPaths ∧
    tinyFiveNodeIndividual ∈ (EvaluateFitness exampleEngine tinyNodeWeight).mPaths ∧
    (∀ q ∈ (EvaluateFitness exampleEngine tinyNodeWeight).mPaths,
      tinyThreeNodeIndividual.GetAmountOfNodes ≤ q.GetAmountOfNodes) ∧
    tinyThreeNodeIndividual.GetAmountOfNodes < tinyFiveNodeIndividual.GetAmountOfNodes ∧
    fadd (1 / 1048576) 100 = 100 ∧
    tinyFiveNodeIndividual.mFitness = tinyThreeNodeIndividual.mFitness := by
  decide!

/-- C16 (amended): in an evaluated population whose individuals do not all have the same
node count (node counts within `int32`), with a positive node-count weight, the other
criteria (final waypoint distance, path length, line of sight, target reached) equal across
individuals and no penalty flag set, all individuals with the minimum node count have the
same fitness and it is at least the fitness of every individual with more nodes (the float
sum can absorb the node-count term, so the inequality is not strict in general). -/
theorem C16_fewest_nodes_rank_first (E : Engine) (m : APathManager)
    (hW : 0 < m.AmountOfNodesWeight)
    (hint : ∀ q ∈ (EvaluateFitness E m).mPaths, q.GetAmountOfNodes ≤ INT32_MAX)
    (hdiff : ∃ qa ∈ (EvaluateFitness E m).mPaths, ∃ qb ∈ (EvaluateFitness E m).mPaths,
      qa.GetAmountOfNodes ≠ qb.GetAmountOfNodes)
    (hother : ∀ qa ∈ (EvaluateFitness E m).mPaths, ∀ qb ∈ (EvaluateFitness E m).mPaths,
      distance_to_targetting_node E m qa = distance_to_targetting_node E m qb ∧
      qa.GetLength E = qb.GetLength E ∧ qa.mCanSeeTarget = qb.mCanSeeTarget ∧
      qa.mHasReachedTarget = qb.mHasReachedTarget)
    (hflags : ∀ q ∈ (EvaluateFitness E m).mPaths,
      q.mIsInObstacle = false ∧ q.mSlopeTooIntense = false ∧ q.mTravelingThroughTerrain = false) :
    ∀ q1 ∈ (EvaluateFitness E m).mPaths,
      (∀ q ∈ (EvaluateFitness E m).mPaths, q1.GetAmountOfNodes ≤ q.GetAmountOfNodes) →
      (∀ q2 ∈ (EvaluateFitness E m).mPaths, q2.GetAmountOfNodes = q1.GetAmountOfNodes →
        q2.mFitness = q1.mFitness) ∧
      (∀ q3 ∈ (EvaluateFitness E m).mPaths, q1.GetAmountOfNodes < q3.GetAmountOfNodes →
        q3.mFitness ≤ q1.mFitness) := by
  have hfacts : ∀ q ∈ (EvaluateFitness E m).mPaths,
      Encloses E m (populationBounds E m) q ∧
      q.mFitness = rawScore E m (populationBounds E m) q := by
    intro q hq
    have hf := hflags q hq
    obtain ⟨q0, h0, rfl⟩ := (mem_EvaluateFitness_iff E m q).mp hq
    exact ⟨cachedPaths_encloses E m q0 h0,
      final_fitness_unflagged E m (populationBounds E m) q0 hf⟩
  intro q1 hq1 hmin
  obtain ⟨⟨e1, _⟩, f1⟩ := hfacts q1 hq1
  have hleast : q1.GetAmountOfNodes = (populationBounds E m).least_amount_of_nodes := by
    rcases (cachedPaths_attained E m).1 with h | ⟨q0, h0, hv⟩
    · have h2 : (populationBounds E m).least_amount_of_nodes = INT32_MAX := h
      have := hint q1 hq1
      omega
    · have hmem : q0.SetFitness (final_fitness E m (populationBounds E m) q0)
          ∈ (EvaluateFitness E m).mPaths :=
        (mem_EvaluateFitness_iff E m _).mpr ⟨q0, h0, rfl⟩
      have h3 : q1.GetAmountOfNodes ≤ q0.GetAmountOfNodes :=
        hmin (q0.SetFitness (final_fitness E m (populationBounds E m) q0)) hmem
      omega
  have hne : (populationBounds E m).least_amount_of_nodes
      ≠ (populationBounds E m).most_amount_of_nodes := by
    obtain ⟨qa, ha, qb, hb, hab⟩ := hdiff
    obtain ⟨⟨a1, a2, _⟩, _⟩ := hfacts qa ha
    obtain ⟨⟨b1, b2, _⟩, _⟩ := hfacts qb hb
    omega
  have n1 := node_blend_at_least (populationBounds E m) q1 hne hleast
  constructor
  · intro q2 hq2 heq
    obtain ⟨_, f2⟩ := hfacts q2 hq2
    have n2 := node_blend_at_least (populationBounds E m) q2 hne (heq.trans hleast)
    rw [f1, f2]
    exact le_antisymm
      (rawScore_mono_node E m _ q2 q1 (le_of_lt hW) (hother q2 hq2 q1 hq1) (by rw [n1, n2]))
      (rawScore_mono_node E m _ q1 q2 (le_of_lt hW) (hother q1 hq1 q2 hq2) (by rw [n1, n2]))
  · intro q3 hq3 hlt
    obtain ⟨⟨_, c2, _⟩, f3⟩ := hfacts q3 hq3
    have n3 := node_blend_above_least (populationBounds E m) q3 (by omega) c2
    rw [f1, f3]
    exact rawScore_mono_node E m _ q3 q1 (le_of_lt hW) (hother q3 hq3 q1 hq1)
      (by rw [n1, n3]; exact zero_le_one)

/-- C17: when the start anchor or the target anchor is not available, `RunGeneration`
returns the manager it was given: population, mating pool, every individual, the fitness
aggregates, the stats and the generation counter are unchanged, and no random call is
made. -/
theorem C17_missing_anchor_skips_generation (E : Engine) (m : APathManager) (fuel k : Nat)
    (h : nodeIsValid m 0 = false ∨ nodeIsValid m 1 = false) :
    RunGeneration E fuel k m = some (m, k) := by
  unfold RunGeneration
  rw [if_neg]
  rintro ⟨h0, h1⟩
  rcases h with h | h
  · rw [h] at h0; exact Bool.false_ne_true h0
  · rw [h] at h1; exact Bool.false_ne_true h1

/-- C18 (as the code behaves): both anchors are available and the first evaluation pass
gives every individual the fitness 0.  The pass has already re-ordered and re-scored the
population, and `RunGeneration` never returns: with a zero total fitness no walk of the
roulette wheel selects, so the loop of `SelectionStep` does not end, whatever the fuel. -/
theorem C18_zero_total_fitness_never_returns :
    (nodeIsValid zeroFitness 0 = true ∧ nodeIsValid zeroFitness 1 = true) ∧
    (EvaluateFitness halfEngine zeroFitness).mTotalFitness = 0 ∧
    (EvaluateFitness halfEngine zeroFitness).mPaths ≠ zeroFitness.mPaths ∧
    ∀ fuel : Nat, RunGeneration halfEngine fuel 0 zeroFitness = none := by
  refine ⟨by decide!, by decide!, by decide!, ?_⟩
  intro fuel
  have hwalk : rouletteWalk (1 / 2) (EvaluateFitness halfEngine zeroFitness).mTotalFitness
      (EvaluateFitness halfEngine zeroFitness).mPaths 0 0 = none := by decide!
  have hsel : selectionLoop halfEngine (EvaluateFitness halfEngine zeroFitness) fuel 0 [] = none :=
    selectionLoop_none halfEngine (EvaluateFitness halfEngine zeroFitness)
      (fun _ => hwalk) fuel 0 [] (by decide!)
  unfold RunGeneration
  rw [if_pos (by decide!)]
  unfold SelectionStep
  rw [hsel]
  rfl

/-- C19: with either crossover operator and whatever the random draws, each offspring of
two non-empty parents (s the shorter length, L the longer) is s non-junk waypoints followed
by the waypoints of the longer parent's tail (indices s..L-1) whose own draw of that
offspring is below `JunkDNACrossoverProbability`, in the order of the tail; so the length
of each offspring lies in [s, L], equals the parents' length when they have the same
length, and no offspring is empty. -/
theorem C19_offspring_are_head_plus_carried_junk (E : Engine) (m : APathManager) (a b : APath)
    (k : Nat) (ha : a.mGeneticRepresentation ≠ []) (hb : b.mGeneticRepresentation ≠ []) :
    (∃ head0 head1 : List FVector,
      head0.length = (orderParents a b).1.mGeneticRepresentation.length ∧
      head1.length = (orderParents a b).1.mGeneticRepresentation.length ∧
      (crossoverPair E m a b k).1.mGeneticRepresentation
        = head0 ++ carriedTail m.JunkDNACrossoverProbability
            (fun j => junkDraw E m (junkStart m a b k + 2 * j))
            ((orderParents a b).2.mGeneticRepresentation.drop
              (orderParents a b).1.mGeneticRepresentation.length) ∧
      (crossoverPair E m a b k).2.1.mGeneticRepresentation
        = head1 ++ carriedTail m.JunkDNACrossoverProbability
            (fun j => junkDraw E m (junkStart m a b k + 2 * j + 1))
            ((orderParents a b).2.mGeneticRepresentation.drop
              (orderParents a b).1.mGeneticRepresentation.length)) ∧
    (∀ draw, (carriedTail m.JunkDNACrossoverProbability draw
        ((orderParents a b).2.mGeneticRepresentation.drop
          (orderParents a b).1.mGeneticRepresentation.length)).Sublist
      ((orderParents a b).2.mGeneticRepresentation.drop
        (orderParents a b).1.mGeneticRepresentation.length)) ∧
    ((orderParents a b).1.mGeneticRepresentation.length
        ≤ (crossoverPair E m a b k).1.mGeneticRepresentation.length ∧
      (crossoverPair E m a b k).1.mGeneticRepresentation.length
        ≤ (orderParents a b).2.mGeneticRepresentation.length) ∧
    ((orderParents a b).1.mGeneticRepresentation.length
        ≤ (crossoverPair E m a b k).2.1.mGeneticRepresentation.length ∧
      (crossoverPair E m a b k).2.1.mGeneticRepresentation.length
        ≤ (orderParents a b).2.mGeneticRepresentation.length) ∧
    (a.mGeneticRepresentation.length = b.mGeneticRepresentation.length →
      (crossoverPair E m a b k).1.mGeneticRepresentation.length
        = a.mGeneticRepresentation.length ∧
      (crossoverPair E m a b k).2.1.mGeneticRepresentation.length
        = a.mGeneticRepresentation.length) ∧
    (crossoverPair E m a b k).1.mGeneticRepresentation ≠ [] ∧
    (crossoverPair E m a b k).2.1.mGeneticRepresentation ≠ [] := by
  have hle := orderParents_le a b
  obtain ⟨head0, head1, l0, l1, g0, g1⟩ := crossoverPair_structure E m a b k
  have hsub : ∀ draw, (carriedTail m.JunkDNACrossoverProbability draw
      ((orderParents a b).2.mGeneticRepresentation.drop
        (orderParents a b).1.mGeneticRepresentation.length)).Sublist
      ((orderParents a b).2.mGeneticRepresentation.drop
        (orderParents a b).1.mGeneticRepresentation.length) :=
    fun draw => carriedTail_sublist _ draw _
  have hlen : ∀ draw, (carriedTail m.JunkDNACrossoverProbability draw
      ((orderParents a b).2.mGeneticRepresentation.drop
        (orderParents a b).1.mGeneticRepresentation.length)).length
      ≤ (orderParents a b).2.mGeneticRepresentation.length
        - (orderParents a b).1.mGeneticRepresentation.length := by
    intro draw
    have := (hsub draw).length_le
    rwa [List.length_drop] at this
  have n0 : (crossoverPair E m a b k).1.mGeneticRepresentation.length
      = (orderParents a b).1.mGeneticRepresentation.length
        + (carriedTail m.JunkDNACrossoverProbability
            (fun j => junkDraw E m (junkStart m a b k + 2 * j))
            ((orderParents a b).2.mGeneticRepresentation.drop
              (orderParents a b).1.mGeneticRepresentation.length)).length := by
    rw [g0, List.length_append, l0]
  have n1 : (crossoverPair E m a b k).2.1.mGeneticRepresentation.length
      = (orderParents a b).1.mGeneticRepresentation.length
        + (carriedTail m.JunkDNACrossoverProbability
            (fun j => junkDraw E m (junkStart m a b k + 2 * j + 1))
            ((orderParents a b).2.mGeneticRepresentation.drop
              (orderParents a b).1.mGeneticRepresentation.length)).length := by
    rw [g1, List.length_append, l1]
  have b0 := hlen (fun j => junkDraw E m (junkStart m a b k + 2 * j))
  have b1 := hlen (fun j => junkDraw E m (junkStart m a b k + 2 * j + 1))
  have hpos : 0 < (orderParents a b).1.mGeneticRepresentation.length := by
    rcases orderParents_cases a b with ⟨h, _⟩ | ⟨h, _⟩
    · rw [h]; exact List.length_pos.mpr ha
    · rw [h]; exact List.length_pos.mpr hb
  refine ⟨⟨head0, head1, l0, l1, g0, g1⟩, hsub, ⟨by omega, by omega⟩, ⟨by omega, by omega⟩,
    ?_, ?_, ?_⟩
  · intro heq
    rcases orderParents_cases a b with ⟨h, _⟩ | ⟨h, hlt⟩
    · rw [h] at n0 n1 b0 b1
      simp only [] at n0 n1 b0 b1
      constructor <;> omega
    · omega
  · intro h
    rw [h] at n0
    simp at n0
    omega
  · intro h
    rw [h] at n1
    simp at n1
    omega

/-- C20 (as the code behaves): with the odd `PopulationCount` 3 the mating pool built by
`SelectionStep` has 3 entries, and `CrossoverStep` on it reads `mMatingPaths[3]`, past the
end of the pool. -/
theorem C20_odd_population_count_reads_past_the_pool :
    (SelectionStep drawEngine 3 0 threeSharesOdd).map (fun r => r.1.mMatingPaths.length)
      = some 3 ∧
    (SelectionStep drawEngine 3 0 threeSharesOdd).isSome = true ∧
    ((SelectionStep drawEngine 3 0 threeSharesOdd).bind
      (fun r => CrossoverStep drawEngine r.2 r.1)).isNone = true := by
  decide!

/-- C21 (counterexample): three equal paths scored by the slope weight 1.7f alone, the other
weights 0 and the multipliers 1.  Every fitness and the reported maximum are 1.7f; the float
total is 5.1000004 and the reported average 1.7000002 exceeds the maximum; the fitness
factor is 1.0000001, above 1. -/
theorem C21_rounded_average_exceeds_maximum :
    slopeWeightOnly.mPaths ≠ [] ∧
    (0 ≤ slopeWeightOnly.AmountOfNodesWeight ∧ 0 ≤ slopeWeightOnly.ProximityToTargetedNodeWeight ∧
      0 ≤ slopeWeightOnly.LengthWeight ∧ 0 ≤ slopeWeightOnly.CanSeeTargetWeight ∧
      0 ≤ slopeWeightOnly.TargetReachedWeight ∧ 0 ≤ slopeWeightOnly.SlopeWeight) ∧
    ((0 ≤ slopeWeightOnly.ObstacleHitMultiplier ∧ slopeWeightOnly.ObstacleHitMultiplier ≤ 1) ∧
      (0 ≤ slopeWeightOnly.SlopeTooIntenseMultiplier ∧
        slopeWeightOnly.SlopeTooIntenseMultiplier ≤ 1) ∧
      (0 ≤ slopeWeightOnly.PiercesTerrainMultiplier ∧
        slopeWeightOnly.PiercesTerrainMultiplier ≤ 1)) ∧
    f32 (17 / 10) = 7130317 / 4194304 ∧
    (EvaluateFitness exampleEngine slopeWeightOnly).mPaths.map APath.mFitness
      = [7130317 / 4194304, 7130317 / 4194304, 7130317 / 4194304] ∧
    (EvaluateFitness exampleEngine slopeWeightOnly).mGenerationInfo.mMaximumFitness
      = 7130317 / 4194304 ∧
    (EvaluateFitness exampleEngine slopeWeightOnly).mTotalFitness = 2673869 / 524288 ∧
    (EvaluateFitness exampleEngine slopeWeightOnly).mGenerationInfo.mAverageFitness
      = 14260635 / 8388608 ∧
    (EvaluateFitness exampleEngine slopeWeightOnly).mGenerationInfo.mMaximumFitness
      < (EvaluateFitness exampleEngine slopeWeightOnly).mGenerationInfo.mAverageFitness ∧
    0 < (EvaluateFitness exampleEngine slopeWeightOnly).mGenerationInfo.mMaximumFitness ∧
    (EvaluateFitness exampleEngine slopeWeightOnly).mGenerationInfo.mFitnessFactor
      = 8388609 / 8388608 ∧
    1 < (EvaluateFitness exampleEngine slopeWeightOnly).mGenerationInfo.mFitnessFactor := by
  decide!

/-- C21 (amended): with non-negative weights, the three blended weights being floats, and
penalty multipliers in [0,1], after `EvaluateFitness` on a non-empty population of N paths
the maximum fitness of the stats is the float sum of the six weights and no individual's
fitness exceeds it.  The average fitness of the stats is the float quotient of the float
total by N; it is non-negative and at most the average the code computes for N individuals
of the maximum fitness (a value that rounding can put above the maximum).  When the
maximum is positive the fitness factor, the float quotient average / maximum, is
non-negative and at most the quotient of that bound by the maximum. -/
theorem C21_fitness_at_most_reported_maximum (E : Engine) (m : APathManager)
    (hw : 0 ≤ m.AmountOfNodesWeight ∧ 0 ≤ m.ProximityToTargetedNodeWeight ∧ 0 ≤ m.LengthWeight ∧
      0 ≤ m.CanSeeTargetWeight ∧ 0 ≤ m.TargetReachedWeight ∧ 0 ≤ m.SlopeWeight)
    (hf : f32 m.AmountOfNodesWeight = m.AmountOfNodesWeight ∧
      f32 m.ProximityToTargetedNodeWeight = m.ProximityToTargetedNodeWeight ∧
      f32 m.LengthWeight = m.LengthWeight)
    (hm : (0 ≤ m.ObstacleHitMultiplier ∧ m.ObstacleHitMultiplier ≤ 1) ∧
      (0 ≤ m.SlopeTooIntenseMultiplier ∧ m.SlopeTooIntenseMultiplier ≤ 1) ∧
      (0 ≤ m.PiercesTerrainMultiplier ∧ m.PiercesTerrainMultiplier ≤ 1))
    (hne : m.mPaths ≠ []) :
    (EvaluateFitness E m).mPaths ≠ [] ∧
    (EvaluateFitness E m).mGenerationInfo.mMaximumFitness = max_fitness m ∧
    (∀ q ∈ (EvaluateFitness E m).mPaths,
      q.mFitness ≤ (EvaluateFitness E m).mGenerationInfo.mMaximumFitness) ∧
    (EvaluateFitness E m).mGenerationInfo.mAverageFitness
      = fdiv (EvaluateFitness E m).mTotalFitness (f32 ((EvaluateFitness E m).mPaths.length : ℚ)) ∧
    0 ≤ (EvaluateFitness E m).mGenerationInfo.mAverageFitness ∧
    (EvaluateFitness E m).mGenerationInfo.mAverageFitness
      ≤ fdiv (repeatedSum (max_fitness m) (EvaluateFitness E m).mPaths.length)
          (f32 ((EvaluateFitness E m).mPaths.length : ℚ)) ∧
    (0 < (EvaluateFitness E m).mGenerationInfo.mMaximumFitness →
      (EvaluateFitness E m).mGenerationInfo.mFitnessFactor
        = fdiv (EvaluateFitness E m).mGenerationInfo.mAverageFitness
            (EvaluateFitness E m).mGenerationInfo.mMaximumFitness ∧
      0 ≤ (EvaluateFitness E m).mGenerationInfo.mFitnessFactor ∧
      (EvaluateFitness E m).mGenerationInfo.mFitnessFactor
        ≤ fdiv (fdiv (repeatedSum (max_fitness m) (EvaluateFitness E m).mPaths.length)
              (f32 ((EvaluateFitness E m).mPaths.length : ℚ))) (max_fitness m)) := by
  have hmax : (EvaluateFitness E m).mGenerationInfo.mMaximumFitness = max_fitness m := rfl
  have hfac : (EvaluateFitness E m).mGenerationInfo.mFitnessFactor
      = fdiv (EvaluateFitness E m).mGenerationInfo.mAverageFitness
          (EvaluateFitness E m).mGenerationInfo.mMaximumFitness := rfl
  have hle : ∀ q ∈ (EvaluateFitness E m).mPaths, q.mFitness ≤ max_fitness m := by
    intro q hq
    obtain ⟨q0, h0, rfl⟩ := (mem_EvaluateFitness_iff E m q).mp hq
    exact final_fitness_le_maximum E m _ q0 (cachedPaths_encloses E m q0 h0) hw hm hf
  have hge : ∀ q ∈ (EvaluateFitness E m).mPaths, 0 ≤ q.mFitness := by
    intro q hq
    obtain ⟨q0, h0, rfl⟩ := (mem_EvaluateFitness_iff E m q).mp hq
    exact final_fitness_nonneg E m _ q0 (cachedPaths_encloses E m q0 h0) hw
      ⟨hm.1.1, hm.2.1.1, hm.2.2.1⟩
  have hne2 : (EvaluateFitness E m).mPaths ≠ [] := by
    intro h
    have hl := EvaluateFitness_length E m
    rw [h] at hl
    exact hne (List.length_eq_zero.mp hl.symm)
  have hlen : (scoredPaths E m).length = (EvaluateFitness E m).mPaths.length :=
    ((EvaluateFitness_perm E m).length_eq).symm
  have htot0 : 0 ≤ (EvaluateFitness E m).mTotalFitness := by
    rw [EvaluateFitness_total]
    exact foldl_fadd_nonneg _ (fun q hq => hge q ((mem_EvaluateFitness E m q).mpr hq)) 0
      (le_refl _)
  have htot1 : (EvaluateFitness E m).mTotalFitness
      ≤ repeatedSum (max_fitness m) (EvaluateFitness E m).mPaths.length := by
    rw [EvaluateFitness_total, ← hlen]
    exact foldl_fadd_le _ _ (fun q hq => hle q ((mem_EvaluateFitness E m q).mpr hq)) 0 0
      (le_refl _)
  have hN : (0 : ℚ) ≤ f32 ((EvaluateFitness E m).mPaths.length : ℚ) :=
    f32_nonneg (Nat.cast_nonneg _)
  have havg := EvaluateFitness_average E m
  have havg0 : 0 ≤ (EvaluateFitness E m).mGenerationInfo.mAverageFitness := by
    rw [havg]; exact fdiv_nonneg htot0 hN
  have havg1 : (EvaluateFitness E m).mGenerationInfo.mAverageFitness
      ≤ fdiv (repeatedSum (max_fitness m) (EvaluateFitness E m).mPaths.length)
          (f32 ((EvaluateFitness E m).mPaths.length : ℚ)) := by
    rw [havg]
    exact f32_mono (div_le_div_of_nonneg_right htot1 hN)
  refine ⟨hne2, hmax, fun q hq => by rw [hmax]; exact hle q hq, havg, havg0, havg1, ?_⟩
  intro hpos
  refine ⟨hfac, ?_⟩
  rw [hfac, hmax]
  rw [hmax] at hpos
  exact ⟨fdiv_nonneg havg0 (le_of_lt hpos),
    f32_mono (div_le_div_of_nonneg_right havg1 (le_of_lt hpos))⟩

/-- C22: with `AggregateSelectOne` enabled, whatever the population, the mutation
probability and the random draws, `MutationStep` leaves every individual as it is (so every
genome is unchanged) and writes zero translation, insertion and deletion counts to the
stats; it consumes one random call per path. -/
theorem C22_aggregate_mode_mutates_nothing (E : Engine) (m : APathManager) (k : Nat)
    (h : m.AggregateSelectOne = true) :
    (MutationStep E k m).1.mPaths = m.mPaths ∧
    (MutationStep E k m).1.mPaths.map APath.mGeneticRepresentation
      = m.mPaths.map APath.mGeneticRepresentation ∧
    (MutationStep E k m).1.mGenerationInfo.mAmountOfTranslationMutations = 0 ∧
    (MutationStep E k m).1.mGenerationInfo.mAmountOfInsertionMutations = 0 ∧
    (MutationStep E k m).1.mGenerationInfo.mAmountOfDeletionMutations = 0 ∧
    (MutationStep E k m).2 = k + m.mPaths.length := by
  have hl := mutationLoop_aggregate E m h m.mPaths k {}
  have hp : (MutationStep E k m).1.mPaths = m.mPaths := by
    unfold MutationStep
    simp only []
    rw [hl]
  refine ⟨hp, by rw [hp], ?_, ?_, ?_, ?_⟩
  · unfold MutationStep
    simp only []
    rw [hl]
  · unfold MutationStep
    simp only []
    rw [hl]
  · unfold MutationStep
    simp only []
    rw [hl]
  · unfold MutationStep
    simp only []
    rw [hl]

/-! ## Instances of the theorems on concrete inputs -/

/-- C2 on a population of two paths, one of which ends in an obstacle. -/
theorem C2_witness :
    twoPathsPenalised ∈ (EvaluateFitness obstacleEngine twoPaths).mPaths ∧
    twoPathsPenalised.mFitness
      = timesPenalties twoPaths twoPathsPenalised
          (rawScore obstacleEngine twoPaths (populationBounds obstacleEngine twoPaths)
            twoPathsPenalised) :=
  ⟨by decide!,
    (C2_fitness_is_raw_times_penalties obstacleEngine twoPaths twoPathsPenalised
      (by decide!)).1⟩

/-- C3 on a population of two paths. -/
theorem C3_witness :
    twoPaths.mPaths ≠ [] ∧
    ((EvaluateFitness obstacleEngine twoPaths).mPaths ≠ [] ∧
      ∀ q ∈ (EvaluateFitness obstacleEngine twoPaths).mPaths, 0 ≤ q.mFitness) :=
  ⟨by decide!,
    C3_fitness_nonneg obstacleEngine twoPaths (by decide!) (by decide!) (by decide!)⟩

theorem exampleEngine_Size_nonneg : ∀ v, 0 ≤ exampleEngine.Size v := by
  intro v
  show 0 ≤ |v.X| + |v.Y| + |v.Z|
  positivity

/-- C5 on a population of two paths whose distances to the target are 6 and 2, and on a
population whose distances are 0 and 0.1f: there the spread 0.1f does not exceed 0.1f and
both proximity blends are 0. -/
theorem C5_witness :
    (twoPaths.mPaths ≠ [] ∧
      ∀ q ∈ cachedPaths exampleEngine twoPaths,
        (0 ≤ proximity_blend_value exampleEngine twoPaths
            (populationBounds exampleEngine twoPaths) q ∧
          proximity_blend_value exampleEngine twoPaths
            (populationBounds exampleEngine twoPaths) q ≤ 1) ∧
        (0 ≤ length_blend_value exampleEngine (populationBounds exampleEngine twoPaths) q ∧
          length_blend_value exampleEngine (populationBounds exampleEngine twoPaths) q ≤ 1)) ∧
    (tenthApart.mPaths ≠ [] ∧
      fsub (populationBounds exampleEngine tenthApart).furthest_distance
        (populationBounds exampleEngine tenthApart).closest_distance = f32 (1 / 10) ∧
      ∀ q ∈ cachedPaths exampleEngine tenthApart,
        proximity_blend_value exampleEngine tenthApart
          (populationBounds exampleEngine tenthApart) q = 0) :=
  ⟨⟨by decide!, fun q hq =>
      ⟨((C5_proximity_and_length_blends exampleEngine twoPaths exampleEngine_Size_nonneg
          (by decide!) (by decide!)).2 q hq).2.1,
        ((C5_proximity_and_length_blends exampleEngine twoPaths exampleEngine_Size_nonneg
          (by decide!) (by decide!)).2 q hq).2.2.1⟩⟩,
    ⟨by decide!, by decide!, fun q hq =>
      ((C5_proximity_and_length_blends exampleEngine tenthApart exampleEngine_Size_nonneg
        (by decide!) (by decide!)).2 q hq).2.2.2.2.2.1 (by decide!)⟩⟩

/-- C6 on a population of a single path. -/
theorem C6_witness :
    onePathCached ∈ cachedPaths exampleEngine onePath ∧
    node_amount_blend_value (populationBounds exampleEngine onePath) onePathCached = 0 ∧
    proximity_blend_value exampleEngine onePath (populationBounds exampleEngine onePath)
      onePathCached = 0 ∧
    length_blend_value exampleEngine (populationBounds exampleEngine onePath) onePathCached = 0 :=
  ⟨by decide!,
    (C6_degenerate_blends_are_zero exampleEngine onePath exampleEngine_Size_nonneg onePathCached
      (by decide!)).1 (by decide!),
    (C6_degenerate_blends_are_zero exampleEngine onePath exampleEngine_Size_nonneg onePathCached
      (by decide!)).2.1 (by decide!),
    (C6_degenerate_blends_are_zero exampleEngine onePath exampleEngine_Size_nonneg onePathCached
      (by decide!)).2.2.1 (by decide!)⟩

theorem drawEngine_FRand_reached :
    ∀ n, drawEngine.FRand n
      ≤ runningShare threeShares.mPaths threeShares.mTotalFitness threeShares.mPaths.length := by
  intro n
  have h1 : runningShare threeShares.mPaths threeShares.mTotalFitness threeShares.mPaths.length
      = 1 := by decide!
  rw [h1]
  show (if n = 0 then (1 / 4 : ℚ) else 7 / 10) ≤ 1
  split_ifs <;> norm_num

/-- C7 (amended) on a population with the shares 0.5, 0.3 and 0.2 and the draws 1/4 and
7/10, none of which exceeds the last running sum 1. -/
theorem C7_witness :
    threeShares.mPaths ≠ [] ∧ 0 < threeShares.mTotalFitness ∧ 0 ≤ threeShares.PopulationCount ∧
    ∃ m2, SelectionStep drawEngine 2 0 threeShares = some (m2, 2) ∧
      (m2.mMatingPaths.length : Int) = 2 := by
  obtain ⟨m2, h1, _, h3, _⟩ := (C7_selection_fills_the_mating_pool drawEngine threeShares 2 0
    (by decide!) (by decide!) (by decide!)).1 drawEngine_FRand_reached (by decide!)
  exact ⟨by decide!, by decide!, by decide!, m2, h1, h3⟩

/-- C8 (amended) at the second individual of a population with the shares 0.5, 0.3 and 0.2:
the running sum after it is the float sum of 0.5 and the float quotient 3 / 10. -/
theorem C8_witness :
    threeShares.mPaths[1]? = some (pathWithFitness 3) ∧
    runningShare threeShares.mPaths 10 2
      = fadd (runningShare threeShares.mPaths 10 1) (fdiv (pathWithFitness 3).mFitness 10) :=
  ⟨by decide!,
    (C8_selection_is_fitness_proportionate threeShares.mPaths 10 (by decide!) (by decide!)
      1 (pathWithFitness 3) (by decide!)).2.1⟩

/-- C9 on a mating pool of two paths. -/
theorem C9_witness :
    Even matingPair.mMatingPaths.length ∧
    ∃ m2 k2, CrossoverStep exampleEngine 0 matingPair = some (m2, k2) ∧
      m2.mPaths.length = matingPair.mMatingPaths.length :=
  ⟨⟨1, rfl⟩, C9_crossover_keeps_population_size exampleEngine matingPair 0 ⟨1, rfl⟩⟩

/-- C10 on parents of three and two waypoints with the crossover point 1. -/
theorem C10_witness :
    (singlePointCrossover exampleEngine matingPair
        (orderParents (pathAlongX [0, 1, 2]) (pathAlongX [10, 11])).1
        (orderParents (pathAlongX [0, 1, 2]) (pathAlongX [10, 11])).2 1 0).1.mGeneticRepresentation.take
        (1 : Int).toNat
      = (orderParents (pathAlongX [0, 1, 2])
          (pathAlongX [10, 11])).1.mGeneticRepresentation.take (1 : Int).toNat :=
  (C10_single_point_offspring_start exampleEngine matingPair (pathAlongX [0, 1, 2])
    (pathAlongX [10, 11]) 1 0 (by decide) (by decide!)).2.2.2.2.1

/-- C11 at index 1 of parents of three and two waypoints, every flip being 0. -/
theorem C11_witness :
    1 < (orderParents (pathAlongX [0, 1, 2])
      (pathAlongX [10, 11])).1.mGeneticRepresentation.length ∧
    ∃ x y,
      (orderParents (pathAlongX [0, 1, 2]) (pathAlongX [10, 11])).1.mGeneticRepresentation[1]?
        = some x ∧
      (orderParents (pathAlongX [0, 1, 2]) (pathAlongX [10, 11])).2.mGeneticRepresentation[1]?
        = some y ∧
      ((uniformCrossover exampleEngine matingPair
          (orderParents (pathAlongX [0, 1, 2]) (pathAlongX [10, 11])).1
          (orderParents (pathAlongX [0, 1, 2]) (pathAlongX [10, 11])).2
          0).1.mGeneticRepresentation[1]?,
        (uniformCrossover exampleEngine matingPair
          (orderParents (pathAlongX [0, 1, 2]) (pathAlongX [10, 11])).1
          (orderParents (pathAlongX [0, 1, 2]) (pathAlongX [10, 11])).2
          0).2.1.mGeneticRepresentation[1]?)
        = if exampleEngine.FRandRange (0 + 1) 0 100 < 50 then (some x, some y)
          else (some y, some x) :=
  ⟨by decide!,
    (C11_uniform_offspring_positions exampleEngine matingPair (pathAlongX [0, 1, 2])
      (pathAlongX [10, 11]) 0 1 (by decide!)).1⟩

/-- C14 on an individual whose flag was set before the pass and whose final waypoint is
150 units from the target (the flag is clear after the pass), and on two individuals with
clear flags at 50 and at 150 units from the target. -/
theorem C14_witness :
    ((∀ p ∈ staleFlag.mPaths, p.mHasReachedTarget = true) ∧
      staleFlagEvaluated ∈ (EvaluateFitness exampleEngine staleFlag).mPaths ∧
      distance_to_targetting_node exampleEngine staleFlag staleFlagEvaluated = 150 ∧
      staleFlagEvaluated.mHasReachedTarget = false) ∧
    (nearIndividual ∈ (EvaluateFitness exampleEngine nearAndFar).mPaths ∧
      distance_to_targetting_node exampleEngine nearAndFar nearIndividual = 50 ∧
      nearIndividual.mHasReachedTarget = true) ∧
    (farIndividual ∈ (EvaluateFitness exampleEngine nearAndFar).mPaths ∧
      distance_to_targetting_node exampleEngine nearAndFar farIndividual = 150 ∧
      farIndividual.mHasReachedTarget = false) :=
  ⟨⟨by decide!, by decide!, by decide!,
      (C14_reached_flag_follows_distance exampleEngine staleFlag staleFlagEvaluated
        (by decide!)).2.2.2 (by decide!)⟩,
    ⟨by decide!, by decide!,
      (C14_reached_flag_follows_distance exampleEngine nearAndFar nearIndividual
        (by decide!)).2.2.1 (by decide!)⟩,
    ⟨by decide!, by decide!,
      (C14_reached_flag_follows_distance exampleEngine nearAndFar farIndividual
        (by decide!)).2.2.2 (by decide!)⟩⟩

/-- C16 (amended) on a population with the node counts 3, 5, 3 and 7 and the default
weights: the individual with the waypoints 0, 3, 6 has the minimum count; the two 3-node
individuals have the fitness 200, the others 100. -/
theorem C16_witness :
    (EvaluateFitness exampleEngine nodesThreeFiveThreeSeven).mPaths.map
        (fun q => (q.GetAmountOfNodes, q.mFitness)) = [(3, 200), (3, 200), (7, 100), (5, 100)] ∧
    (∀ q2 ∈ (EvaluateFitness exampleEngine nodesThreeFiveThreeSeven).mPaths,
        q2.GetAmountOfNodes = 3 → q2.mFitness = 200) ∧
    (∀ q3 ∈ (EvaluateFitness exampleEngine nodesThreeFiveThreeSeven).mPaths,
        3 < q3.GetAmountOfNodes → q3.mFitness ≤ 200) :=
  ⟨by decide!,
    C16_fewest_nodes_rank_first exampleEngine nodesThreeFiveThreeSeven (by decide!) (by decide!)
      (by decide!) (by decide!) (by decide!)
      threeNodeIndividual (by decide!) (by decide!)⟩

/-- C17 on a manager whose target anchor is missing. -/
theorem C17_witness :
    nodeIsValid targetMissing 1 = false ∧
    RunGeneration exampleEngine 5 0 targetMissing = some (targetMissing, 0) :=
  ⟨by decide, C17_missing_anchor_skips_generation exampleEngine targetMissing 5 0
    (Or.inr (by decide))⟩

/-- C19 on parents of three and two waypoints. -/
theorem C19_witness :
    ((pathAlongX [0, 1, 2]).mGeneticRepresentation ≠ [] ∧
      (pathAlongX [10, 11]).mGeneticRepresentation ≠ []) ∧
    (crossoverPair exampleEngine matingPair (pathAlongX [0, 1, 2]) (pathAlongX [10, 11])
      0).1.mGeneticRepresentation ≠ [] ∧
    (crossoverPair exampleEngine matingPair (pathAlongX [0, 1, 2]) (pathAlongX [10, 11])
      0).2.1.mGeneticRepresentation ≠ [] :=
  ⟨⟨by decide!, by decide!⟩,
    (C19_offspring_are_head_plus_carried_junk exampleEngine matingPair (pathAlongX [0, 1, 2])
      (pathAlongX [10, 11]) 0 (by decide!) (by decide!)).2.2.2.2.2⟩

/-- C21 (amended) on a population of two paths, one of which ends in an obstacle. -/
theorem C21_witness :
    twoPaths.mPaths ≠ [] ∧
    ∀ q ∈ (EvaluateFitness obstacleEngine twoPaths).mPaths,
      q.mFitness ≤ (EvaluateFitness obstacleEngine twoPaths).mGenerationInfo.mMaximumFitness :=
  ⟨by decide!,
    (C21_fitness_at_most_reported_maximum obstacleEngine twoPaths (by decide!) (by decide!)
      (by decide!) (by decide!)).2.2.1⟩

/-- C22 on a manager in which every path is considered for mutation. -/
theorem C22_witness :
    aggregateManager.AggregateSelectOne = true ∧
    (MutationStep exampleEngine 0 aggregateManager).1.mPaths = aggregateManager.mPaths ∧
    (MutationStep exampleEngine 0 aggregateManager).1.mGenerationInfo.mAmountOfDeletionMutations
      = 0 :=
  ⟨rfl, (C22_aggregate_mode_mutates_nothing exampleEngine aggregateManager 0 rfl).1,
    (C22_aggregate_mode_mutates_nothing exampleEngine aggregateManager 0 rfl).2.2.2.2.1⟩

end GeneticTriangles
